import Mathlib

/-!
# SortMeDown engine — verification development

Shallow embedding of the core engine in `bangbang.py` (classes `TitleCleaner`,
`MediaClassifier`, `FileManager`, `MediaSorter`) over `List Char` strings and an
explicit filesystem state.  Regular expressions from the source are translated
into equivalent explicit scanners (Python `re` semantics: leftmost match,
greedy quantifiers with backtracking, ASCII inputs).  Network providers are
modelled as oracle functions.
-/

namespace SortMeDown

/-! ## Character classes (Python `re`, ASCII fragment) -/

/-- Python `\w` on the ASCII inputs this engine handles. -/
def isWordChar (c : Char) : Bool := c.isAlphanum || c == '_'

/-- Python `\s` (ASCII fragment). -/
def isSpaceChar (c : Char) : Bool :=
  c == ' ' || c == '\t' || c == '\n' || c == '\r' || c == '\x0b' || c == '\x0c'

def lowerStr (s : List Char) : List Char := s.map Char.toLower

def upperStr (s : List Char) : List Char := s.map Char.toUpper

def digitVal (c : Char) : Nat := c.toNat - '0'.toNat

/-- Value of a decimal digit string (Python `int(...)` on the all-digit tokens
    produced by the year scanner). -/
def digitsVal (s : List Char) : Nat := s.foldl (fun n c => 10 * n + digitVal c) 0

/-- Case-insensitive character equality (`re.IGNORECASE`, ASCII). -/
def ciEq (a b : Char) : Bool := a.toLower == b.toLower

/-- Case-insensitive "text starts with pattern". -/
def startsWithCI : List Char → List Char → Bool
  | [], _ => true
  | _ :: _, [] => false
  | p :: ps, c :: cs => ciEq p c && startsWithCI ps cs

/-- Wordness of the first character (empty = non-word, used for `\b` tests). -/
def headIsWord : List Char → Bool
  | [] => false
  | c :: _ => isWordChar c

/-- `\b` at a position whose previous character is a word character:
    holds iff the rest is empty or starts with a non-word character. -/
def wordBreakAfter : List Char → Bool
  | [] => true
  | c :: _ => !isWordChar c

/-! ## TitleCleaner: `METADATA_BREAKPOINT_PATTERN`

The source pattern (with `re.IGNORECASE`) is an alternation; every alternative
begins with `\s`.  Each alternative is translated below as a matcher applied to
the text that follows that whitespace character. -/

/-- `\d{4}` followed by `\b` (after an optional closing bracket; since `)` and
    `]` are non-word characters the backtracked and direct cases coincide with
    the plain word-boundary test). -/
def bpDigits4 : List Char → Bool
  | a :: b :: c :: d :: rest =>
    a.isDigit && b.isDigit && c.isDigit && d.isDigit && wordBreakAfter rest
  | _ => false

/-- Alternative `[\(\[]?\d{4}[\)\]]?\b`. -/
def bpYearAlt : List Char → Bool
  | [] => false
  | c :: rest => if c == '(' || c == '[' then bpDigits4 rest else bpDigits4 (c :: rest)

/-- Greedy `\d{1,2}\b` (backtracking from two digits to one cannot succeed,
    because the failing next character is itself a digit, i.e. a word char). -/
def digits12Bd : List Char → Bool
  | [] => false
  | a :: rest =>
    a.isDigit &&
      (match rest with
       | [] => true
       | b :: rest2 => if b.isDigit then wordBreakAfter rest2 else !isWordChar b)

/-- `[Ee]\d{1,2}\b`. -/
def bpETail : List Char → Bool
  | e :: rest => (e == 'E' || e == 'e') && digits12Bd rest
  | [] => false

/-- Alternative `[Ss]\d{1,2}[Ee]\d{1,2}\b`. -/
def bpSE : List Char → Bool
  | s :: a :: rest =>
    (s == 'S' || s == 's') && a.isDigit &&
      (match rest with
       | b :: rest2 => if b.isDigit then bpETail rest2 else bpETail (b :: rest2)
       | [] => false)
  | _ => false

/-- Alternative `[Ss]\d{1,2}\b`. -/
def bpS : List Char → Bool
  | s :: rest => (s == 'S' || s == 's') && digits12Bd rest
  | [] => false

/-- Alternative `Season\s\d{1,2}\b` (case-insensitive). -/
def bpSeasonWord (cs : List Char) : Bool :=
  startsWithCI "Season".toList cs &&
    (match cs.drop 6 with
     | w :: rest => isSpaceChar w && digits12Bd rest
     | [] => false)

/-- Alternative `\d{3,4}p\b` (greedy four digits, backtracking to three; the
    backtracked branch needs the fourth digit to be `p`, hence fails). -/
def bpRes : List Char → Bool
  | a :: b :: c :: rest =>
    a.isDigit && b.isDigit && c.isDigit &&
      (match rest with
       | d :: rest2 =>
         if d.isDigit then
           (match rest2 with
            | p :: rest3 => (p == 'p' || p == 'P') && wordBreakAfter rest3
            | [] => false)
         else (d == 'p' || d == 'P') && wordBreakAfter rest
       | [] => false)
  | _ => false

/-- A fixed alternation member (rip/codec tag) followed by `\b`. -/
def bpTagAt (tag : List Char) (cs : List Char) : Bool :=
  startsWithCI tag cs && wordBreakAfter (cs.drop tag.length)

def ripTags : List (List Char) :=
  ["WEBRip".toList, "BluRay".toList, "BDRip".toList, "DVDRip".toList,
   "HDRip".toList, "WEB-DL".toList, "HDTV".toList]

/-- `x264|x265|H\.?264|H\.?265|HEVC|AVC` — the optional dot is expanded into
    the two explicit spellings. -/
def codecTags : List (List Char) :=
  ["x264".toList, "x265".toList, "H264".toList, "H.264".toList,
   "H265".toList, "H.265".toList, "HEVC".toList, "AVC".toList]

/-- The alternation of `METADATA_BREAKPOINT_PATTERN` after its leading `\s`. -/
def matchBPTail (cs : List Char) : Bool :=
  bpYearAlt cs || bpSE cs || bpS cs || bpSeasonWord cs || bpRes cs ||
    ripTags.any (fun t => bpTagAt t cs) || codecTags.any (fun t => bpTagAt t cs)

/-- Whether `METADATA_BREAKPOINT_PATTERN` matches at this position. -/
def matchBPAt : List Char → Bool
  | c :: rest => isSpaceChar c && matchBPTail rest
  | [] => false

/-- `match.start()` of `METADATA_BREAKPOINT_PATTERN.search` (leftmost match). -/
def breakpointIdx : List Char → Option Nat
  | [] => none
  | c :: cs => if matchBPAt (c :: cs) then some 0 else (breakpointIdx cs).map (· + 1)

/-! ## TitleCleaner: the remaining `re` operations -/

/-- `re.sub(r'[\._]', ' ', name)`. -/
def subDotUnderscore (s : List Char) : List Char :=
  s.map (fun c => if c == '.' || c == '_' then ' ' else c)

/-- Scanner for `re.sub(r'\b' + tok + r'\b', ' ', text, flags=IGNORECASE)`:
    `prevW` is the wordness of the previous original-text character.  The
    `Nat` fuel (initially the text length, enough for the whole scan) keeps
    the recursion structural. -/
def removeWordCIAux (tok : List Char) : Nat → Bool → List Char → List Char
  | 0, _, l => l
  | _ + 1, _, [] => []
  | fuel + 1, prevW, c :: cs =>
    let lastW := isWordChar (((c :: cs).take tok.length).getLastD c)
    if startsWithCI tok (c :: cs) && (prevW != isWordChar c) &&
        (lastW != headIsWord (cs.drop (tok.length - 1)))
    then ' ' :: removeWordCIAux tok fuel lastW (cs.drop (tok.length - 1))
    else c :: removeWordCIAux tok fuel (isWordChar c) cs

/-- Whole-word, case-insensitive removal of one junk token (one `re.sub` from
    the loop in `clean_for_search`; junk tokens are nonempty words). -/
def removeWordCI (tok : List Char) (text : List Char) : List Char :=
  if tok = [] then text else removeWordCIAux tok text.length false text

/-- After an opening `[`: text following the first `]`, provided at least one
    character precedes it (`[^\]]+`). -/
def findAfterClose : List Char → Option (List Char)
  | [] => none
  | c :: cs => if c == ']' then some cs else findAfterClose cs

def splitClose : List Char → Option (List Char)
  | [] => none
  | c :: cs => if c == ']' then none else findAfterClose cs

/-- Fuel-driven scanner for `re.sub(r'\[[^\]]+\]', '', title_part)`; the fuel
    (initially the text length) keeps the recursion structural. -/
def stripBracketsF : Nat → List Char → List Char
  | 0, l => l
  | _ + 1, [] => []
  | fuel + 1, c :: cs =>
    if c == '[' then
      match splitClose cs with
      | some rest => stripBracketsF fuel rest
      | none => c :: stripBracketsF fuel cs
    else c :: stripBracketsF fuel cs

/-- `re.sub(r'\[[^\]]+\]', '', title_part)`. -/
def stripBrackets (l : List Char) : List Char := stripBracketsF l.length l

/-- `re.sub(r'\s+', ' ', s)` via a "currently inside a whitespace run" flag. -/
def collapseWsAux : Bool → List Char → List Char
  | _, [] => []
  | inRun, c :: cs =>
    if isSpaceChar c then
      if inRun then collapseWsAux true cs else ' ' :: collapseWsAux true cs
    else c :: collapseWsAux false cs

/-- `re.sub(r'\s+', ' ', s)`. -/
def collapseWs (l : List Char) : List Char := collapseWsAux false l

/-- Python `str.strip()`. -/
def stripEnds (l : List Char) : List Char :=
  ((l.dropWhile isSpaceChar).reverse.dropWhile isSpaceChar).reverse

/-- `TitleCleaner.clean_for_search`.  The junk set is carried as a list fixing
    one iteration order of the Python set. -/
def clean_for_search (name : List Char) (customStrings : List (List Char)) : List Char :=
  let nameWithSpaces := subDotUnderscore name
  let tempTitle := customStrings.foldl (fun t tok => removeWordCI tok t) nameWithSpaces
  let titlePart :=
    match breakpointIdx tempTitle with
    | some i => tempTitle.take i
    | none => tempTitle
  let cleaned := stripBrackets titlePart
  stripEnds (collapseWs cleaned)

/-! ## TitleCleaner: season and year extraction -/

/-- Greedy `(\d{1,2})` capture with the remaining text.  In every pattern
    using it the continuation cannot consume a digit, so greedy matching
    without backtracking is exact. -/
def takeDigits12 : List Char → Option (Nat × List Char)
  | [] => none
  | a :: rest =>
    if a.isDigit then
      match rest with
      | b :: rest2 =>
        if b.isDigit then some (10 * digitVal a + digitVal b, rest2)
        else some (digitVal a, b :: rest2)
      | [] => some (digitVal a, [])
    else none

/-- Matcher for `[Ss](\d{1,2})[Ee]\d{1,2}` at one position. -/
def mSxxEyy : List Char → Option Nat
  | s :: rest =>
    if s == 'S' || s == 's' then
      match takeDigits12 rest with
      | some (n, cont) =>
        match cont with
        | e :: d :: _ => if (e == 'E' || e == 'e') && d.isDigit then some n else none
        | _ => none
      | none => none
    else none
  | [] => none

/-- Matcher for `Season[ _-]?(\d{1,2})` (case-insensitive) at one position. -/
def mSeasonN (cs : List Char) : Option Nat :=
  if startsWithCI "Season".toList cs then
    match cs.drop 6 with
    | c :: rest =>
      if c == ' ' || c == '_' || c == '-' then (takeDigits12 rest).map (·.1)
      else (takeDigits12 (c :: rest)).map (·.1)
    | [] => none
  else none

/-- Matcher for `[Ss](\d{1,2})` at one position. -/
def mSxx : List Char → Option Nat
  | s :: rest => if s == 'S' || s == 's' then (takeDigits12 rest).map (·.1) else none
  | [] => none

/-- `re.search`: leftmost position where the matcher succeeds. -/
def searchFirst (m : List Char → Option Nat) : List Char → Option Nat
  | [] => none
  | c :: cs =>
    match m (c :: cs) with
    | some n => some n
    | none => searchFirst m cs

/-- `TitleCleaner.extract_season_info`. -/
def extract_season_info (filename : List Char) : Option Nat :=
  match searchFirst mSxxEyy filename with
  | some n => some n
  | none =>
    match searchFirst mSeasonN filename with
    | some n => some n
    | none => searchFirst mSxx filename

/-- The tokens of `re.findall(r'\b(\d{4})\b', s)` in order; the Boolean state
    is the wordness of the previous character. -/
def yearTokens : Bool → List Char → List (List Char)
  | _, [] => []
  | prev, a :: b :: c :: d :: rest =>
    if !prev && a.isDigit && b.isDigit && c.isDigit && d.isDigit && wordBreakAfter rest
    then [a, b, c, d] :: yearTokens true rest
    else yearTokens (isWordChar a) (b :: c :: d :: rest)
  | _, a :: rest => yearTokens (isWordChar a) rest

/-- `TitleCleaner.extract_year`; `currentYear` stands for
    `datetime.now().year`. -/
def extract_year (currentYear : Nat) (filename : List Char) : Option (List Char) :=
  let found := yearTokens false filename
  let inRange :=
    found.filter (fun t => decide (1900 ≤ digitsVal t) && decide (digitsVal t ≤ currentYear + 2))
  inRange.getLast?

example : clean_for_search "Title.Name.2023.1080p.BluRay.x264-GROUP".toList [] = "Title Name".toList := by decide
example : extract_year 2025 "Title.Name.2023.1080p.BluRay.x264-GROUP".toList = some "2023".toList := by decide
example : extract_season_info "Show.S01E02.mkv".toList = some 1 := by decide
example : extract_season_info "Show Season 3".toList = some 3 := by decide
example : extract_season_info "movie.mkv".toList = none := by decide
example : clean_for_search "Great.Show.S02E05.720p.HDTV".toList [] = "Great Show".toList := by decide
example : extract_year 2025 "a.S01E02.mkv".toList = none := by decide
example : clean_for_search "Some_Movie_FRENCH_2020_1080p".toList ["FRENCH".toList] = "Some Movie".toList := by decide


/-! ## Claim C8 — round trip of a well-formed dotted release name -/

/-! ## Character-class facts used by the TitleCleaner proofs -/

lemma toNat_char_ofNat (m : Nat) (h : m < 55296) : (Char.ofNat m).toNat = m := by
  rw [Char.ofNat, dif_pos (Or.inl h)]
  rfl

lemma uint32_le_toNat (a b : UInt32) : (a ≤ b) ↔ a.toNat ≤ b.toNat := by
  rw [UInt32.le_def, BitVec.le_def]
  rfl

lemma isAlpha_toNat (c : Char) (h : c.isAlpha = true) :
    (65 ≤ c.toNat ∧ c.toNat ≤ 90) ∨ (97 ≤ c.toNat ∧ c.toNat ≤ 122) := by
  simp only [Char.isAlpha, Char.isUpper, Char.isLower, Bool.or_eq_true, Bool.and_eq_true,
    decide_eq_true_eq, ge_iff_le, uint32_le_toNat] at h
  have e65 : (65 : UInt32).toNat = 65 := rfl
  have e90 : (90 : UInt32).toNat = 90 := rfl
  have e97 : (97 : UInt32).toNat = 97 := rfl
  have e122 : (122 : UInt32).toNat = 122 := rfl
  have ec : c.val.toNat = c.toNat := rfl
  omega

lemma beq_char_false (a b : Char) (h : a.toNat ≠ b.toNat) : (a == b) = false := by
  rw [beq_eq_false_iff_ne]
  intro he
  exact h (congrArg Char.toNat he)

lemma alpha_not_space (c : Char) (h : c.isAlpha = true) : isSpaceChar c = false := by
  have hr := isAlpha_toNat c h
  unfold isSpaceChar
  rw [beq_char_false, beq_char_false, beq_char_false, beq_char_false, beq_char_false,
    beq_char_false] <;> simp <;> omega

lemma alpha_not_digit (c : Char) (h : c.isAlpha = true) : c.isDigit = false := by
  have hr := isAlpha_toNat c h
  simp only [Char.isDigit, Bool.and_eq_false_iff, decide_eq_false_iff_not, ge_iff_le,
    uint32_le_toNat, not_le]
  have e48 : (48 : UInt32).toNat = 48 := rfl
  have e57 : (57 : UInt32).toNat = 57 := rfl
  have ec : c.val.toNat = c.toNat := rfl
  omega

lemma alpha_word (c : Char) (h : c.isAlpha = true) : isWordChar c = true := by
  simp [isWordChar, Char.isAlphanum, h]

lemma isAlpha_toLower (c : Char) (h : c.isAlpha = true) : c.toLower.isAlpha = true := by
  have hr := isAlpha_toNat c h
  show (if c.toNat ≥ 65 ∧ c.toNat ≤ 90 then Char.ofNat (c.toNat + 32) else c).isAlpha = true
  by_cases hc : c.toNat ≥ 65 ∧ c.toNat ≤ 90
  · rw [if_pos hc]
    have hv : (Char.ofNat (c.toNat + 32)).toNat = c.toNat + 32 := by
      apply toNat_char_ofNat; omega
    simp only [Char.isAlpha, Char.isLower, Char.isUpper, Bool.or_eq_true, Bool.and_eq_true,
      decide_eq_true_eq, ge_iff_le, uint32_le_toNat]
    have e65 : (65 : UInt32).toNat = 65 := rfl
    have e90 : (90 : UInt32).toNat = 90 := rfl
    have e97 : (97 : UInt32).toNat = 97 := rfl
    have e122 : (122 : UInt32).toNat = 122 := rfl
    have ec : ((Char.ofNat (c.toNat + 32)).val).toNat = (Char.ofNat (c.toNat + 32)).toNat := rfl
    right
    omega
  · rw [if_neg hc]; exact h

lemma digit_toNat (c : Char) (h : c.isDigit = true) : 48 ≤ c.toNat ∧ c.toNat ≤ 57 := by
  simp only [Char.isDigit, Bool.and_eq_true, decide_eq_true_eq, ge_iff_le,
    uint32_le_toNat] at h
  have e48 : (48 : UInt32).toNat = 48 := rfl
  have e57 : (57 : UInt32).toNat = 57 := rfl
  have ec : c.val.toNat = c.toNat := rfl
  omega

lemma digit_word (c : Char) (h : c.isDigit = true) : isWordChar c = true := by
  simp [isWordChar, Char.isAlphanum, h]

lemma nonspace_ciEq_space (q : Char) (h : isSpaceChar q = false) : ciEq q ' ' = false := by
  unfold ciEq
  rw [show (' ').toLower = ' ' from rfl]
  show ((if q.toNat ≥ 65 ∧ q.toNat ≤ 90 then Char.ofNat (q.toNat + 32) else q) == ' ') = false
  by_cases hq : q.toNat ≥ 65 ∧ q.toNat ≤ 90
  · rw [if_pos hq]
    apply beq_char_false
    rw [toNat_char_ofNat _ (by omega), show (' ').toNat = 32 from rfl]
    omega
  · rw [if_neg hq]
    unfold isSpaceChar at h
    simp only [Bool.or_eq_false_iff] at h
    exact h.1.1.1.1.1

/-! ## Well-formed title words -/

/-- A nonempty all-letter word that is not itself one of the metadata tags the
    breakpoint pattern recognises (case-insensitively). -/
def lowerTagWords : List (List Char) :=
  ["webrip".toList, "bluray".toList, "bdrip".toList, "dvdrip".toList,
   "hdrip".toList, "hdtv".toList, "hevc".toList, "avc".toList]

def titleWord (w : List Char) : Bool :=
  !w.isEmpty && w.all Char.isAlpha && !(lowerTagWords.contains (lowerStr w))

lemma titleWord_ne_nil {w : List Char} (h : titleWord w = true) : w ≠ [] := by
  intro he
  rw [he] at h
  exact absurd h (by decide)

lemma titleWord_alpha {w : List Char} (h : titleWord w = true) :
    ∀ c ∈ w, c.isAlpha = true := by
  unfold titleWord at h
  simp only [Bool.and_eq_true, List.all_eq_true] at h
  exact h.1.2

lemma titleWord_notTag {w : List Char} (h : titleWord w = true) :
    ∀ t ∈ lowerTagWords, lowerStr w ≠ t := by
  unfold titleWord at h
  simp only [Bool.and_eq_true, Bool.not_eq_true'] at h
  intro t ht he
  have : lowerTagWords.contains (lowerStr w) = true := List.elem_eq_true_of_mem (he ▸ ht)
  rw [this] at h
  exact Bool.noConfusion h.2

lemma lowerStr_alpha {w : List Char} (hw : ∀ c ∈ w, c.isAlpha = true) :
    ∀ c ∈ lowerStr w, c.isAlpha = true := by
  intro c hc
  obtain ⟨a, ha, rfl⟩ := List.mem_map.mp hc
  exact isAlpha_toLower a (hw a ha)

/-! ## Dot-separated joining -/

/-- `sep.join(words)` for a nonempty word list. -/
def joinSep (sep : Char) : List (List Char) → List Char
  | [] => []
  | [w] => w
  | w :: ws => w ++ sep :: joinSep sep ws

lemma joinSep_cons (sep : Char) (w : List Char) (ws : List (List Char)) (h : ws ≠ []) :
    joinSep sep (w :: ws) = w ++ sep :: joinSep sep ws := by
  cases ws with
  | nil => exact absurd rfl h
  | cons w2 ws2 => rfl

lemma joinSep_ne_nil (sep : Char) (ws : List (List Char)) (h0 : ws ≠ [])
    (h1 : ∀ w ∈ ws, w ≠ []) : joinSep sep ws ≠ [] := by
  cases ws with
  | nil => exact absurd rfl h0
  | cons w ws2 =>
    cases ws2 with
    | nil => exact h1 w (by simp)
    | cons w2 ws3 =>
      show w ++ sep :: joinSep sep (w2 :: ws3) ≠ []
      simp

lemma mem_joinSep {sep : Char} {ws : List (List Char)} {c : Char}
    (h : c ∈ joinSep sep ws) : c = sep ∨ ∃ w ∈ ws, c ∈ w := by
  induction ws with
  | nil => exact absurd h (by simp [joinSep])
  | cons w ws2 ih =>
    cases ws2 with
    | nil =>
      right
      exact ⟨w, by simp, h⟩
    | cons w2 ws3 =>
      rw [show joinSep sep (w :: w2 :: ws3) = w ++ sep :: joinSep sep (w2 :: ws3) from rfl,
        List.mem_append] at h
      rcases h with h | h
      · exact Or.inr ⟨w, by simp, h⟩
      · rw [List.mem_cons] at h
        rcases h with h | h
        · exact Or.inl h
        · rcases ih h with h2 | ⟨w3, hw3, hc⟩
          · exact Or.inl h2
          · exact Or.inr ⟨w3, by simp [hw3], hc⟩

lemma joinSep_length (sep : Char) (w : List Char) (ws : List (List Char)) (h : ws ≠ []) :
    (joinSep sep (w :: ws)).length = w.length + 1 + (joinSep sep ws).length := by
  rw [joinSep_cons sep w ws h]
  simp only [List.length_append, List.length_cons]
  omega

/-! ## Step 1 of `clean_for_search`: dots and underscores become spaces -/

lemma subDot_id_of (w : List Char)
    (h : ∀ c ∈ w, (c == '.') = false ∧ (c == '_') = false) : subDotUnderscore w = w := by
  induction w with
  | nil => rfl
  | cons c t ih =>
    show (if c == '.' || c == '_' then ' ' else c) :: subDotUnderscore t = c :: t
    rw [(h c (by simp)).1, (h c (by simp)).2, ih (fun x hx => h x (by simp [hx]))]
    rfl

lemma alpha_subDot_id (w : List Char) (hw : ∀ c ∈ w, c.isAlpha = true) :
    subDotUnderscore w = w := by
  apply subDot_id_of
  intro c hc
  have hr := isAlpha_toNat c (hw c hc)
  constructor
  · exact beq_char_false _ _ (by rw [show ('.').toNat = 46 from rfl]; omega)
  · exact beq_char_false _ _ (by rw [show ('_').toNat = 95 from rfl]; omega)

lemma digit_subDot_id (w : List Char) (hw : ∀ c ∈ w, c.isDigit = true) :
    subDotUnderscore w = w := by
  apply subDot_id_of
  intro c hc
  have hr := digit_toNat c (hw c hc)
  constructor
  · exact beq_char_false _ _ (by rw [show ('.').toNat = 46 from rfl]; omega)
  · exact beq_char_false _ _ (by rw [show ('_').toNat = 95 from rfl]; omega)

lemma subDot_append (a b : List Char) :
    subDotUnderscore (a ++ b) = subDotUnderscore a ++ subDotUnderscore b :=
  List.map_append _ a b

lemma subDot_joinSep (ws : List (List Char))
    (hw : ∀ w ∈ ws, ∀ c ∈ w, c.isAlpha = true) :
    subDotUnderscore (joinSep '.' ws) = joinSep ' ' ws := by
  induction ws with
  | nil => rfl
  | cons w ws2 ih =>
    cases ws2 with
    | nil => exact alpha_subDot_id w (hw w (by simp))
    | cons w2 ws3 =>
      rw [joinSep_cons '.' w _ (by simp), joinSep_cons ' ' w _ (by simp),
        subDot_append,
        show subDotUnderscore ('.' :: joinSep '.' (w2 :: ws3)) =
          ' ' :: subDotUnderscore (joinSep '.' (w2 :: ws3)) from rfl,
        alpha_subDot_id w (hw w (by simp)),
        ih (fun v hv => hw v (by simp [hv]))]

/-! ## Locating the metadata breakpoint -/

lemma bpIdx_nonspace_cons (c : Char) (cs : List Char) (h : isSpaceChar c = false) :
    breakpointIdx (c :: cs) = (breakpointIdx cs).map (· + 1) := by
  rw [breakpointIdx, if_neg]
  rw [show matchBPAt (c :: cs) = (isSpaceChar c && matchBPTail cs) from rfl, h]
  simp

lemma bpIdx_word_append (w r : List Char) (h : ∀ c ∈ w, isSpaceChar c = false) :
    breakpointIdx (w ++ r) = (breakpointIdx r).map (· + w.length) := by
  induction w with
  | nil =>
    rw [List.nil_append]
    cases hb : breakpointIdx r with
    | none => rfl
    | some n => simp
  | cons c t ih =>
    rw [List.cons_append, bpIdx_nonspace_cons c _ (h c (by simp)),
      ih (fun x hx => h x (by simp [hx]))]
    cases hb : breakpointIdx r with
    | none => rfl
    | some n =>
      simp only [Option.map_some, Option.map_map]
      show some (n + t.length + 1) = some (n + (c :: t).length)
      rw [List.length_cons, Nat.add_assoc]

lemma startsWithCI_long (p : List Char) (hp : ∀ c ∈ p, isSpaceChar c = false) :
    ∀ (w : List Char), w.length < p.length → (∀ c ∈ w, c.isAlpha = true) →
    ∀ z, startsWithCI p (w ++ ' ' :: z) = false := by
  induction p with
  | nil => intro w hl; exact absurd hl (by simp)
  | cons q ps ih =>
    intro w hl hw z
    cases w with
    | nil =>
      show (ciEq q ' ' && startsWithCI ps z) = false
      rw [nonspace_ciEq_space q (hp q (by simp))]
      rfl
    | cons a w2 =>
      show (ciEq q a && startsWithCI ps (w2 ++ ' ' :: z)) = false
      rw [ih (fun x hx => hp x (by simp [hx])) w2 (by simp at hl ⊢; omega)
        (fun x hx => hw x (by simp [hx])) z]
      exact Bool.and_false _

lemma startsWithCI_restrict (p : List Char) :
    ∀ (w z : List Char), p.length ≤ w.length →
    startsWithCI p (w ++ z) = startsWithCI p w := by
  induction p with
  | nil => intro w z _; rfl
  | cons q ps ih =>
    intro w z hl
    cases w with
    | nil => simp at hl
    | cons a w2 =>
      show (ciEq q a && startsWithCI ps (w2 ++ z)) = (ciEq q a && startsWithCI ps w2)
      rw [ih w2 z (by simp at hl ⊢; omega)]

lemma startsWithCI_full (p : List Char) :
    ∀ (w : List Char), p.length = w.length → startsWithCI p w = true →
    lowerStr p = lowerStr w := by
  induction p with
  | nil =>
    intro w hl _
    cases w with
    | nil => rfl
    | cons a w2 => simp at hl
  | cons q ps ih =>
    intro w hl h
    cases w with
    | nil => simp at hl
    | cons a w2 =>
      have h2 : (ciEq q a && startsWithCI ps w2) = true := h
      rw [Bool.and_eq_true] at h2
      have hq : q.toLower = a.toLower := by
        have := h2.1
        unfold ciEq at this
        exact beq_iff_eq.mp this
      show q.toLower :: lowerStr ps = a.toLower :: lowerStr w2
      rw [hq, ih w2 (by simp at hl ⊢; omega) h2.2]

lemma drop_word_append (w : List Char) (z : List Char) (n : Nat) (h : n ≤ w.length) :
    (w ++ z).drop n = w.drop n ++ z := by
  rw [List.drop_append_of_le_length h]

lemma bpTagAt_word_space (tag w z : List Char)
    (htagns : ∀ c ∈ tag, isSpaceChar c = false)
    (hw : ∀ c ∈ w, c.isAlpha = true)
    (hne : lowerStr w ≠ lowerStr tag) :
    bpTagAt tag (w ++ ' ' :: z) = false := by
  unfold bpTagAt
  rcases Nat.lt_trichotomy w.length tag.length with hl | hl | hl
  · rw [startsWithCI_long tag htagns w hl hw z]
    rfl
  · rw [startsWithCI_restrict tag w (' ' :: z) (by omega)]
    cases hst : startsWithCI tag w with
    | false => rfl
    | true =>
      exact absurd (startsWithCI_full tag w hl.symm hst).symm hne
  · rw [drop_word_append w (' ' :: z) tag.length (by omega)]
    cases hd : w.drop tag.length with
    | nil =>
      exfalso
      have := congrArg List.length hd
      rw [List.length_drop] at this
      simp at this
      omega
    | cons c rest =>
      have hc : c ∈ w := by
        have : c ∈ w.drop tag.length := by rw [hd]; simp
        exact List.mem_of_mem_drop this
      rw [show ((c :: rest) ++ ' ' :: z) = c :: (rest ++ ' ' :: z) from rfl]
      rw [show wordBreakAfter (c :: (rest ++ ' ' :: z)) = !isWordChar c from rfl,
        alpha_word c (hw c hc)]
      exact Bool.and_false _

lemma bpDigits4_nondigit_head (a : Char) (l : List Char) (h : a.isDigit = false) :
    bpDigits4 (a :: l) = false := by
  rcases l with _ | ⟨b, _ | ⟨c, _ | ⟨d, r⟩⟩⟩
  · rfl
  · rfl
  · rfl
  · simp [bpDigits4, h]

lemma digits12Bd_nondigit_head (a : Char) (l : List Char) (h : a.isDigit = false) :
    digits12Bd (a :: l) = false := by
  simp [digits12Bd, h]

lemma bpRes_nondigit_head (a : Char) (l : List Char) (h : a.isDigit = false) :
    bpRes (a :: l) = false := by
  rcases l with _ | ⟨b, _ | ⟨c, r⟩⟩
  · rfl
  · rfl
  · simp [bpRes, h]

lemma bpSeasonWord_word_space (w z : List Char)
    (hwa : ∀ c ∈ w, c.isAlpha = true) (hz : digits12Bd z = false) :
    bpSeasonWord (w ++ ' ' :: z) = false := by
  unfold bpSeasonWord
  rcases Nat.lt_trichotomy w.length 6 with hl | hl | hl
  · rw [startsWithCI_long "Season".toList (by decide) w (by simpa using hl) hwa z]
    rfl
  · rw [drop_word_append w (' ' :: z) 6 (by omega)]
    rw [List.drop_eq_nil_of_le (by omega), List.nil_append]
    rw [show (match (' ' :: z : List Char) with
      | w :: rest => isSpaceChar w && digits12Bd rest
      | [] => false) = (isSpaceChar ' ' && digits12Bd z) from rfl, hz]
    simp
  · rw [drop_word_append w (' ' :: z) 6 (by omega)]
    cases hd : w.drop 6 with
    | nil =>
      exfalso
      have := congrArg List.length hd
      rw [List.length_drop] at this
      simp at this
      omega
    | cons c rest =>
      have hc : c ∈ w := List.mem_of_mem_drop (by rw [hd]; simp)
      rw [show ((c :: rest) ++ ' ' :: z) = c :: (rest ++ ' ' :: z) from rfl]
      rw [show (match (c :: (rest ++ ' ' :: z) : List Char) with
        | w :: rest => isSpaceChar w && digits12Bd rest
        | [] => false) = (isSpaceChar c && digits12Bd (rest ++ ' ' :: z)) from rfl]
      rw [alpha_not_space c (hwa c hc)]
      simp

lemma alpha_ne_char (c : Char) (h : c.isAlpha = true) (m : Nat)
    (hm : (m < 65 ∨ (90 < m ∧ m < 97) ∨ 122 < m)) (t : Char) (ht : t.toNat = m) :
    (c == t) = false := by
  have hr := isAlpha_toNat c h
  exact beq_char_false _ _ (by omega)

lemma notTag_of_alpha {w : List Char} (hw : ∀ c ∈ w, c.isAlpha = true) (t : List Char)
    (c : Char) (hc : c ∈ t) (hca : c.isAlpha = false) : lowerStr w ≠ t := by
  intro he
  have h2 := lowerStr_alpha hw c (he ▸ hc)
  rw [hca] at h2
  exact Bool.noConfusion h2

lemma matchBPTail_word_space (w z : List Char) (hw0 : w ≠ [])
    (hwa : ∀ c ∈ w, c.isAlpha = true)
    (hnt : ∀ t ∈ lowerTagWords, lowerStr w ≠ t)
    (hz : digits12Bd z = false) :
    matchBPTail (w ++ ' ' :: z) = false := by
  obtain ⟨w0, w1, rfl⟩ : ∃ a t, w = a :: t := by
    cases w with
    | nil => exact absurd rfl hw0
    | cons a t => exact ⟨a, t, rfl⟩
  have hw0a : w0.isAlpha = true := hwa w0 (by simp)
  obtain ⟨y, r2, he2, hy⟩ : ∃ y r2, w1 ++ ' ' :: z = y :: r2 ∧ y.isDigit = false := by
    cases w1 with
    | nil => exact ⟨' ', z, rfl, by decide⟩
    | cons b w2 => exact ⟨b, w2 ++ ' ' :: z, rfl, alpha_not_digit b (hwa b (by simp))⟩
  have hYA : bpYearAlt ((w0 :: w1) ++ ' ' :: z) = false := by
    rw [List.cons_append]
    show (if w0 == '(' || w0 == '[' then bpDigits4 (w1 ++ ' ' :: z)
      else bpDigits4 (w0 :: (w1 ++ ' ' :: z))) = false
    rw [alpha_ne_char w0 hw0a 40 (by omega) '(' rfl,
      alpha_ne_char w0 hw0a 91 (by omega) '[' rfl]
    exact bpDigits4_nondigit_head w0 _ (alpha_not_digit w0 hw0a)
  have hSE : bpSE ((w0 :: w1) ++ ' ' :: z) = false := by
    rw [List.cons_append, he2]
    simp [bpSE, hy]
  have hS : bpS ((w0 :: w1) ++ ' ' :: z) = false := by
    rw [List.cons_append,
      show bpS (w0 :: (w1 ++ ' ' :: z)) =
        ((w0 == 'S' || w0 == 's') && digits12Bd (w1 ++ ' ' :: z)) from rfl,
      he2, digits12Bd_nondigit_head y r2 hy, Bool.and_false]
  have hSW : bpSeasonWord ((w0 :: w1) ++ ' ' :: z) = false :=
    bpSeasonWord_word_space (w0 :: w1) z hwa hz
  have hRes : bpRes ((w0 :: w1) ++ ' ' :: z) = false := by
    rw [List.cons_append]
    exact bpRes_nondigit_head w0 _ (alpha_not_digit w0 hw0a)
  have hrip : ripTags.any (fun t => bpTagAt t ((w0 :: w1) ++ ' ' :: z)) = false := by
    simp only [ripTags, List.any_cons, List.any_nil, Bool.or_eq_false_iff]
    refine ⟨?_, ?_, ?_, ?_, ?_, ?_, ?_, trivial⟩
    · exact bpTagAt_word_space _ _ z (by decide) hwa
        (fun he => (hnt "webrip".toList (by decide)) (he.trans (by decide)))
    · exact bpTagAt_word_space _ _ z (by decide) hwa
        (fun he => (hnt "bluray".toList (by decide)) (he.trans (by decide)))
    · exact bpTagAt_word_space _ _ z (by decide) hwa
        (fun he => (hnt "bdrip".toList (by decide)) (he.trans (by decide)))
    · exact bpTagAt_word_space _ _ z (by decide) hwa
        (fun he => (hnt "dvdrip".toList (by decide)) (he.trans (by decide)))
    · exact bpTagAt_word_space _ _ z (by decide) hwa
        (fun he => (hnt "hdrip".toList (by decide)) (he.trans (by decide)))
    · exact bpTagAt_word_space _ _ z (by decide) hwa
        (notTag_of_alpha hwa _ '-' (by decide) (by decide))
    · exact bpTagAt_word_space _ _ z (by decide) hwa
        (fun he => (hnt "hdtv".toList (by decide)) (he.trans (by decide)))
  have hcodec : codecTags.any (fun t => bpTagAt t ((w0 :: w1) ++ ' ' :: z)) = false := by
    simp only [codecTags, List.any_cons, List.any_nil, Bool.or_eq_false_iff]
    refine ⟨?_, ?_, ?_, ?_, ?_, ?_, ?_, ?_, trivial⟩
    · exact bpTagAt_word_space _ _ z (by decide) hwa
        (notTag_of_alpha hwa _ '2' (by decide) (by decide))
    · exact bpTagAt_word_space _ _ z (by decide) hwa
        (notTag_of_alpha hwa _ '2' (by decide) (by decide))
    · exact bpTagAt_word_space _ _ z (by decide) hwa
        (notTag_of_alpha hwa _ '2' (by decide) (by decide))
    · exact bpTagAt_word_space _ _ z (by decide) hwa
        (notTag_of_alpha hwa _ '.' (by decide) (by decide))
    · exact bpTagAt_word_space _ _ z (by decide) hwa
        (notTag_of_alpha hwa _ '2' (by decide) (by decide))
    · exact bpTagAt_word_space _ _ z (by decide) hwa
        (notTag_of_alpha hwa _ '.' (by decide) (by decide))
    · exact bpTagAt_word_space _ _ z (by decide) hwa
        (fun he => (hnt "hevc".toList (by decide)) (he.trans (by decide)))
    · exact bpTagAt_word_space _ _ z (by decide) hwa
        (fun he => (hnt "avc".toList (by decide)) (he.trans (by decide)))
  unfold matchBPTail
  rw [hYA, hSE, hS, hSW, hRes, hrip, hcodec]
  rfl

lemma joinSep_head_cons (sep : Char) (w : List Char) (ws : List (List Char)) (hw : w ≠ []) :
    ∃ c t, joinSep sep (w :: ws) = c :: t ∧ c ∈ w := by
  obtain ⟨a, w2, rfl⟩ : ∃ a t, w = a :: t := by
    cases w with
    | nil => exact absurd rfl hw
    | cons a t => exact ⟨a, t, rfl⟩
  cases ws with
  | nil => exact ⟨a, w2, rfl, by simp⟩
  | cons v vs => exact ⟨a, w2 ++ sep :: joinSep sep (v :: vs), rfl, by simp⟩

lemma breakpointIdx_joinSep (ws : List (List Char)) (hws : ws ≠ [])
    (hgood : ∀ w ∈ ws, titleWord w = true)
    (z : List Char) (hz : digits12Bd z = false) (hm : matchBPTail z = true) :
    breakpointIdx (joinSep ' ' ws ++ ' ' :: z) = some (joinSep ' ' ws).length := by
  induction ws with
  | nil => exact absurd rfl hws
  | cons w ws2 ih =>
    have hw := hgood w (by simp)
    have hwns : ∀ c ∈ w, isSpaceChar c = false :=
      fun c hc => alpha_not_space c (titleWord_alpha hw c hc)
    cases ws2 with
    | nil =>
      show breakpointIdx (w ++ ' ' :: z) = some w.length
      rw [bpIdx_word_append w (' ' :: z) hwns,
        show breakpointIdx (' ' :: z) =
          (if matchBPAt (' ' :: z) then some 0 else (breakpointIdx z).map (· + 1)) from rfl,
        show matchBPAt (' ' :: z) = (isSpaceChar ' ' && matchBPTail z) from rfl, hm,
        show (isSpaceChar ' ' && true) = true from rfl, if_pos rfl]
      simp
    | cons w2 ws3 =>
      have hne2 : (w2 :: ws3) ≠ ([] : List (List Char)) := by simp
      have hg2 : titleWord w2 = true := hgood w2 (by simp)
      have hX : matchBPTail (joinSep ' ' (w2 :: ws3) ++ ' ' :: z) = false := by
        cases ws3 with
        | nil =>
          exact matchBPTail_word_space w2 z (titleWord_ne_nil hg2) (titleWord_alpha hg2)
            (titleWord_notTag hg2) hz
        | cons w3 ws4 =>
          have hg3 : titleWord w3 = true := hgood w3 (by simp)
          rw [joinSep_cons ' ' w2 _ (by simp), List.append_assoc, List.cons_append]
          apply matchBPTail_word_space w2 _ (titleWord_ne_nil hg2) (titleWord_alpha hg2)
            (titleWord_notTag hg2)
          obtain ⟨c, t, hct, hcw⟩ := joinSep_head_cons ' ' w3 ws4 (titleWord_ne_nil hg3)
          rw [hct, List.cons_append]
          exact digits12Bd_nondigit_head c _ (alpha_not_digit c (titleWord_alpha hg3 c hcw))
      rw [joinSep_cons ' ' w _ hne2, List.append_assoc, List.cons_append,
        bpIdx_word_append w _ hwns,
        show breakpointIdx (' ' :: (joinSep ' ' (w2 :: ws3) ++ ' ' :: z)) =
          (if matchBPAt (' ' :: (joinSep ' ' (w2 :: ws3) ++ ' ' :: z)) then some 0
           else (breakpointIdx (joinSep ' ' (w2 :: ws3) ++ ' ' :: z)).map (· + 1)) from rfl,
        show matchBPAt (' ' :: (joinSep ' ' (w2 :: ws3) ++ ' ' :: z)) =
          (isSpaceChar ' ' && matchBPTail (joinSep ' ' (w2 :: ws3) ++ ' ' :: z)) from rfl,
        hX, Bool.and_false, if_neg (by simp), ih hne2 (fun v hv => hgood v (by simp [hv]))]
      simp only [Option.map_some, List.length_append, List.length_cons]
      have hg : ∀ a b : Nat, some (a + 1 + b) = some (b + (a + 1)) := by
        intro a b
        rw [Nat.add_comm a 1, Nat.add_comm (1 + a) b, Nat.add_comm 1 a]
      exact hg (joinSep ' ' (w2 :: ws3)).length w.length

/-! ## The truncated title passes untouched through the remaining cleanup -/

lemma stripBracketsF_id (fuel : Nat) :
    ∀ l : List Char, (∀ c ∈ l, (c == '[') = false) → stripBracketsF fuel l = l := by
  induction fuel with
  | zero => intro l _; rfl
  | succ f ih =>
    intro l h
    cases l with
    | nil => rfl
    | cons c cs =>
      show (if c == '[' then _ else c :: stripBracketsF f cs) = c :: cs
      rw [h c (by simp), if_neg (by simp)]
      rw [ih cs (fun x hx => h x (by simp [hx]))]

lemma joinSep_no_bracket (ws : List (List Char))
    (hw : ∀ w ∈ ws, ∀ c ∈ w, c.isAlpha = true) :
    ∀ c ∈ joinSep ' ' ws, (c == '[') = false := by
  intro c hc
  rcases mem_joinSep hc with rfl | ⟨w, hwmem, hcw⟩
  · decide
  · exact alpha_ne_char c (hw w hwmem c hcw) 91 (by omega) '[' rfl

lemma collapseWsAux_word (w : List Char) (hw : ∀ c ∈ w, isSpaceChar c = false)
    (h0 : w ≠ []) : ∀ (b : Bool) (r : List Char),
    collapseWsAux b (w ++ r) = w ++ collapseWsAux false r := by
  induction w with
  | nil => exact absurd rfl h0
  | cons c t ih =>
    intro b r
    show (if isSpaceChar c then _ else c :: collapseWsAux false (t ++ r)) = c :: t ++ _
    rw [hw c (by simp), if_neg (by simp)]
    cases t with
    | nil => rfl
    | cons d t2 =>
      rw [ih (fun x hx => hw x (by simp [hx])) (by simp) false r]
      rfl

lemma collapseWs_joinSep (ws : List (List Char))
    (hgood : ∀ w ∈ ws, titleWord w = true) :
    ∀ b : Bool, collapseWsAux b (joinSep ' ' ws) = joinSep ' ' ws := by
  induction ws with
  | nil => intro b; rfl
  | cons w ws2 ih =>
    have hwns : ∀ c ∈ w, isSpaceChar c = false :=
      fun c hc => alpha_not_space c (titleWord_alpha (hgood w (by simp)) c hc)
    have hwne := titleWord_ne_nil (hgood w (by simp))
    intro b
    cases ws2 with
    | nil =>
      show collapseWsAux b w = w
      rw [show w = w ++ [] from (List.append_nil w).symm, collapseWsAux_word w hwns hwne b []]
      rfl
    | cons w2 ws3 =>
      rw [joinSep_cons ' ' w _ (by simp), collapseWsAux_word w hwns hwne b]
      show w ++ (if isSpaceChar ' ' then _ else _) = _
      rw [show isSpaceChar ' ' = true from rfl, if_pos rfl]
      rw [ih (fun v hv => hgood v (by simp [hv])) true, if_neg (by simp)]

lemma stripEnds_id (l : List Char)
    (h1 : ∀ c, l.head? = some c → isSpaceChar c = false)
    (h2 : ∀ c, l.getLast? = some c → isSpaceChar c = false) : stripEnds l = l := by
  unfold stripEnds
  have hd : l.dropWhile isSpaceChar = l := by
    cases l with
    | nil => rfl
    | cons a t =>
      rw [List.dropWhile_cons, if_neg (by rw [h1 a rfl]; simp)]
  rw [hd]
  have hr : l.reverse.dropWhile isSpaceChar = l.reverse := by
    cases hl : l.reverse with
    | nil => rfl
    | cons a t =>
      have ha : l.getLast? = some a := by
        rw [← List.head?_reverse, hl]
        rfl
      rw [List.dropWhile_cons, if_neg (by rw [h2 a ha]; simp)]
  rw [hr, List.reverse_reverse]

lemma joinSep_getLast_mem (ws : List (List Char)) (h1 : ∀ w ∈ ws, w ≠ []) :
    ∀ c, (joinSep ' ' ws).getLast? = some c → ∃ w ∈ ws, c ∈ w := by
  induction ws with
  | nil => intro c hc; exact absurd hc (by simp [joinSep])
  | cons w ws2 ih =>
    intro c hc
    cases ws2 with
    | nil =>
      refine ⟨w, by simp, ?_⟩
      exact List.mem_of_getLast?_eq_some hc
    | cons w2 ws3 =>
      rw [joinSep_cons ' ' w _ (by simp)] at hc
      have hJne : joinSep ' ' (w2 :: ws3) ≠ [] :=
        joinSep_ne_nil ' ' _ (by simp) (fun v hv => h1 v (by simp [hv]))
      rw [List.getLast?_append_cons] at hc
      obtain ⟨j0, J2, hJ⟩ : ∃ a t, joinSep ' ' (w2 :: ws3) = a :: t := by
        cases hJJ : joinSep ' ' (w2 :: ws3) with
        | nil => exact absurd hJJ hJne
        | cons a t => exact ⟨a, t, rfl⟩
      rw [hJ, List.getLast?_cons_cons, ← hJ] at hc
      obtain ⟨v, hv, hcv⟩ := ih (fun v hv => h1 v (by simp [hv])) c hc
      exact ⟨v, by simp [hv], hcv⟩

lemma joinSep_head_mem (ws : List (List Char)) (h1 : ∀ w ∈ ws, w ≠ []) :
    ∀ c, (joinSep ' ' ws).head? = some c → ∃ w ∈ ws, c ∈ w := by
  intro c hc
  cases ws with
  | nil => exact absurd hc (by simp [joinSep])
  | cons w ws2 =>
    obtain ⟨a, t, hat, haw⟩ := joinSep_head_cons ' ' w ws2 (h1 w (by simp))
    rw [hat] at hc
    have : a = c := by
      have : some a = some c := hc
      exact Option.some.inj this
    exact ⟨w, by simp, this ▸ haw⟩

lemma stripEnds_joinSep (ws : List (List Char))
    (hgood : ∀ w ∈ ws, titleWord w = true) :
    stripEnds (joinSep ' ' ws) = joinSep ' ' ws := by
  apply stripEnds_id
  · intro c hc
    obtain ⟨w, hw, hcw⟩ :=
      joinSep_head_mem ws (fun v hv => titleWord_ne_nil (hgood v hv)) c hc
    exact alpha_not_space c (titleWord_alpha (hgood w hw) c hcw)
  · intro c hc
    obtain ⟨w, hw, hcw⟩ :=
      joinSep_getLast_mem ws (fun v hv => titleWord_ne_nil (hgood v hv)) c hc
    exact alpha_not_space c (titleWord_alpha (hgood w hw) c hcw)

/-! ## The year scanner on a dotted name -/

lemma yearTokens_cons_nondigit (prev : Bool) (c : Char) (rest : List Char)
    (hc : c.isDigit = false) :
    yearTokens prev (c :: rest) = yearTokens (isWordChar c) rest := by
  rcases rest with _ | ⟨b, _ | ⟨c2, _ | ⟨d, r⟩⟩⟩
  · rfl
  · rfl
  · rfl
  · simp [yearTokens, hc]

lemma yearTokens_nodigit_append (w : List Char) (hw : ∀ c ∈ w, c.isDigit = false) :
    ∀ (prev : Bool) (r : List Char),
    yearTokens prev (w ++ r) = yearTokens (w.foldl (fun _ c => isWordChar c) prev) r := by
  induction w with
  | nil => intro prev r; rfl
  | cons c t ih =>
    intro prev r
    rw [List.cons_append, yearTokens_cons_nondigit prev c _ (hw c (by simp)),
      ih (fun x hx => hw x (by simp [hx])) (isWordChar c) r]
    rfl

lemma clean_for_search_nil (name : List Char) :
    clean_for_search name [] = stripEnds (collapseWs (stripBrackets
      (match breakpointIdx (subDotUnderscore name) with
       | some i => (subDotUnderscore name).take i
       | none => subDotUnderscore name))) := rfl

lemma extract_year_eq (cy : Nat) (name : List Char) :
    extract_year cy name = ((yearTokens false name).filter
      (fun t => decide (1900 ≤ digitsVal t) && decide (digitsVal t ≤ cy + 2))).getLast? := rfl

lemma take_len_append (l1 l2 : List Char) : (l1 ++ l2).take l1.length = l1 := by
  induction l1 with
  | nil => rfl
  | cons x t ih => simp [ih]

/-- C8: for every file name of the shape
    `word.word....word.YYYY.1080p.BluRay.x264-GROUP` — a nonempty dot-separated
    title whose words are nonempty, purely alphabetic and not themselves
    rip/codec tags, followed by a 4-digit year that is acceptable for the
    current year `cy` (between 1900 and `cy + 2`) and the fixed metadata
    suffix — `clean_for_search` with an empty junk-token set returns the title
    with dots replaced by spaces and everything from the year on truncated,
    and `extract_year` returns exactly that 4-digit year token. -/
theorem C8_dotted_name_roundtrip (cy : Nat) (ws : List (List Char)) (yd : List Char)
    (hws : ws ≠ []) (hgood : ∀ w ∈ ws, titleWord w = true)
    (hy4 : yd.length = 4) (hyd : ∀ c ∈ yd, c.isDigit = true)
    (hy1 : 1900 ≤ digitsVal yd) (hy2 : digitsVal yd ≤ cy + 2) :
    clean_for_search
        (joinSep '.' ws ++ '.' :: (yd ++ ".1080p.BluRay.x264-GROUP".toList)) [] =
      joinSep ' ' ws ∧
    extract_year cy
        (joinSep '.' ws ++ '.' :: (yd ++ ".1080p.BluRay.x264-GROUP".toList)) =
      some yd := by
  obtain ⟨a, b, c, d, rfl⟩ : ∃ a b c d, yd = [a, b, c, d] := by
    rcases yd with _ | ⟨a, _ | ⟨b, _ | ⟨c, _ | ⟨d, _ | ⟨e, t⟩⟩⟩⟩⟩
    · simp at hy4
    · simp at hy4
    · simp at hy4
    · simp at hy4
    · exact ⟨a, b, c, d, rfl⟩
    · simp at hy4
  have hall : ∀ w ∈ ws, ∀ x ∈ w, x.isAlpha = true :=
    fun w hw => titleWord_alpha (hgood w hw)
  have hda : a.isDigit = true := hyd a (by simp)
  have hdb : b.isDigit = true := hyd b (by simp)
  have hdc : c.isDigit = true := hyd c (by simp)
  have hdd : d.isDigit = true := hyd d (by simp)
  have hsub : subDotUnderscore
      (joinSep '.' ws ++ '.' :: ([a, b, c, d] ++ ".1080p.BluRay.x264-GROUP".toList)) =
      joinSep ' ' ws ++ ' ' :: ([a, b, c, d] ++ " 1080p BluRay x264-GROUP".toList) := by
    rw [subDot_append, subDot_joinSep ws hall]
    congr 1
    show ' ' :: subDotUnderscore ([a, b, c, d] ++ ".1080p.BluRay.x264-GROUP".toList) =
      ' ' :: ([a, b, c, d] ++ " 1080p BluRay x264-GROUP".toList)
    rw [subDot_append,
      digit_subDot_id [a, b, c, d] (by
        intro x hx
        simp only [List.mem_cons, List.not_mem_nil, or_false] at hx
        rcases hx with rfl | rfl | rfl | rfl <;> assumption),
      show subDotUnderscore ".1080p.BluRay.x264-GROUP".toList =
        " 1080p BluRay x264-GROUP".toList from by decide]
  have hz1 : digits12Bd ([a, b, c, d] ++ " 1080p BluRay x264-GROUP".toList) = false := by
    rw [show digits12Bd ([a, b, c, d] ++ " 1080p BluRay x264-GROUP".toList) =
      (a.isDigit && (if b.isDigit then
        wordBreakAfter (c :: d :: " 1080p BluRay x264-GROUP".toList)
        else !isWordChar b)) from rfl, hdb, if_pos rfl,
      show wordBreakAfter (c :: d :: " 1080p BluRay x264-GROUP".toList) =
        !isWordChar c from rfl, digit_word c hdc]
    simp
  have hm1 : matchBPTail ([a, b, c, d] ++ " 1080p BluRay x264-GROUP".toList) = true := by
    have hna : (a == '(') = false :=
      beq_char_false _ _ (by have := digit_toNat a hda; rw [show ('(').toNat = 40 from rfl]; omega)
    have hnb : (a == '[') = false :=
      beq_char_false _ _ (by have := digit_toNat a hda; rw [show ('[').toNat = 91 from rfl]; omega)
    have hya : bpYearAlt ([a, b, c, d] ++ " 1080p BluRay x264-GROUP".toList) = true := by
      rw [show bpYearAlt ([a, b, c, d] ++ " 1080p BluRay x264-GROUP".toList) =
        (if a == '(' || a == '[' then
          bpDigits4 (b :: c :: d :: " 1080p BluRay x264-GROUP".toList)
         else bpDigits4 (a :: b :: c :: d :: " 1080p BluRay x264-GROUP".toList)) from rfl,
        hna, hnb, if_neg (by simp),
        show bpDigits4 (a :: b :: c :: d :: " 1080p BluRay x264-GROUP".toList) =
          (a.isDigit && b.isDigit && c.isDigit && d.isDigit &&
            wordBreakAfter " 1080p BluRay x264-GROUP".toList) from rfl,
        hda, hdb, hdc, hdd,
        show wordBreakAfter " 1080p BluRay x264-GROUP".toList = true from by decide]
      rfl
    unfold matchBPTail
    rw [hya]
    rfl
  have hbp := breakpointIdx_joinSep ws hws hgood
    ([a, b, c, d] ++ " 1080p BluRay x264-GROUP".toList) hz1 hm1
  constructor
  · rw [clean_for_search_nil, hsub, hbp]
    show stripEnds (collapseWs (stripBrackets
      ((joinSep ' ' ws ++ ' ' :: ([a, b, c, d] ++ " 1080p BluRay x264-GROUP".toList)).take
        (joinSep ' ' ws).length))) = joinSep ' ' ws
    rw [take_len_append, stripBrackets,
      stripBracketsF_id (joinSep ' ' ws).length (joinSep ' ' ws) (joinSep_no_bracket ws hall),
      collapseWs, collapseWs_joinSep ws hgood false, stripEnds_joinSep ws hgood]
  · rw [extract_year_eq,
      show joinSep '.' ws ++ '.' :: ([a, b, c, d] ++ ".1080p.BluRay.x264-GROUP".toList) =
        (joinSep '.' ws ++ ['.']) ++ ([a, b, c, d] ++ ".1080p.BluRay.x264-GROUP".toList) from by
          rw [List.append_assoc]; rfl,
      yearTokens_nodigit_append (joinSep '.' ws ++ ['.'])
        (by
          intro x hx
          rw [List.mem_append] at hx
          rcases hx with hx | hx
          · rcases mem_joinSep hx with rfl | ⟨w, hwm, hxw⟩
            · decide
            · exact alpha_not_digit x (hall w hwm x hxw)
          · simp only [List.mem_cons, List.not_mem_nil, or_false] at hx
            rw [hx]
            decide) false _,
      show (joinSep '.' ws ++ ['.']).foldl (fun _ c => isWordChar c) false = false from by
        rw [List.foldl_append]
        rfl,
      show yearTokens false ([a, b, c, d] ++ ".1080p.BluRay.x264-GROUP".toList) =
        (if (!false && a.isDigit && b.isDigit && c.isDigit && d.isDigit &&
            wordBreakAfter ".1080p.BluRay.x264-GROUP".toList)
         then [a, b, c, d] :: yearTokens true ".1080p.BluRay.x264-GROUP".toList
         else yearTokens (isWordChar a)
            (b :: c :: d :: ".1080p.BluRay.x264-GROUP".toList)) from rfl,
      hda, hdb, hdc, hdd,
      show wordBreakAfter ".1080p.BluRay.x264-GROUP".toList = true from by decide,
      show yearTokens true ".1080p.BluRay.x264-GROUP".toList = [] from by decide]
    show (([[a, b, c, d]] : List (List Char)).filter
      (fun t => decide (1900 ≤ digitsVal t) && decide (digitsVal t ≤ cy + 2))).getLast? =
      some [a, b, c, d]
    rw [List.filter_cons, if_pos (by rw [decide_eq_true hy1, decide_eq_true hy2]; rfl)]
    rfl

theorem C8_dotted_name_roundtrip_witness :
    clean_for_search (joinSep '.' ["Title".toList, "Name".toList] ++ '.' ::
        ("2023".toList ++ ".1080p.BluRay.x264-GROUP".toList)) [] =
      joinSep ' ' ["Title".toList, "Name".toList] ∧
    extract_year 2025 (joinSep '.' ["Title".toList, "Name".toList] ++ '.' ::
        ("2023".toList ++ ".1080p.BluRay.x264-GROUP".toList)) =
      some "2023".toList :=
  C8_dotted_name_roundtrip 2025 ["Title".toList, "Name".toList] "2023".toList
    (by decide) (by decide) (by decide) (by decide) (by decide) (by decide)

example : joinSep '.' ["Title".toList, "Name".toList] ++ '.' ::
    ("2023".toList ++ ".1080p.BluRay.x264-GROUP".toList) =
    "Title.Name.2023.1080p.BluRay.x264-GROUP".toList := by decide

/-! ## Data model: `MediaType`, `MediaInfo` -/

inductive MediaType where
  | MOVIE | TV_SERIES | ANIME_MOVIE | ANIME_SERIES | UNKNOWN
deriving DecidableEq

/-- `MediaInfo`.  `title` conflates Python `None` with `""` (both falsy and
    treated identically by `get_folder_name` and every other consumer);
    `year`/`language`/`genre` keep `Option` for `None`, with `some []`
    standing for the empty string. -/
structure MediaInfo where
  title : List Char
  year : Option (List Char)
  media_type : MediaType
  language : Option (List Char)
  genre : Option (List Char)
  season : Option Nat := none
deriving DecidableEq

/-- Python truthiness of an optional string. -/
def truthyOpt : Option (List Char) → Bool
  | some s => !s.isEmpty
  | none => false

/-- Python `needle in hay` on strings. -/
def strContains (hay pat : List Char) : Bool :=
  hay.tails.any (fun t => pat.isPrefixOf t)

def illegalFsChar (c : Char) : Bool :=
  c == '<' || c == '>' || c == ':' || c == '"' || c == '/' || c == '\\' ||
    c == '|' || c == '?' || c == '*'

/-- Decimal representation of a natural number (fuel-driven, structural). -/
def natDecAux : Nat → Nat → List Char
  | 0, _ => []
  | fuel + 1, n =>
    if n < 10 then [Char.ofNat ('0'.toNat + n)]
    else natDecAux fuel (n / 10) ++ [Char.ofNat ('0'.toNat + n % 10)]

def natDec (n : Nat) : List Char := natDecAux (n + 1) n

/-- `MediaInfo.get_folder_name`. -/
def get_folder_name (m : MediaInfo) : List Char :=
  if m.title.isEmpty then "Unknown".toList
  else
    let folderTitle := stripEnds (m.title.filter (fun c => !illegalFsChar c))
    match m.year with
    | some y => if !y.isEmpty then folderTitle ++ (' ' :: '(' :: (y ++ [')'])) else folderTitle
    | none => folderTitle

/-! ## Data model: paths, filesystem state, configuration

A path is its list of components from the root; all paths are canonical, so
`Path.resolve()` is the identity and path equality is list equality. -/

abbrev FPath : Type := List (List Char)

/-- A file, split into containing directory and file name
    (`Path.parent` / `Path.name`). -/
structure FsFile where
  dir : FPath
  name : List Char
deriving DecidableEq

/-- Filesystem state: the set of existing files and of existing directories,
    as lists. -/
structure FS where
  files : List FsFile
  dirs : List FPath
deriving DecidableEq

/-- `Config` (the fields the engine's sorting logic reads).  Directory fields
    use `none` for Python's unset `""`; `get_path` is absorbed into the types. -/
structure Config where
  SOURCE_DIR : Option FPath
  MOVIES_DIR : Option FPath
  TV_SHOWS_DIR : Option FPath
  ANIME_MOVIES_DIR : Option FPath
  ANIME_SERIES_DIR : Option FPath
  MISMATCHED_DIR : Option FPath
  SUPPORTED_EXTENSIONS : List (List Char)
  SIDECAR_EXTENSIONS : List (List Char)
  CUSTOM_STRINGS_TO_REMOVE : List (List Char)
  API_PROVIDER : List Char
  OMDB_API_KEY : List Char
  TMDB_API_KEY : List Char
  FALLBACK_SHOW_DESTINATION : List Char
  LANGUAGES_TO_SPLIT : List (List Char)
  SPLIT_MOVIES_DIR : Option FPath
  MOVIES_ENABLED : Bool
  TV_SHOWS_ENABLED : Bool
  ANIME_MOVIES_ENABLED : Bool
  ANIME_SERIES_ENABLED : Bool
  CLEANUP_MODE_ENABLED : Bool
deriving DecidableEq

/-! ## `pathlib` name helpers -/

def lastIdxOfAux (c : Char) : Nat → Option Nat → List Char → Option Nat
  | _, acc, [] => acc
  | i, acc, x :: xs => lastIdxOfAux c (i + 1) (if x == c then some i else acc) xs

def lastIdxOf (c : Char) (l : List Char) : Option Nat := lastIdxOfAux c 0 none l

/-- `Path.suffix` (CPython: last dot, provided it is neither the first nor the
    last character of the name). -/
def suffixOf (name : List Char) : List Char :=
  match lastIdxOf '.' name with
  | some i => if 0 < i && i < name.length - 1 then name.drop i else []
  | none => []

/-- `Path.stem`. -/
def stemOf (name : List Char) : List Char :=
  name.take (name.length - (suffixOf name).length)

example : suffixOf "a.S01E02.mkv".toList = ".mkv".toList := by decide
example : stemOf "a.S01E02.mkv".toList = "a.S01E02".toList := by decide
example : suffixOf ".bashrc".toList = [] := by decide

/-- The file at a (nonempty) path. -/
def fileOfPath (p : FPath) : Option FsFile :=
  match p.getLast? with
  | some n => some ⟨p.dropLast, n⟩
  | none => none

/-- `Path.exists()`: a directory or a file exists at the path. -/
def existsPath (fs : FS) (p : FPath) : Bool :=
  decide (p ∈ fs.dirs) ||
    (match fileOfPath p with
     | some f => decide (f ∈ fs.files)
     | none => false)

/-- The nonempty initial segments of a path. -/
def pathInitsAux : FPath → FPath → List FPath
  | _, [] => []
  | acc, x :: xs => (acc ++ [x]) :: pathInitsAux (acc ++ [x]) xs

def pathInits (p : FPath) : List FPath := pathInitsAux [] p

/-- Boolean path-prefix test (`str(child).startswith(str(parent))` read at
    component granularity). -/
def isPrefixL : FPath → FPath → Bool
  | [], _ => true
  | _ :: _, [] => false
  | x :: xs, y :: ys => x == y && isPrefixL xs ys

/-! ## Provider payloads and `MediaClassifier` -/

/-- The OMDb fields the classifier reads (`dict.get` with `""` defaults;
    `Title` conflates an absent key/`None` with `""`; `Type_` models the JSON
    key `Type`, a reserved word in Lean). -/
structure OmdbData where
  Title : List Char
  Year : List Char
  Type_ : List Char
  Language : List Char
  Genre : List Char
  Country : List Char
deriving DecidableEq

/-- The TMDB fields the classifier reads.  `hasTitle` is `"title" in data`;
    empty date strings stand for absent/`None` values; `translations` is the
    nested list as `(iso_639_1, english_name)` pairs. -/
structure TmdbData where
  hasTitle : Bool
  title : List Char
  name : List Char
  release_date : List Char
  first_air_date : List Char
  translations : List (List Char × List Char)
  genres : List (List Char)
deriving DecidableEq

/-- The AniList fields the classifier reads. -/
structure AnilistData where
  format : List Char
  titleEnglish : Option (List Char)
  titleRomaji : Option (List Char)
  seasonYear : Option Nat
  genres : List (List Char)
deriving DecidableEq

/-- A result of one of the two general-purpose providers, tagged by origin. -/
inductive GenData where
  | omdb (d : OmdbData)
  | tmdb (d : TmdbData)
deriving DecidableEq

/-- `data.get("Genre", "")` on a general-provider payload (a TMDB payload has
    no `Genre` key). -/
def genGenre : GenData → List Char
  | .omdb d => d.Genre
  | .tmdb _ => []

/-- `data.get("Country", "")` on a general-provider payload. -/
def genCountry : GenData → List Char
  | .omdb d => d.Country
  | .tmdb _ => []

def joinCommaSpace : List (List Char) → List Char
  | [] => []
  | [w] => w
  | w :: ws => w ++ (',' :: ' ' :: joinCommaSpace ws)

/-- `MediaClassifier._classify_from_anilist`.  `title` is
    `english or romaji` with `None` read as `""`. -/
def classify_from_anilist (d : AnilistData) : MediaInfo :=
  let fType := upperStr d.format
  let mType : MediaType :=
    if fType = "MOVIE".toList then .ANIME_MOVIE
    else if fType = "TV".toList || fType = "TV_SHORT".toList || fType = "ONA".toList ||
        fType = "OVA".toList || fType = "SPECIAL".toList then .ANIME_SERIES
    else .UNKNOWN
  let title := if truthyOpt d.titleEnglish then d.titleEnglish.getD [] else d.titleRomaji.getD []
  let year := match d.seasonYear with
    | some n => natDec n
    | none => []
  ⟨title, some year, mType, some "Japanese".toList, some (joinCommaSpace d.genres), none⟩

/-- `MediaClassifier._classify_from_omdb`; the year keeps only what precedes
    the first en dash (`.split('–')[0]`). -/
def classify_from_omdb (d : OmdbData) : MediaInfo :=
  let type_ := lowerStr d.Type_
  let mType : MediaType :=
    if type_ = "movie".toList then .MOVIE
    else if type_ = "series".toList || type_ = "tv series".toList then .TV_SERIES
    else .UNKNOWN
  ⟨d.Title, some (d.Year.takeWhile (fun c => !(c == '–'))), mType, some d.Language, some d.Genre, none⟩

/-- `MediaClassifier._classify_from_tmdb`. -/
def classify_from_tmdb (d : TmdbData) : MediaInfo :=
  let isMovie := d.hasTitle
  let title := if isMovie then d.title else d.name
  let yearSrc :=
    if !d.release_date.isEmpty then d.release_date
    else if !d.first_air_date.isEmpty then d.first_air_date
    else "\x7b\x7d".toList
  let yearStr := yearSrc.takeWhile (fun c => !(c == '-'))
  let lang :=
    if !d.translations.isEmpty then
      match d.translations.find? (fun t => t.1 == "en".toList) with
      | some t => t.2
      | none => []
    else []
  ⟨title, some yearStr, if isMovie then .MOVIE else .TV_SERIES, some lang,
    some (joinCommaSpace d.genres), none⟩

/-- `_classify_from_omdb` applied to whatever `main_api_data` holds; on a TMDB
    payload every OMDb key is absent, so all `dict.get` defaults apply
    (branch unreachable in the engine: the provider tag always matches the
    payload's origin). -/
def classify_from_omdb_like : GenData → MediaInfo
  | .omdb d => classify_from_omdb d
  | .tmdb _ => classify_from_omdb ⟨[], [], [], [], [], []⟩

/-- `MediaClassifier._classify_from_main_api`.  The mismatched-tag branches
    mirror `dict.get` on a payload lacking the other provider's keys and are
    unreachable in the engine. -/
def classify_from_main_api (g : GenData) (provider : List Char) : MediaInfo :=
  if provider = "omdb".toList then classify_from_omdb_like g
  else if provider = "tmdb".toList then
    match g with
    | .tmdb d => classify_from_tmdb d
    | .omdb _ => classify_from_tmdb ⟨false, [], [], [], [], [], []⟩
  else ⟨"Unknown".toList, none, .UNKNOWN, none, none, none⟩

/-- The three network providers as oracles: `None` is a failed or empty
    query (network errors are caught and yield `None` in the source). -/
structure Providers where
  anilist : List Char → Option AnilistData
  omdb : List Char → Option OmdbData
  tmdb : List Char → Option TmdbData

/-- `key and key != 'yourkey'`. -/
def keyOk (k : List Char) : Bool := !k.isEmpty && k ≠ "yourkey".toList

/-- `getattr(self.api_client, f"query_{provider}")(title)`; other provider
    strings raise in the source and are unreachable under a validated config. -/
def queryMain (P : Providers) (provider : List Char) (t : List Char) : Option GenData :=
  if provider = "omdb".toList then (P.omdb t).map .omdb
  else if provider = "tmdb".toList then (P.tmdb t).map .tmdb
  else none

/-- `MediaClassifier.classify_media` (rate-limit sleeps elided). -/
def classify_media (cfg : Config) (P : Providers) (name : List Char) : MediaInfo :=
  let clean_name := clean_for_search name cfg.CUSTOM_STRINGS_TO_REMOVE
  if clean_name.isEmpty then ⟨name, none, .UNKNOWN, none, none, none⟩
  else
    let anilist_data :=
      if cfg.ANIME_MOVIES_ENABLED || cfg.ANIME_SERIES_ENABLED then P.anilist clean_name else none
    let primary := cfg.API_PROVIDER
    let secondary := if primary = "omdb".toList then "tmdb".toList else "omdb".toList
    let isSecondaryAvailable :=
      if secondary = "omdb".toList then keyOk cfg.OMDB_API_KEY
      else if secondary = "tmdb".toList then keyOk cfg.TMDB_API_KEY
      else false
    let m0 := queryMain P primary clean_name
    let mainProv : Option GenData × List Char :=
      if m0.isNone && isSecondaryAvailable then
        let m1 := queryMain P secondary clean_name
        if m1.isSome then (m1, secondary) else (m1, primary)
      else (m0, primary)
    match anilist_data with
    | some a =>
      match mainProv.1 with
      | some g =>
        if mainProv.2 = "omdb".toList then
          if !strContains (lowerStr (genGenre g)) "animation".toList &&
              !strContains (lowerStr (genCountry g)) "japan".toList
          then classify_from_omdb_like g
          else classify_from_anilist a
        else classify_from_anilist a
      | none => classify_from_anilist a
    | none =>
      match mainProv.1 with
      | some g => classify_from_main_api g mainProv.2
      | none => ⟨name, none, .UNKNOWN, none, none, none⟩

/-! ## `FileManager` -/

/-- `FileManager._find_sidecar_files` (directory scan restricted to files, as
    in the engine's intended use). -/
def find_sidecar_files (cfg : Config) (fs : FS) (primary : FsFile) : List FsFile :=
  fs.files.filter (fun s =>
    decide (s.dir = primary.dir) && decide (s ≠ primary) &&
      decide (stemOf s.name = stemOf primary.name) &&
      decide (lowerStr (suffixOf s.name) ∈ cfg.SIDECAR_EXTENSIONS))

/-- `mkdir(parents=True, exist_ok=True)`. -/
def mkdirParents (fs : FS) (p : FPath) : FS :=
  { fs with dirs := fs.dirs ++ (pathInits p).filter (fun d => decide (d ∉ fs.dirs)) }

/-- `FileManager.ensure_dir`; `canCreate` is the environment oracle for
    whether `mkdir` succeeds. -/
def ensure_dir (dry canCreate : Bool) (fs : FS) (p : FPath) : FS × Bool :=
  if existsPath fs p then (fs, true)
  else if dry then (fs, true)
  else if canCreate then (mkdirParents fs p, true)
  else (fs, false)

/-- The per-file loop of `move_file_group`: skip when already at the
    destination, skip when the target exists, otherwise move (`shutil.move`
    modelled as the deterministic relocation). -/
def moveLoop (dry : Bool) (dest : FPath) : List FsFile → FS → FS
  | [], fs => fs
  | f :: rest, fs =>
    if f.dir = dest then moveLoop dry dest rest fs
    else if existsPath fs (dest ++ [f.name]) then moveLoop dry dest rest fs
    else if dry then moveLoop dry dest rest fs
    else moveLoop dry dest rest { fs with files := ⟨dest, f.name⟩ :: fs.files.erase f }

/-- `FileManager.move_file_group`.  The returned flag is
    `all_moved_successfully`, which only an OS-level move exception (absent
    from the model) can clear, conjoined with the `ensure_dir` guard. -/
def move_file_group (dry canCreate : Bool) (fs : FS) (group : List FsFile) (dest : FPath) :
    FS × Bool :=
  match ensure_dir dry canCreate fs dest with
  | (fs1, false) => (fs1, false)
  | (fs1, true) => (moveLoop dry dest group fs1, true)

/-- `FileManager.delete_file_group`. -/
def delete_file_group (dry : Bool) (cfg : Config) (fs : FS) (primary : FsFile) : FS :=
  let group := primary :: find_sidecar_files cfg fs primary
  if dry then fs
  else { fs with files := group.foldl (fun l g => l.erase g) fs.files }

/-! ## `MediaSorter` -/

/-- `self.stats` (the fixed key set installed by `process_source_directory`). -/
structure Stats where
  processed : Nat
  movies : Nat
  tv : Nat
  anime_movies : Nat
  anime_series : Nat
  split_lang_movies : Nat
  unknown : Nat
  errors : Nat
deriving DecidableEq

def statsZero : Stats := ⟨0, 0, 0, 0, 0, 0, 0, 0⟩

/-- `MediaSorter._get_mismatched_path`. -/
def get_mismatched_path (cfg : Config) : Option FPath :=
  match cfg.MISMATCHED_DIR with
  | some p => some p
  | none =>
    match cfg.SOURCE_DIR with
    | some sp => some (sp ++ ["_Mismatched".toList])
    | none => none

/-- `all(self.fm.ensure_dir(d) for d in dirs_to_check if d)` — the generator
    short-circuits on the first failure. -/
def ensureAll (dry canCreate : Bool) : List FPath → FS → FS × Bool
  | [], fs => (fs, true)
  | d :: ds, fs =>
    match ensure_dir dry canCreate fs d with
    | (fs1, true) => ensureAll dry canCreate ds fs1
    | (fs1, false) => (fs1, false)

/-- `dirs_to_check` of `MediaSorter.ensure_target_dirs`, `None`s dropped. -/
def targetDirsList (cfg : Config) : List FPath :=
  ([get_mismatched_path cfg] ++
    (if cfg.MOVIES_ENABLED then [cfg.MOVIES_DIR] else []) ++
    (if cfg.TV_SHOWS_ENABLED then [cfg.TV_SHOWS_DIR] else []) ++
    (if cfg.ANIME_MOVIES_ENABLED then [cfg.ANIME_MOVIES_DIR] else []) ++
    (if cfg.ANIME_SERIES_ENABLED then [cfg.ANIME_SERIES_DIR] else []) ++
    (if !cfg.LANGUAGES_TO_SPLIT.isEmpty && cfg.SPLIT_MOVIES_DIR.isSome
     then [cfg.SPLIT_MOVIES_DIR] else [])).reduceOption

/-- `MediaSorter.ensure_target_dirs`. -/
def ensure_target_dirs (dry canCreate : Bool) (cfg : Config) (fs : FS) : FS × Bool :=
  if cfg.CLEANUP_MODE_ENABLED then (fs, true)
  else ensureAll dry canCreate (targetDirsList cfg) fs

/-- `MediaSorter._validate_api_result`; `cy` is `datetime.now().year`. -/
def validate_api_result (cfg : Config) (cy : Nat) (fname term : List Char)
    (apiInfo : MediaInfo) : MediaInfo :=
  let info1 :=
    if (extract_season_info fname).isSome &&
        (apiInfo.media_type == .MOVIE || apiInfo.media_type == .ANIME_MOVIE) then
      { apiInfo with media_type :=
          if truthyOpt apiInfo.language &&
              strContains (lowerStr (apiInfo.language.getD [])) "japanese".toList
          then .ANIME_SERIES else .TV_SERIES }
    else apiInfo
  let yearInFilename :=
    if truthyOpt (extract_year cy fname) then extract_year cy fname else extract_year cy term
  match yearInFilename, info1.year with
  | some y, some ay =>
    if !y.isEmpty && !ay.isEmpty && y != ay then
      { info1 with
        media_type := MediaType.UNKNOWN
        title := clean_for_search term cfg.CUSTOM_STRINGS_TO_REMOVE
        year := some y }
    else info1
  | _, _ => info1

/-- `Path.name` of a directory (its last component). -/
def dirNameOf (d : FPath) : List Char := d.getLast?.getD []

/-- The classification stage of `MediaSorter.sort_item` (folder-name first,
    filename-stem fallback), returning the record together with
    `successful_search_term`.  `classify` is the oracle standing for
    `self.classifier.classify_media(·, self.cfg.CUSTOM_STRINGS_TO_REMOVE)`
    in a fixed network state. -/
def classifyStage (cfg : Config) (classify : List Char → MediaInfo) (item : FsFile)
    (override : Option (List Char)) : MediaInfo × List Char :=
  match override with
  | some ov => (classify ov, ov)
  | none =>
    let isInSubfolder := decide (some item.dir ≠ cfg.SOURCE_DIR)
    let primaryName := if isInSubfolder then dirNameOf item.dir else stemOf item.name
    let initialInfo := classify primaryName
    if initialInfo.media_type == .UNKNOWN && isInSubfolder then
      let secondaryName := stemOf item.name
      if lowerStr secondaryName ≠ lowerStr primaryName then
        let fallbackInfo := classify secondaryName
        if fallbackInfo.media_type != .UNKNOWN then (fallbackInfo, secondaryName)
        else (initialInfo, primaryName)
      else (initialInfo, primaryName)
    else (initialInfo, primaryName)

/-- `f"Season {season:02d}"`. -/
def seasonFolder (n : Nat) : List Char :=
  "Season ".toList ++ (if n < 10 then '0' :: natDec n else natDec n)

/-- Python `str.split(',')` (always at least one piece). -/
def splitCommaAux : List Char → List Char → List (List Char)
  | acc, [] => [acc.reverse]
  | acc, c :: cs =>
    if c == ',' then acc.reverse :: splitCommaAux [] cs else splitCommaAux (c :: acc) cs

def splitComma (l : List Char) : List (List Char) := splitCommaAux [] l

/-- `key = 'anime_movies' if … else 'movies'`, overridden to
    `'split_lang_movies'` when the base directory is the split directory. -/
def bumpMovieKey (isAnime isSplit : Bool) (s : Stats) : Stats :=
  if isSplit then { s with split_lang_movies := s.split_lang_movies + 1 }
  else if isAnime then { s with anime_movies := s.anime_movies + 1 }
  else { s with movies := s.movies + 1 }

def bumpSeriesKey (isAnime : Bool) (s : Stats) : Stats :=
  if isAnime then { s with anime_series := s.anime_series + 1 }
  else { s with tv := s.tv + 1 }

/-- `MediaSorter.sort_item`. -/
def sort_item (cfg : Config) (classify : List Char → MediaInfo) (cy : Nat)
    (dry canCreate : Bool) (item : FsFile) (override : Option (List Char))
    (fs : FS) (s : Stats) : FS × Stats :=
  if decide (lowerStr (suffixOf item.name) ∈ cfg.SIDECAR_EXTENSIONS) then (fs, s)
  else
    let cl := classifyStage cfg classify item override
    let info := validate_api_result cfg cy item.name cl.2 cl.1
    let files_to_move := item :: find_sidecar_files cfg fs item
    if info.media_type = .UNKNOWN then
      let s1 := { s with unknown := s.unknown + 1 }
      if cfg.CLEANUP_MODE_ENABLED then (fs, s1)
      else
        match get_mismatched_path cfg with
        | none => (fs, { s1 with errors := s1.errors + 1 })
        | some mismatchedPath =>
          if (extract_season_info item.name).isSome then
            if cfg.FALLBACK_SHOW_DESTINATION = "ignore".toList then (fs, s1)
            else
              let base : Option FPath :=
                if cfg.FALLBACK_SHOW_DESTINATION = "tv".toList then cfg.TV_SHOWS_DIR
                else if cfg.FALLBACK_SHOW_DESTINATION = "anime".toList then cfg.ANIME_SERIES_DIR
                else if cfg.FALLBACK_SHOW_DESTINATION = "mismatched".toList then some mismatchedPath
                else none
              match base with
              | none => (fs, { s1 with errors := s1.errors + 1 })
              | some b =>
                let season := (extract_season_info item.name).getD 1
                let dest := b ++ [get_folder_name info, seasonFolder season]
                let mr := move_file_group dry canCreate fs files_to_move dest
                if mr.2 then
                  let s2 := { s1 with unknown := s1.unknown - 1 }
                  if cfg.FALLBACK_SHOW_DESTINATION = "tv".toList then
                    (mr.1, { s2 with tv := s2.tv + 1 })
                  else if cfg.FALLBACK_SHOW_DESTINATION = "anime".toList then
                    (mr.1, { s2 with anime_series := s2.anime_series + 1 })
                  else (mr.1, { s2 with unknown := s2.unknown + 1 })
                else (mr.1, { s1 with errors := s1.errors + 1 })
          else
            let dest := mismatchedPath ++ [get_folder_name info]
            let mr := move_file_group dry canCreate fs files_to_move dest
            if mr.2 then (mr.1, { s1 with unknown := s1.unknown - 1, movies := s1.movies + 1 })
            else (mr.1, { s1 with errors := s1.errors + 1 })
    else
      let enabled :=
        match info.media_type with
        | .MOVIE => cfg.MOVIES_ENABLED
        | .TV_SERIES => cfg.TV_SHOWS_ENABLED
        | .ANIME_MOVIE => cfg.ANIME_MOVIES_ENABLED
        | .ANIME_SERIES => cfg.ANIME_SERIES_ENABLED
        | .UNKNOWN => true
      if !enabled then (fs, s)
      else
        let base0 : Option FPath :=
          if cfg.CLEANUP_MODE_ENABLED then some item.dir
          else
            match info.media_type with
            | .MOVIE => cfg.MOVIES_DIR
            | .TV_SERIES => cfg.TV_SHOWS_DIR
            | .ANIME_MOVIE => cfg.ANIME_MOVIES_DIR
            | .ANIME_SERIES => cfg.ANIME_SERIES_DIR
            | .UNKNOWN => none
        let base1 : Option FPath :=
          if info.media_type == .MOVIE && cfg.SPLIT_MOVIES_DIR.isSome &&
              !cfg.LANGUAGES_TO_SPLIT.isEmpty && !cfg.CLEANUP_MODE_ENABLED then
            let movieLanguages :=
              (splitComma (info.language.getD [])).map (fun l => lowerStr (stripEnds l))
            let splitLanguages := cfg.LANGUAGES_TO_SPLIT.map (fun l => lowerStr (stripEnds l))
            let shouldSplit :=
              if splitLanguages.contains "all".toList
              then !(movieLanguages.contains "english".toList)
              else movieLanguages.any (fun l => splitLanguages.contains l)
            if shouldSplit then cfg.SPLIT_MOVIES_DIR else base0
          else base0
        match base1 with
        | none => (fs, { s with errors := s.errors + 1 })
        | some b =>
          if info.media_type == .MOVIE || info.media_type == .ANIME_MOVIE then
            let isSplitKey := some b == cfg.SPLIT_MOVIES_DIR
            let dest := b ++ [get_folder_name info]
            if cfg.CLEANUP_MODE_ENABLED && dest == item.dir then
              (fs, bumpMovieKey (info.media_type == .ANIME_MOVIE) isSplitKey s)
            else
              let mr := move_file_group dry canCreate fs files_to_move dest
              if mr.2 then (mr.1, bumpMovieKey (info.media_type == .ANIME_MOVIE) isSplitKey s)
              else (mr.1, { s with errors := s.errors + 1 })
          else
            let season := (extract_season_info item.name).getD 1
            let dest := b ++ [get_folder_name info, seasonFolder season]
            if cfg.CLEANUP_MODE_ENABLED && dest == item.dir then
              (fs, bumpSeriesKey (info.media_type == .ANIME_SERIES) s)
            else
              let mr := move_file_group dry canCreate fs files_to_move dest
              if mr.2 then (mr.1, bumpSeriesKey (info.media_type == .ANIME_SERIES) s)
              else (mr.1, { s with errors := s.errors + 1 })

/-! ## Directory pass -/

/-- The deep scan `[p for ext in SUPPORTED ∪ SIDECAR for p in glob(f'**/*{ext}')]`
    (the set union is modelled as a deduplicated list, fixing one iteration
    order; `glob` keeps files whose name ends with the extension text). -/
def scanAllFound (cfg : Config) (src : FPath) (fs : FS) : List FsFile :=
  ((cfg.SUPPORTED_EXTENSIONS ++
      cfg.SIDECAR_EXTENSIONS.filter (fun e => decide (e ∉ cfg.SUPPORTED_EXTENSIONS))).map
    (fun ext => fs.files.filter (fun f => isPrefixL src f.dir && ext.isSuffixOf f.name))).flatten

/-- Descending-length insertion, giving `os.walk(..., topdown=False)`'s
    children-before-parents visiting order. -/
def dirDepthInsert (d : FPath) : List FPath → List FPath
  | [] => [d]
  | e :: es => if e.length ≤ d.length then d :: e :: es else e :: dirDepthInsert d es

def sortLenDesc (l : List FPath) : List FPath := l.foldr dirDepthInsert []

/-- `os.listdir(d)` nonempty: some file sits directly in `d` or some
    directory has `d` as its parent. -/
def dirHasChild (fs : FS) (d : FPath) : Bool :=
  fs.files.any (fun f => f.dir == d) ||
    fs.dirs.any (fun e => e.length == d.length + 1 && isPrefixL d e)

/-- `MediaSorter.cleanup_empty_dirs`. -/
def cleanup_empty_dirs (dry : Bool) (cfg : Config) (fs : FS) (path : FPath) : FS :=
  if dry then fs
  else
    let mp := get_mismatched_path cfg
    let cands := fs.dirs.filter
      (fun d => isPrefixL path d && !(d == path) && !(some d == mp))
    (sortLenDesc cands).foldl
      (fun fs' d => if !dirHasChild fs' d then { fs' with dirs := fs'.dirs.erase d } else fs')
      fs

/-- `MediaSorter.process_source_directory` (cooperative stop and per-item
    exception recovery elided: no item raises in the model). -/
def process_source_directory (cfg : Config) (classify : List Char → MediaInfo) (cy : Nat)
    (dry canCreate : Bool) (fs : FS) : FS × Stats :=
  match cfg.SOURCE_DIR with
  | none => (fs, statsZero)
  | some src =>
    if !existsPath fs src then (fs, statsZero)
    else
      let et := ensure_target_dirs dry canCreate cfg fs
      if !et.2 then (et.1, statsZero)
      else
        let fs1 := et.1
        let allFound := scanAllFound cfg src fs1
        let allFound2 :=
          match get_mismatched_path cfg with
          | some mp =>
            if existsPath fs1 mp then allFound.filter (fun (f : FsFile) => !isPrefixL mp f.dir)
            else allFound
          | none => allFound
        let mediaFiles := allFound2.filter
          (fun (f : FsFile) => decide (lowerStr (suffixOf f.name) ∈ cfg.SUPPORTED_EXTENSIONS))
        let r := mediaFiles.foldl
          (fun (acc : FS × Stats) f =>
            sort_item cfg classify cy dry canCreate f none acc.1
              { acc.2 with processed := acc.2.processed + 1 })
          (fs1, statsZero)
        let fs2 := if !cfg.CLEANUP_MODE_ENABLED then cleanup_empty_dirs dry cfg r.1 src else r.1
        (fs2, r.2)

/-! ## The year-conflict test of the Conflict Validator, as a predicate -/

/-- The condition under which `_validate_api_result` enters its year-mismatch
    fallback: a truthy year from the filename (else from the search term), a
    truthy record year, and disagreement. -/
def yearConflictB (cy : Nat) (fname term : List Char) (recordYear : Option (List Char)) : Bool :=
  match (if truthyOpt (extract_year cy fname) then extract_year cy fname
         else extract_year cy term), recordYear with
  | some y, some ay => !y.isEmpty && !ay.isEmpty && y != ay
  | _, _ => false

/-! ## Concrete fixtures shared by witnesses and counterexamples -/

def cfg0 : Config :=
  { SOURCE_DIR := some ["src".toList]
    MOVIES_DIR := some ["lib".toList, "Movies".toList]
    TV_SHOWS_DIR := some ["lib".toList, "TV".toList]
    ANIME_MOVIES_DIR := some ["lib".toList, "AnimeM".toList]
    ANIME_SERIES_DIR := some ["lib".toList, "AnimeS".toList]
    MISMATCHED_DIR := none
    SUPPORTED_EXTENSIONS := [".mkv".toList, ".mp4".toList]
    SIDECAR_EXTENSIONS := [".srt".toList, ".nfo".toList]
    CUSTOM_STRINGS_TO_REMOVE := []
    API_PROVIDER := "omdb".toList
    OMDB_API_KEY := "k".toList
    TMDB_API_KEY := "yourkey".toList
    FALLBACK_SHOW_DESTINATION := "mismatched".toList
    LANGUAGES_TO_SPLIT := ["fr".toList]
    SPLIT_MOVIES_DIR := none
    MOVIES_ENABLED := true
    TV_SHOWS_ENABLED := true
    ANIME_MOVIES_ENABLED := true
    ANIME_SERIES_ENABLED := true
    CLEANUP_MODE_ENABLED := false }

/-! ## Claim C3 — year-mismatch downgrade -/

/-- C3: whenever the year derived from the filename (or, failing that, from
    the search term) and the record's year are both present, non-empty and
    different, `_validate_api_result` returns a record of kind `Unknown` whose
    title is `clean_for_search` of the search term and whose year is the
    filename-derived year. -/
theorem C3_year_mismatch_downgrade (cfg : Config) (cy : Nat) (fname term : List Char)
    (info : MediaInfo) (y ay : List Char)
    (hyf : (if truthyOpt (extract_year cy fname) then extract_year cy fname
            else extract_year cy term) = some y)
    (hy : y ≠ [])
    (hay : info.year = some ay) (hay' : ay ≠ []) (hne : y ≠ ay) :
    (validate_api_result cfg cy fname term info).media_type = MediaType.UNKNOWN ∧
    (validate_api_result cfg cy fname term info).title =
      clean_for_search term cfg.CUSTOM_STRINGS_TO_REMOVE ∧
    (validate_api_result cfg cy fname term info).year = some y := by
  have hyE : y.isEmpty = false := by cases y with
    | nil => exact absurd rfl hy
    | cons a t => rfl
  have hayE : ay.isEmpty = false := by cases ay with
    | nil => exact absurd rfl hay'
    | cons a t => rfl
  have hbne : (y != ay) = true := bne_iff_ne.mpr hne
  simp only [validate_api_result]
  rw [hyf]
  by_cases hov : ((extract_season_info fname).isSome &&
      (info.media_type == MediaType.MOVIE || info.media_type == MediaType.ANIME_MOVIE)) = true
  · simp [hov, hay, hyE, hayE, hbne]
  · simp only [Bool.not_eq_true] at hov
    simp [hov, hay, hyE, hayE, hbne]

def infoC3w : MediaInfo :=
  ⟨"Bar".toList, some "2021".toList, MediaType.MOVIE, some "English".toList, none, none⟩

theorem C3_year_mismatch_downgrade_witness :
    ((if truthyOpt (extract_year 2025 "A.2019.mkv".toList) then extract_year 2025 "A.2019.mkv".toList
      else extract_year 2025 "A".toList) = some "2019".toList) ∧
    (validate_api_result cfg0 2025 "A.2019.mkv".toList "A".toList infoC3w).media_type =
        MediaType.UNKNOWN ∧
    (validate_api_result cfg0 2025 "A.2019.mkv".toList "A".toList infoC3w).title =
        clean_for_search "A".toList cfg0.CUSTOM_STRINGS_TO_REMOVE ∧
    (validate_api_result cfg0 2025 "A.2019.mkv".toList "A".toList infoC3w).year =
        some "2019".toList :=
  ⟨by decide,
   C3_year_mismatch_downgrade cfg0 2025 "A.2019.mkv".toList "A".toList infoC3w
     "2019".toList "2021".toList (by decide) (by decide) (by decide) (by decide) (by decide)⟩

/-! ## Claim C4 — season-marker override of a movie classification -/

def infoC4x : MediaInfo :=
  ⟨"Bar".toList, some "2021".toList, MediaType.MOVIE, some "English".toList, none, none⟩

/-- C4 counterexample: the filename `Foo.2019.S01E02.mkv` has a season marker
    and a non-Japanese movie record, yet the validator's output kind is
    `Unknown`, not the `TvSeries` the claim requires, because the
    year-mismatch downgrade runs after the override. -/
theorem C4_counterexample :
    extract_season_info "Foo.2019.S01E02.mkv".toList ≠ none ∧
    infoC4x.media_type = MediaType.MOVIE ∧
    infoC4x.language = some "English".toList ∧
    (validate_api_result cfg0 2025 "Foo.2019.S01E02.mkv".toList "Foo".toList infoC4x).media_type =
        MediaType.UNKNOWN ∧
    (validate_api_result cfg0 2025 "Foo.2019.S01E02.mkv".toList "Foo".toList infoC4x).media_type ≠
        MediaType.TV_SERIES := by
  refine ⟨by decide, by decide, by decide, by decide, by decide⟩

/-- C4 (amended): with a season marker in the filename and a movie-kind
    record, `_validate_api_result` yields `AnimeSeries` when the language
    contains "japanese" (case-insensitively) and `TvSeries` otherwise,
    provided the year-mismatch downgrade does not also fire; in that case the
    kind is `Unknown`.  In every case the returned kind is never a movie
    kind. -/
theorem seriesKindNotMovie (b : Bool) :
    (if b then MediaType.ANIME_SERIES else MediaType.TV_SERIES) ≠ MediaType.MOVIE ∧
    (if b then MediaType.ANIME_SERIES else MediaType.TV_SERIES) ≠ MediaType.ANIME_MOVIE := by
  cases b <;> exact ⟨by decide, by decide⟩

theorem C4_series_override (cfg : Config) (cy : Nat) (fname term : List Char)
    (info : MediaInfo)
    (hseason : (extract_season_info fname).isSome = true)
    (hmovie : info.media_type = MediaType.MOVIE ∨ info.media_type = MediaType.ANIME_MOVIE) :
    (yearConflictB cy fname term info.year = false →
      (validate_api_result cfg cy fname term info).media_type =
        (if truthyOpt info.language &&
            strContains (lowerStr (info.language.getD [])) "japanese".toList
         then MediaType.ANIME_SERIES else MediaType.TV_SERIES)) ∧
    (validate_api_result cfg cy fname term info).media_type ≠ MediaType.MOVIE ∧
    (validate_api_result cfg cy fname term info).media_type ≠ MediaType.ANIME_MOVIE := by
  have hmB : (info.media_type == MediaType.MOVIE || info.media_type == MediaType.ANIME_MOVIE) = true := by
    cases hmovie with
    | inl h => simp [h]
    | inr h => simp [h]
  have hsplit : (validate_api_result cfg cy fname term info).media_type = MediaType.UNKNOWN ∨
      ((yearConflictB cy fname term info.year = false) ∧
        (validate_api_result cfg cy fname term info).media_type =
          (if truthyOpt info.language &&
              strContains (lowerStr (info.language.getD [])) "japanese".toList
           then MediaType.ANIME_SERIES else MediaType.TV_SERIES)) := by
    simp only [validate_api_result, yearConflictB, hseason, hmB, Bool.and_self, Bool.true_and,
      Bool.and_true, if_true]
    cases hyf : (if truthyOpt (extract_year cy fname) then extract_year cy fname
                 else extract_year cy term) with
    | none =>
      cases hy : info.year with
      | none => right; simp
      | some ay => right; simp
    | some yv =>
      cases hy : info.year with
      | none => right; simp
      | some ay =>
        by_cases hc : (!yv.isEmpty && !ay.isEmpty && yv != ay) = true
        · left; simp [hc]
        · simp only [Bool.not_eq_true] at hc
          right; simp [hc]
  have hconflict : yearConflictB cy fname term info.year = false →
      (validate_api_result cfg cy fname term info).media_type =
        (if truthyOpt info.language &&
            strContains (lowerStr (info.language.getD [])) "japanese".toList
         then MediaType.ANIME_SERIES else MediaType.TV_SERIES) := by
    intro hnc
    cases hsplit with
    | inl h =>
      simp only [validate_api_result, yearConflictB, hseason, hmB, Bool.and_self, Bool.true_and,
        Bool.and_true, if_true] at h ⊢
      cases hyf : (if truthyOpt (extract_year cy fname) then extract_year cy fname
                   else extract_year cy term) with
      | none =>
        cases hy : info.year with
        | none => simp
        | some ay => simp
      | some yv =>
        cases hy : info.year with
        | none => simp
        | some ay =>
          have hc : (!yv.isEmpty && !ay.isEmpty && yv != ay) = false := by
            simpa [yearConflictB, hyf, hy] using hnc
          simp [hc]
    | inr h => exact h.2
  refine ⟨hconflict, ?_, ?_⟩
  · cases hsplit with
    | inl h => rw [h]; decide
    | inr h =>
      rw [h.2]
      exact (seriesKindNotMovie _).1
  · cases hsplit with
    | inl h => rw [h]; decide
    | inr h =>
      rw [h.2]
      exact (seriesKindNotMovie _).2

theorem C4_series_override_witness :
    ((extract_season_info "Foo.S01E02.mkv".toList).isSome = true) ∧
    (yearConflictB 2025 "Foo.S01E02.mkv".toList "Foo".toList infoC4x.year = false) ∧
    (validate_api_result cfg0 2025 "Foo.S01E02.mkv".toList "Foo".toList infoC4x).media_type =
        MediaType.TV_SERIES ∧
    (validate_api_result cfg0 2025 "Foo.S01E02.mkv".toList "Foo".toList infoC4x).media_type ≠
        MediaType.MOVIE := by
  refine ⟨by decide, by decide, ?_, ?_⟩
  · have h := C4_series_override cfg0 2025 "Foo.S01E02.mkv".toList "Foo".toList infoC4x
      (by decide) (Or.inl (by decide))
    have h1 := h.1 (by decide)
    rw [h1]; decide
  · exact (C4_series_override cfg0 2025 "Foo.S01E02.mkv".toList "Foo".toList infoC4x
      (by decide) (Or.inl (by decide))).2.1

/-! ## Claim C10 — cleanup mode never moves an `Unknown` item -/

/-- C10: with cleanup-in-place mode enabled, `sort_item` on an item whose
    final classification is `Unknown` (and which is not a sidecar) leaves the
    filesystem untouched and only increments the `unknown` statistic — no
    mismatched routing and no series-fallback policy is applied, for any
    configuration with that flag set. -/
theorem C10_cleanup_skips_unknown (cfg : Config) (classify : List Char → MediaInfo)
    (cy : Nat) (dry canCreate : Bool) (item : FsFile) (override : Option (List Char))
    (fs : FS) (s : Stats)
    (hclean : cfg.CLEANUP_MODE_ENABLED = true)
    (hsc : lowerStr (suffixOf item.name) ∉ cfg.SIDECAR_EXTENSIONS)
    (hunk : (validate_api_result cfg cy item.name
        (classifyStage cfg classify item override).2
        (classifyStage cfg classify item override).1).media_type = MediaType.UNKNOWN) :
    sort_item cfg classify cy dry canCreate item override fs s =
      (fs, { s with unknown := s.unknown + 1 }) := by
  simp only [sort_item, hclean, hunk, hsc]
  simp

def cfgC10 : Config := { cfg0 with CLEANUP_MODE_ENABLED := true }

def clC10 : List Char → MediaInfo := fun n => ⟨n, none, MediaType.UNKNOWN, none, none, none⟩

def itemC10 : FsFile := ⟨["src".toList], "mystery.mkv".toList⟩

theorem C10_cleanup_skips_unknown_witness :
    (cfgC10.CLEANUP_MODE_ENABLED = true) ∧
    ((validate_api_result cfgC10 2025 itemC10.name
        (classifyStage cfgC10 clC10 itemC10 none).2
        (classifyStage cfgC10 clC10 itemC10 none).1).media_type = MediaType.UNKNOWN) ∧
    sort_item cfgC10 clC10 2025 false true itemC10 none ⟨[itemC10], [["src".toList]]⟩ statsZero =
      (⟨[itemC10], [["src".toList]]⟩, { statsZero with unknown := 1 }) :=
  ⟨by decide, by decide,
   C10_cleanup_skips_unknown cfgC10 clC10 2025 false true itemC10 none _ _
     (by decide) (by decide) (by decide)⟩

/-! ## Claim C7 — language-split routing for a French movie -/

def cfgC7 : Config :=
  { cfg0 with
    LANGUAGES_TO_SPLIT := ["fr".toList]
    SPLIT_MOVIES_DIR := some ["lib".toList, "FR".toList] }

def clC7 : List Char → MediaInfo := fun n =>
  if n = "Amelie".toList then
    ⟨"Amelie".toList, some "2001".toList, MediaType.MOVIE, some "French".toList,
      some "Comedy".toList, none⟩
  else ⟨n, none, MediaType.UNKNOWN, none, none, none⟩

def itemC7 : FsFile := ⟨["src".toList], "Amelie.mkv".toList⟩

def fsC7 : FS := ⟨[itemC7], [["src".toList]]⟩

/-- C7: evaluating the engine at the claim's own scenario — a `Movie` record
    with language `"French"`, `LANGUAGES_TO_SPLIT = ["fr"]`, a configured
    split directory and cleanup mode off — shows the file is routed to the
    standard movies directory, not the split directory: the routing condition
    intersects the lower-cased full language names (`{"french"}`) with the
    configured tokens (`{"fr"}`) and finds them disjoint. -/
theorem C7_french_split_failing_input :
    cfgC7.LANGUAGES_TO_SPLIT = ["fr".toList] ∧
    cfgC7.SPLIT_MOVIES_DIR = some ["lib".toList, "FR".toList] ∧
    cfgC7.CLEANUP_MODE_ENABLED = false ∧
    (clC7 "Amelie".toList).media_type = MediaType.MOVIE ∧
    (clC7 "Amelie".toList).language = some "French".toList ∧
    (sort_item cfgC7 clC7 2025 false true itemC7 none fsC7 statsZero).1.files =
      [⟨["lib".toList, "Movies".toList, "Amelie (2001)".toList], "Amelie.mkv".toList⟩] ∧
    (sort_item cfgC7 clC7 2025 false true itemC7 none fsC7 statsZero).2.split_lang_movies = 0 ∧
    (sort_item cfgC7 clC7 2025 false true itemC7 none fsC7 statsZero).2.movies = 1 := by
  refine ⟨rfl, rfl, rfl, by decide, by decide, by decide, by decide, by decide⟩

/-! ## Claim C5 — movie-shaped unknowns always go to the Mismatched directory -/

/-- The canonical outcome of `sort_item` on a movie-shaped unknown: the group
    is handed to `move_file_group` with destination `mismatched/display_name`. -/
theorem sort_item_unknown_nonseries (cfg : Config) (classify : List Char → MediaInfo)
    (cy : Nat) (dry canCreate : Bool) (item : FsFile) (override : Option (List Char))
    (fs : FS) (s : Stats) (mp : FPath)
    (hsc : lowerStr (suffixOf item.name) ∉ cfg.SIDECAR_EXTENSIONS)
    (hunk : (validate_api_result cfg cy item.name
        (classifyStage cfg classify item override).2
        (classifyStage cfg classify item override).1).media_type = MediaType.UNKNOWN)
    (hns : extract_season_info item.name = none)
    (hclean : cfg.CLEANUP_MODE_ENABLED = false)
    (hmp : get_mismatched_path cfg = some mp) :
    sort_item cfg classify cy dry canCreate item override fs s =
      (let dest := mp ++ [get_folder_name (validate_api_result cfg cy item.name
          (classifyStage cfg classify item override).2
          (classifyStage cfg classify item override).1)]
       let mr := move_file_group dry canCreate fs (item :: find_sidecar_files cfg fs item) dest
       (mr.1,
        if mr.2 then { s with unknown := s.unknown + 1 - 1, movies := s.movies + 1 }
        else { s with unknown := s.unknown + 1, errors := s.errors + 1 })) := by
  simp only [sort_item, hunk, hclean, hmp, hns]
  simp [hsc]
  split <;> simp_all

/-- C5: an item whose final classification is `Unknown` and whose filename has
    no season marker is routed (with its whole file group) to
    `mismatched_path/display_name`, and the result of `sort_item` is the same
    for every value of the series-fallback policy. -/
theorem C5_unknown_movie_mismatched_invariant (cfg : Config)
    (classify : List Char → MediaInfo) (cy : Nat) (dry canCreate : Bool)
    (item : FsFile) (override : Option (List Char)) (fs : FS) (s : Stats) (mp : FPath)
    (hsc : lowerStr (suffixOf item.name) ∉ cfg.SIDECAR_EXTENSIONS)
    (hunk : (validate_api_result cfg cy item.name
        (classifyStage cfg classify item override).2
        (classifyStage cfg classify item override).1).media_type = MediaType.UNKNOWN)
    (hns : extract_season_info item.name = none)
    (hclean : cfg.CLEANUP_MODE_ENABLED = false)
    (hmp : get_mismatched_path cfg = some mp) :
    ((sort_item cfg classify cy dry canCreate item override fs s).1 =
      (move_file_group dry canCreate fs (item :: find_sidecar_files cfg fs item)
        (mp ++ [get_folder_name (validate_api_result cfg cy item.name
            (classifyStage cfg classify item override).2
            (classifyStage cfg classify item override).1)])).1) ∧
    (∀ p q : List Char,
      sort_item { cfg with FALLBACK_SHOW_DESTINATION := p } classify cy dry canCreate
          item override fs s =
        sort_item { cfg with FALLBACK_SHOW_DESTINATION := q } classify cy dry canCreate
          item override fs s) := by
  constructor
  · rw [sort_item_unknown_nonseries cfg classify cy dry canCreate item override fs s mp
      hsc hunk hns hclean hmp]
  · intro p q
    rw [sort_item_unknown_nonseries { cfg with FALLBACK_SHOW_DESTINATION := p } classify cy
        dry canCreate item override fs s mp hsc hunk hns hclean hmp,
      sort_item_unknown_nonseries { cfg with FALLBACK_SHOW_DESTINATION := q } classify cy
        dry canCreate item override fs s mp hsc hunk hns hclean hmp]
    rfl

def clC5 : List Char → MediaInfo := fun n => ⟨n, none, MediaType.UNKNOWN, none, none, none⟩

def itemC5 : FsFile := ⟨["src".toList], "mystery.mkv".toList⟩

def fsC5 : FS := ⟨[itemC5], [["src".toList]]⟩

theorem C5_unknown_movie_mismatched_invariant_witness :
    ((validate_api_result cfg0 2025 itemC5.name
        (classifyStage cfg0 clC5 itemC5 none).2
        (classifyStage cfg0 clC5 itemC5 none).1).media_type = MediaType.UNKNOWN) ∧
    (extract_season_info itemC5.name = none) ∧
    (sort_item cfg0 clC5 2025 false true itemC5 none fsC5 statsZero).1 =
      (move_file_group false true fsC5 (itemC5 :: find_sidecar_files cfg0 fsC5 itemC5)
        (["src".toList, "_Mismatched".toList] ++
          [get_folder_name (validate_api_result cfg0 2025 itemC5.name
            (classifyStage cfg0 clC5 itemC5 none).2
            (classifyStage cfg0 clC5 itemC5 none).1)])).1 ∧
    sort_item { cfg0 with FALLBACK_SHOW_DESTINATION := "ignore".toList } clC5 2025 false true
        itemC5 none fsC5 statsZero =
      sort_item { cfg0 with FALLBACK_SHOW_DESTINATION := "tv".toList } clC5 2025 false true
        itemC5 none fsC5 statsZero :=
  ⟨by decide, by decide,
   (C5_unknown_movie_mismatched_invariant cfg0 clC5 2025 false true itemC5 none fsC5 statsZero
      ["src".toList, "_Mismatched".toList] (by decide) (by decide) (by decide) (by decide)
      (by decide)).1,
   (C5_unknown_movie_mismatched_invariant cfg0 clC5 2025 false true itemC5 none fsC5 statsZero
      ["src".toList, "_Mismatched".toList] (by decide) (by decide) (by decide) (by decide)
      (by decide)).2 "ignore".toList "tv".toList⟩

/-! ## Claim C6 — a non-anime general-provider result beats the AniList result -/

/-- C6 (amended): when AniList and the general provider both return a result
    for the cleaned title, the general result's genre does not mention
    animation and its country does not mention Japan, and the general result
    came from the OMDb provider (as primary, or via fallback after a TMDB
    miss), `classify_media` classifies from the general-provider result. -/
theorem C6_general_over_anilist (cfg : Config) (P : Providers) (name : List Char)
    (a : AnilistData) (d : OmdbData)
    (hanime : (cfg.ANIME_MOVIES_ENABLED || cfg.ANIME_SERIES_ENABLED) = true)
    (hclean : (clean_for_search name cfg.CUSTOM_STRINGS_TO_REMOVE).isEmpty = false)
    (ha : P.anilist (clean_for_search name cfg.CUSTOM_STRINGS_TO_REMOVE) = some a)
    (hmain : (cfg.API_PROVIDER = "omdb".toList ∧
        P.omdb (clean_for_search name cfg.CUSTOM_STRINGS_TO_REMOVE) = some d) ∨
      (cfg.API_PROVIDER = "tmdb".toList ∧
        P.tmdb (clean_for_search name cfg.CUSTOM_STRINGS_TO_REMOVE) = none ∧
        keyOk cfg.OMDB_API_KEY = true ∧
        P.omdb (clean_for_search name cfg.CUSTOM_STRINGS_TO_REMOVE) = some d))
    (hg : strContains (lowerStr d.Genre) "animation".toList = false)
    (hc : strContains (lowerStr d.Country) "japan".toList = false) :
    classify_media cfg P name = classify_from_omdb d := by
  cases hmain with
  | inl h =>
    obtain ⟨hprov, hd⟩ := h
    simp at hg hc
    simp [classify_media, hclean, hanime, ha, queryMain, hprov, hd, genGenre, genCountry,
      hg, hc, classify_from_omdb_like]
  | inr h =>
    obtain ⟨hprov, ht, hkey, hd⟩ := h
    have hne : ("tmdb".toList : List Char) ≠ "omdb".toList := by decide
    simp at hg hc
    simp [classify_media, hclean, hanime, ha, queryMain, hprov, ht, hkey, hd, hne,
      genGenre, genCountry, hg, hc, classify_from_omdb_like]

def aC6 : AnilistData :=
  ⟨"TV".toList, some "Oshi".toList, none, some 2021, ["Drama".toList]⟩

def tC6 : TmdbData :=
  ⟨true, "Oshi Movie".toList, [], "2021-04-01".toList, [],
    [("en".toList, "English".toList)], ["Drama".toList]⟩

def dC6 : OmdbData :=
  ⟨"Oshi Movie".toList, "2021".toList, "movie".toList, "English".toList,
    "Drama".toList, "USA".toList⟩

def provC6 : Providers :=
  ⟨fun n => if n = "Oshi".toList then some aC6 else none,
   fun _ => none,
   fun n => if n = "Oshi".toList then some tC6 else none⟩

def cfgC6 : Config :=
  { cfg0 with
    API_PROVIDER := "tmdb".toList
    TMDB_API_KEY := "k".toList
    OMDB_API_KEY := "yourkey".toList }

/-- C6 counterexample: with TMDB as the effective general provider, an AniList
    hit and a TMDB hit whose genre/country fields do not indicate
    animation/Japan, `classify_media` still returns the AniList-derived
    classification — the general-over-anime rule is only applied when the
    general result came from OMDb. -/
theorem C6_counterexample :
    cfgC6.ANIME_SERIES_ENABLED = true ∧
    provC6.anilist (clean_for_search "Oshi".toList cfgC6.CUSTOM_STRINGS_TO_REMOVE) = some aC6 ∧
    provC6.tmdb (clean_for_search "Oshi".toList cfgC6.CUSTOM_STRINGS_TO_REMOVE) = some tC6 ∧
    strContains (lowerStr (genGenre (GenData.tmdb tC6))) "animation".toList = false ∧
    strContains (lowerStr (genCountry (GenData.tmdb tC6))) "japan".toList = false ∧
    classify_media cfgC6 provC6 "Oshi".toList = classify_from_anilist aC6 ∧
    classify_media cfgC6 provC6 "Oshi".toList ≠ classify_from_tmdb tC6 := by
  refine ⟨rfl, by decide, by decide, by decide, by decide, by decide, by decide⟩

def provC6w : Providers :=
  ⟨fun n => if n = "Oshi".toList then some aC6 else none,
   fun n => if n = "Oshi".toList then some dC6 else none,
   fun _ => none⟩

theorem C6_general_over_anilist_witness :
    (provC6w.anilist (clean_for_search "Oshi".toList cfg0.CUSTOM_STRINGS_TO_REMOVE) = some aC6) ∧
    (strContains (lowerStr dC6.Genre) "animation".toList = false) ∧
    classify_media cfg0 provC6w "Oshi".toList = classify_from_omdb dC6 :=
  ⟨by decide, by decide,
   C6_general_over_anilist cfg0 provC6w "Oshi".toList aC6 dC6 (by decide) (by decide)
     (by decide) (Or.inl ⟨by decide, by decide⟩) (by decide) (by decide)⟩

/-! ## Claim C1 — atomicity of `move_file_group` -/

theorem fileOfPath_concat (d : FPath) (n : List Char) :
    fileOfPath (d ++ [n]) = some ⟨d, n⟩ := by
  simp [fileOfPath]

theorem existsPath_concat (fs : FS) (d : FPath) (n : List Char) :
    existsPath fs (d ++ [n]) =
      (decide ((d ++ [n]) ∈ fs.dirs) || decide ((⟨d, n⟩ : FsFile) ∈ fs.files)) := by
  simp [existsPath, fileOfPath_concat]

theorem moveLoop_dirs_eq (dry : Bool) (dest : FPath) (group : List FsFile) :
    ∀ fs : FS, (moveLoop dry dest group fs).dirs = fs.dirs := by
  induction group with
  | nil => intro fs; rfl
  | cons f t ih =>
    intro fs
    simp only [moveLoop]
    split
    · exact ih fs
    · split
      · exact ih fs
      · split
        · exact ih fs
        · exact ih _

/-- `moveLoop` never touches a file whose name is not among the group's. -/
theorem moveLoop_files_other (dry : Bool) (dest : FPath) (group : List FsFile) (p : FsFile)
    (hp : p.name ∉ group.map FsFile.name) :
    ∀ fs : FS, (p ∈ (moveLoop dry dest group fs).files ↔ p ∈ fs.files) := by
  induction group with
  | nil => intro fs; exact Iff.rfl
  | cons f t ih =>
    simp only [List.map_cons, List.mem_cons, not_or] at hp
    obtain ⟨hpf, hpt⟩ := hp
    intro fs
    have hne_f : p ≠ f := fun he => hpf (by rw [he])
    have hne_t : p ≠ (⟨dest, f.name⟩ : FsFile) := fun he => hpf (by rw [he])
    simp only [moveLoop]
    split
    · exact ih hpt fs
    · split
      · exact ih hpt fs
      · split
        · exact ih hpt fs
        · rw [ih hpt]
          constructor
          · intro hm
            rcases List.mem_cons.mp hm with he | hm2
            · exact absurd he hne_t
            · exact (List.mem_erase_of_ne hne_f).mp hm2
          · intro hm
            exact List.mem_cons_of_mem _ ((List.mem_erase_of_ne hne_f).mpr hm)

/-- The per-member outcome of the `move_file_group` loop, with the skip
    conditions read off the loop's initial state `fs0`. -/
theorem moveLoop_mem_spec (dest : FPath) (fs0 : FS) (group : List FsFile)
    (hpw : group.Pairwise (fun a b => a.name ≠ b.name)) :
    ∀ fs : FS,
      fs.dirs = fs0.dirs →
      fs.files.Nodup →
      (∀ q : FsFile, q.name ∈ group.map FsFile.name → (q ∈ fs.files ↔ q ∈ fs0.files)) →
      ∀ f ∈ group,
        ((f.dir = dest ∨ existsPath fs0 (dest ++ [f.name]) = true) →
          (f ∈ (moveLoop false dest group fs).files ↔ f ∈ fs0.files)) ∧
        ((f.dir ≠ dest ∧ existsPath fs0 (dest ++ [f.name]) = false) →
          (⟨dest, f.name⟩ : FsFile) ∈ (moveLoop false dest group fs).files ∧
            f ∉ (moveLoop false dest group fs).files) := by
  induction group with
  | nil => intro fs _ _ _ f hf; exact absurd hf (List.not_mem_nil f)
  | cons h t ih =>
    obtain ⟨hh, hpw'⟩ := List.pairwise_cons.mp hpw
    intro fs hdirs hnd hinv f hf
    have hhname : (⟨dest, h.name⟩ : FsFile).name ∈ (h :: t).map FsFile.name := by simp
    have hhmem : h.name ∈ (h :: t).map FsFile.name := by simp
    have hht : h.name ∉ t.map FsFile.name := by
      intro hmem
      obtain ⟨b, hb, hbeq⟩ := List.mem_map.mp hmem
      exact hh b hb hbeq.symm
    have hex : existsPath fs (dest ++ [h.name]) = existsPath fs0 (dest ++ [h.name]) := by
      rw [existsPath_concat, existsPath_concat, hdirs,
        decide_eq_decide.mpr (hinv ⟨dest, h.name⟩ hhname)]
    have hinv' : ∀ fs' : FS,
        (∀ q : FsFile, q.name ∈ t.map FsFile.name → (q ∈ fs'.files ↔ q ∈ fs.files)) →
        (∀ q : FsFile, q.name ∈ t.map FsFile.name → (q ∈ fs'.files ↔ q ∈ fs0.files)) := by
      intro fs' hstep q hq
      exact (hstep q hq).trans (hinv q (by simp [List.mem_map] at hq ⊢; right; exact hq))
    rcases List.mem_cons.mp hf with rfl | htail
    · -- f is the head of the group
      constructor
      · intro hskip
        have hresult : f ∈ (moveLoop false dest (f :: t) fs).files ↔ f ∈ fs.files := by
          simp only [moveLoop]
          split
          · exact moveLoop_files_other false dest t f hht fs
          · split
            · exact moveLoop_files_other false dest t f hht fs
            · split
              · exact moveLoop_files_other false dest t f hht fs
              · -- the move branch: contradicts the skip hypothesis
                rename_i hdir hexq _
                exfalso
                rcases hskip with hd | he
                · exact hdir hd
                · rw [hex] at hexq
                  simp [he] at hexq
        rw [hresult]
        exact hinv f hhmem
      · intro ⟨hdir, hexists⟩
        have hexF : existsPath fs (dest ++ [f.name]) = false := by rw [hex]; exact hexists
        have htgt_notmem : (⟨dest, f.name⟩ : FsFile) ∉ fs.files := by
          intro hm
          rw [existsPath_concat] at hexF
          simp at hexF
          exact hexF.2 hm
        have hstep : moveLoop false dest (f :: t) fs =
            moveLoop false dest t { fs with files := ⟨dest, f.name⟩ :: fs.files.erase f } := by
          simp only [moveLoop]
          rw [if_neg hdir, hexF]
          simp
        rw [hstep]
        constructor
        · have := moveLoop_files_other false dest t ⟨dest, f.name⟩ hht
            { fs with files := ⟨dest, f.name⟩ :: fs.files.erase f }
          rw [this]
          exact List.mem_cons_self _ _
        · have hother := moveLoop_files_other false dest t f hht
            { fs with files := ⟨dest, f.name⟩ :: fs.files.erase f }
          rw [hother]
          intro hm
          rcases List.mem_cons.mp hm with he | hm2
          · exact hdir (congrArg FsFile.dir he)
          · by_cases hmem : f ∈ fs.files
            · exact hnd.not_mem_erase hm2
            · exact hmem (List.erase_subset _ _ hm2)
    · -- f is in the tail
      have happly : ∀ fs' : FS, fs'.dirs = fs0.dirs → fs'.files.Nodup →
          (∀ q : FsFile, q.name ∈ t.map FsFile.name → (q ∈ fs'.files ↔ q ∈ fs0.files)) →
          ((f.dir = dest ∨ existsPath fs0 (dest ++ [f.name]) = true) →
            (f ∈ (moveLoop false dest t fs').files ↔ f ∈ fs0.files)) ∧
          ((f.dir ≠ dest ∧ existsPath fs0 (dest ++ [f.name]) = false) →
            (⟨dest, f.name⟩ : FsFile) ∈ (moveLoop false dest t fs').files ∧
              f ∉ (moveLoop false dest t fs').files) := by
        intro fs' h1 h2 h3
        exact ih hpw' fs' h1 h2 h3 f htail
      simp only [moveLoop]
      split
      · exact happly fs hdirs hnd
          (fun q hq => hinv q (by simp [List.mem_map] at hq ⊢; right; exact hq))
      · split
        · exact happly fs hdirs hnd
            (fun q hq => hinv q (by simp [List.mem_map] at hq ⊢; right; exact hq))
        · split
          · exact happly fs hdirs hnd
              (fun q hq => hinv q (by simp [List.mem_map] at hq ⊢; right; exact hq))
          · rename_i hdir hexq _
            have htgt_notmem : (⟨dest, h.name⟩ : FsFile) ∉ fs.files := by
              intro hm
              rw [existsPath_concat] at hexq
              simp at hexq
              exact hexq.2 hm
            apply happly
            · exact hdirs
            · refine List.Nodup.cons ?_ (hnd.erase h)
              intro hm
              exact htgt_notmem (List.erase_subset _ _ hm)
            · intro q hq
              have hqname : q.name ≠ h.name := by
                obtain ⟨b, hb, hbeq⟩ := List.mem_map.mp hq
                intro he
                exact hh b hb (by rw [hbeq, he])
              have hq1 : q ≠ (⟨dest, h.name⟩ : FsFile) := fun he => hqname (by rw [he])
              have hq2 : q ≠ h := fun he => hqname (by rw [he])
              have : q ∈ ({ fs with files := ⟨dest, h.name⟩ :: fs.files.erase h } : FS).files ↔
                  q ∈ fs.files := by
                simp only []
                constructor
                · intro hm
                  rcases List.mem_cons.mp hm with he | hm2
                  · exact absurd he hq1
                  · exact (List.mem_erase_of_ne hq2).mp hm2
                · intro hm
                  exact List.mem_cons_of_mem _ ((List.mem_erase_of_ne hq2).mpr hm)
              exact this.trans (hinv q (by simp [List.mem_map] at hq ⊢; right; exact hq))

theorem mkdirParents_files (fs : FS) (p : FPath) : (mkdirParents fs p).files = fs.files := rfl

theorem pathInitsAux_length {d : FPath} :
    ∀ (l : FPath) (acc : FPath), d ∈ pathInitsAux acc l → d.length ≤ acc.length + l.length := by
  intro l
  induction l with
  | nil => intro acc h; exact absurd h (List.not_mem_nil d)
  | cons x xs ih =>
    intro acc h
    rcases List.mem_cons.mp h with rfl | h2
    · simp only [List.length_append, List.length_cons, List.length_nil]
      omega
    · have := ih (acc ++ [x]) h2
      simp only [List.length_append, List.length_cons, List.length_nil] at this ⊢
      omega

theorem pathInits_length {d p : FPath} (h : d ∈ pathInits p) : d.length ≤ p.length := by
  have := pathInitsAux_length p [] h
  simpa using this

/-- Creating the destination directory tree does not create the (strictly
    longer) paths of the files to be moved there. -/
theorem existsPath_mkdirParents_concat (fs : FS) (p d : FPath) (n : List Char)
    (hlen : p.length ≤ d.length) :
    existsPath (mkdirParents fs p) (d ++ [n]) = existsPath fs (d ++ [n]) := by
  rw [existsPath_concat, existsPath_concat, mkdirParents_files]
  have : ((d ++ [n]) ∈ (mkdirParents fs p).dirs) ↔ ((d ++ [n]) ∈ fs.dirs) := by
    simp only [mkdirParents, List.mem_append, List.mem_filter]
    constructor
    · intro hm
      rcases hm with hm | hm
      · exact hm
      · exfalso
        have hlen2 := pathInits_length hm.1
        simp at hlen2
        omega
    · intro hm; exact Or.inl hm
  rw [decide_eq_decide.mpr this]

/-- C1: a `move_file_group` call either relocates the primary and every
    movable sidecar, or — when the destination directory cannot be created —
    moves nothing and returns `False`; a pre-existing same-named file (or
    directory) at a member's destination only skips that member, every other
    member is still attempted, and such a skip never makes the call return
    `False`.  Group members carry pairwise-distinct names (primary plus
    same-stem sidecars with distinct extensions). -/
theorem C1_move_group_atomicity (canCreate : Bool) (fs : FS) (group : List FsFile)
    (dest : FPath)
    (hnd : fs.files.Nodup)
    (hnames : group.Pairwise (fun a b => a.name ≠ b.name)) :
    ((existsPath fs dest = false ∧ canCreate = false) →
      move_file_group false canCreate fs group dest = (fs, false)) ∧
    ((existsPath fs dest = true ∨ canCreate = true) →
      (move_file_group false canCreate fs group dest).2 = true ∧
      ∀ f ∈ group,
        ((f.dir = dest ∨ existsPath fs (dest ++ [f.name]) = true) →
          (f ∈ (move_file_group false canCreate fs group dest).1.files ↔ f ∈ fs.files)) ∧
        ((f.dir ≠ dest ∧ existsPath fs (dest ++ [f.name]) = false) →
          (⟨dest, f.name⟩ : FsFile) ∈ (move_file_group false canCreate fs group dest).1.files ∧
            f ∉ (move_file_group false canCreate fs group dest).1.files)) := by
  constructor
  · intro ⟨hex, hcc⟩
    simp [move_file_group, ensure_dir, hex, hcc]
  · intro hok
    have hcases : (∃ fs1 : FS, ensure_dir false canCreate fs dest = (fs1, true) ∧
        fs1.files = fs.files ∧ fs1.dirs = fs.dirs) ∨
        (ensure_dir false canCreate fs dest = (mkdirParents fs dest, true) ∧ canCreate = true) := by
      by_cases hex : existsPath fs dest = true
      · left; exact ⟨fs, by simp [ensure_dir, hex], rfl, rfl⟩
      · right
        rcases hok with h | h
        · exact absurd h hex
        · simp only [Bool.not_eq_true] at hex
          constructor
          · simp [ensure_dir, hex, h]
          · exact h
    have hspec : ∀ fs1 : FS, fs1.files = fs.files →
        (∀ g ∈ group, existsPath fs1 (dest ++ [g.name]) = existsPath fs (dest ++ [g.name])) →
        ∀ f ∈ group,
        ((f.dir = dest ∨ existsPath fs (dest ++ [f.name]) = true) →
          (f ∈ (moveLoop false dest group fs1).files ↔ f ∈ fs.files)) ∧
        ((f.dir ≠ dest ∧ existsPath fs (dest ++ [f.name]) = false) →
          (⟨dest, f.name⟩ : FsFile) ∈ (moveLoop false dest group fs1).files ∧
            f ∉ (moveLoop false dest group fs1).files) := by
      intro fs1 hfiles hexeq f hf
      have base := moveLoop_mem_spec dest fs1 group hnames fs1 rfl (by rw [hfiles]; exact hnd)
        (fun q _ => Iff.rfl) f hf
      constructor
      · intro hskip
        have := base.1 (by rw [hexeq f hf]; exact hskip)
        rw [hfiles] at this
        exact this
      · intro ⟨hd, he⟩
        exact base.2 ⟨hd, by rw [hexeq f hf]; exact he⟩
    rcases hcases with ⟨fs1, heq, hfiles, hdirs⟩ | ⟨heq, hcc⟩
    · rw [move_file_group, heq]
      exact ⟨rfl, hspec fs1 hfiles
        (fun g _ => by rw [existsPath_concat, existsPath_concat, hfiles, hdirs])⟩
    · rw [move_file_group, heq]
      refine ⟨rfl, hspec (mkdirParents fs dest) (mkdirParents_files fs dest) ?_⟩
      intro g _
      exact existsPath_mkdirParents_concat fs dest dest g.name (le_refl _)

def itemC1 : FsFile := ⟨["src".toList], "a.mkv".toList⟩

def sidecarC1 : FsFile := ⟨["src".toList], "a.srt".toList⟩

def fsC1 : FS :=
  ⟨[itemC1, sidecarC1, ⟨["dst".toList], "a.srt".toList⟩], [["src".toList], ["dst".toList]]⟩

theorem C1_move_group_atomicity_witness :
    (fsC1.files.Nodup ∧ [itemC1, sidecarC1].Pairwise (fun a b => a.name ≠ b.name)) ∧
    (move_file_group false true fsC1 [itemC1, sidecarC1] ["dst".toList]).2 = true ∧
    ((⟨["dst".toList], "a.mkv".toList⟩ : FsFile) ∈
        (move_file_group false true fsC1 [itemC1, sidecarC1] ["dst".toList]).1.files ∧
      itemC1 ∉ (move_file_group false true fsC1 [itemC1, sidecarC1] ["dst".toList]).1.files) ∧
    (sidecarC1 ∈ (move_file_group false true fsC1 [itemC1, sidecarC1] ["dst".toList]).1.files ↔
      sidecarC1 ∈ fsC1.files) := by
  have h := (C1_move_group_atomicity true fsC1 [itemC1, sidecarC1] ["dst".toList]
    (by decide) (by decide)).2 (Or.inr rfl)
  refine ⟨⟨by decide, by decide⟩, h.1, ?_, ?_⟩
  · exact (h.2 itemC1 (by simp)).2 ⟨by decide, by decide⟩
  · exact (h.2 sidecarC1 (by simp)).1 (Or.inr (by decide))

/-! ## Claim C9 — dry-run mode performs zero filesystem mutation -/

theorem ensure_dir_dry (cc : Bool) (fs : FS) (p : FPath) :
    ensure_dir true cc fs p = (fs, true) := by
  unfold ensure_dir
  split
  · rfl
  · rfl

theorem moveLoop_dry (dest : FPath) (group : List FsFile) :
    ∀ fs : FS, moveLoop true dest group fs = fs := by
  induction group with
  | nil => intro fs; rfl
  | cons f t ih =>
    intro fs
    simp only [moveLoop]
    split
    · exact ih fs
    · split
      · exact ih fs
      · exact ih fs

theorem move_file_group_dry (cc : Bool) (fs : FS) (g : List FsFile) (d : FPath) :
    move_file_group true cc fs g d = (fs, true) := by
  have h1 : move_file_group true cc fs g d = (moveLoop true d g fs, true) := by
    rw [move_file_group, ensure_dir_dry]
  rw [h1, moveLoop_dry]

/-- `move_file_group` reports success whenever the run is dry or directory
    creation succeeds (only an OS-level move error, absent from the model,
    could clear `all_moved_successfully`). -/
theorem move_file_group_snd (dry cc : Bool) (fs : FS) (g : List FsFile) (d : FPath)
    (h : dry = true ∨ cc = true) :
    (move_file_group dry cc fs g d).2 = true := by
  rcases h with rfl | rfl
  · rw [move_file_group_dry]
  · unfold move_file_group ensure_dir
    split
    · rename_i heq
      exfalso
      split at heq
      · simp_all
      · split at heq <;> simp_all
    · rfl

/-- The statistics update of one `sort_item` call, which depends only on the
    item's names and the configuration — never on the filesystem — provided
    every `move_file_group` call reports success (dry run, or creatable
    directories).  Derived shadow of `sort_item` used to state dry/real
    statistics parity. -/
def sortItemStats (cfg : Config) (classify : List Char → MediaInfo) (cy : Nat)
    (item : FsFile) (override : Option (List Char)) (s : Stats) : Stats :=
  if decide (lowerStr (suffixOf item.name) ∈ cfg.SIDECAR_EXTENSIONS) then s
  else
    let cl := classifyStage cfg classify item override
    let info := validate_api_result cfg cy item.name cl.2 cl.1
    if info.media_type = .UNKNOWN then
      let s1 := { s with unknown := s.unknown + 1 }
      if cfg.CLEANUP_MODE_ENABLED then s1
      else
        match get_mismatched_path cfg with
        | none => { s1 with errors := s1.errors + 1 }
        | some _ =>
          if (extract_season_info item.name).isSome then
            if cfg.FALLBACK_SHOW_DESTINATION = "ignore".toList then s1
            else
              let base : Option FPath :=
                if cfg.FALLBACK_SHOW_DESTINATION = "tv".toList then cfg.TV_SHOWS_DIR
                else if cfg.FALLBACK_SHOW_DESTINATION = "anime".toList then cfg.ANIME_SERIES_DIR
                else if cfg.FALLBACK_SHOW_DESTINATION = "mismatched".toList then
                  get_mismatched_path cfg
                else none
              match base with
              | none => { s1 with errors := s1.errors + 1 }
              | some _ =>
                let s2 := { s1 with unknown := s1.unknown - 1 }
                if cfg.FALLBACK_SHOW_DESTINATION = "tv".toList then { s2 with tv := s2.tv + 1 }
                else if cfg.FALLBACK_SHOW_DESTINATION = "anime".toList then
                  { s2 with anime_series := s2.anime_series + 1 }
                else { s2 with unknown := s2.unknown + 1 }
          else { s1 with unknown := s1.unknown - 1, movies := s1.movies + 1 }
    else
      let enabled :=
        match info.media_type with
        | .MOVIE => cfg.MOVIES_ENABLED
        | .TV_SERIES => cfg.TV_SHOWS_ENABLED
        | .ANIME_MOVIE => cfg.ANIME_MOVIES_ENABLED
        | .ANIME_SERIES => cfg.ANIME_SERIES_ENABLED
        | .UNKNOWN => true
      if !enabled then s
      else
        let base0 : Option FPath :=
          if cfg.CLEANUP_MODE_ENABLED then some item.dir
          else
            match info.media_type with
            | .MOVIE => cfg.MOVIES_DIR
            | .TV_SERIES => cfg.TV_SHOWS_DIR
            | .ANIME_MOVIE => cfg.ANIME_MOVIES_DIR
            | .ANIME_SERIES => cfg.ANIME_SERIES_DIR
            | .UNKNOWN => none
        let base1 : Option FPath :=
          if info.media_type == .MOVIE && cfg.SPLIT_MOVIES_DIR.isSome &&
              !cfg.LANGUAGES_TO_SPLIT.isEmpty && !cfg.CLEANUP_MODE_ENABLED then
            let movieLanguages :=
              (splitComma (info.language.getD [])).map (fun l => lowerStr (stripEnds l))
            let splitLanguages := cfg.LANGUAGES_TO_SPLIT.map (fun l => lowerStr (stripEnds l))
            let shouldSplit :=
              if splitLanguages.contains "all".toList
              then !(movieLanguages.contains "english".toList)
              else movieLanguages.any (fun l => splitLanguages.contains l)
            if shouldSplit then cfg.SPLIT_MOVIES_DIR else base0
          else base0
        match base1 with
        | none => { s with errors := s.errors + 1 }
        | some b =>
          if info.media_type == .MOVIE || info.media_type == .ANIME_MOVIE then
            bumpMovieKey (info.media_type == .ANIME_MOVIE) (some b == cfg.SPLIT_MOVIES_DIR) s
          else bumpSeriesKey (info.media_type == .ANIME_SERIES) s

set_option maxHeartbeats 3200000 in
/-- With every `move_file_group` reporting success, the statistics component
    of `sort_item` does not depend on the filesystem, the dry-run flag or the
    directory-creation oracle. -/
theorem sort_item_stats_eq (cfg : Config) (classify : List Char → MediaInfo) (cy : Nat)
    (dry cc : Bool) (item : FsFile) (override : Option (List Char)) (fs : FS) (s : Stats)
    (h : dry = true ∨ cc = true) :
    (sort_item cfg classify cy dry cc item override fs s).2 =
      sortItemStats cfg classify cy item override s := by
  have hm : ∀ (fs' : FS) (g : List FsFile) (d : FPath),
      (move_file_group dry cc fs' g d).2 = true := fun fs' g d => move_file_group_snd _ _ _ _ _ h
  have hm2 : ∀ (c : Prop) [Decidable c] (fs1 fs2 : FS) (st1 st2 : Stats),
      (if c then (fs1, st1) else (fs2, st2)).2 = if c then st1 else st2 := by
    intro c _ fs1 fs2 st1 st2
    split <;> rfl
  by_cases h1 : lowerStr (suffixOf item.name) ∈ cfg.SIDECAR_EXTENSIONS
  · simp [sort_item, sortItemStats, h1]
  · cases ht : (validate_api_result cfg cy item.name
        (classifyStage cfg classify item override).2
        (classifyStage cfg classify item override).1).media_type with
    | UNKNOWN =>
      by_cases hcl : cfg.CLEANUP_MODE_ENABLED
      · simp [sort_item, sortItemStats, h1, ht, hcl]
      · cases hmp : get_mismatched_path cfg with
        | none => simp [sort_item, sortItemStats, h1, ht, hcl, hmp]
        | some mp =>
          by_cases hs : (extract_season_info item.name).isSome
          · by_cases hig : cfg.FALLBACK_SHOW_DESTINATION = "ignore".toList
            · simp [sort_item, sortItemStats, h1, ht, hcl, hmp, hs, hig]
            · simp only [show ("ignore".toList : List Char) = ['i','g','n','o','r','e'] from rfl]
                at hig
              by_cases htv : cfg.FALLBACK_SHOW_DESTINATION = "tv".toList
              · cases hb : cfg.TV_SHOWS_DIR with
                | none => simp [sort_item, sortItemStats, h1, ht, hcl, hmp, hs, hig, htv, hb]
                | some b => simp [sort_item, sortItemStats, h1, ht, hcl, hmp, hs, hig, htv, hb, hm]
              · simp only [show ("tv".toList : List Char) = ['t','v'] from rfl] at htv
                by_cases han : cfg.FALLBACK_SHOW_DESTINATION = "anime".toList
                · cases hb : cfg.ANIME_SERIES_DIR with
                  | none =>
                    simp [sort_item, sortItemStats, h1, ht, hcl, hmp, hs, hig, htv, han, hb]
                  | some b =>
                    simp [sort_item, sortItemStats, h1, ht, hcl, hmp, hs, hig, htv, han, hb, hm]
                · simp only [show ("anime".toList : List Char) = ['a','n','i','m','e'] from rfl]
                    at han
                  by_cases hmm : cfg.FALLBACK_SHOW_DESTINATION = "mismatched".toList
                  · simp [sort_item, sortItemStats, h1, ht, hcl, hmp, hs, hig, htv, han, hmm, hm]
                  · simp only [show ("mismatched".toList : List Char) =
                      ['m','i','s','m','a','t','c','h','e','d'] from rfl] at hmm
                    simp [sort_item, sortItemStats, h1, ht, hcl, hmp, hs, hig, htv, han, hmm]
          · simp [sort_item, sortItemStats, h1, ht, hcl, hmp, hs, hm]
    | MOVIE =>
      by_cases hen : cfg.MOVIES_ENABLED
      · simp only [sort_item, sortItemStats, h1, ht, hen]
        simp [hm, hm2]
        repeat' split
        all_goals rfl
      · simp [sort_item, sortItemStats, h1, ht, hen]
    | TV_SERIES =>
      by_cases hen : cfg.TV_SHOWS_ENABLED
      · simp only [sort_item, sortItemStats, h1, ht, hen]
        simp [hm, hm2]
        repeat' split
        all_goals rfl
      · simp [sort_item, sortItemStats, h1, ht, hen]
    | ANIME_MOVIE =>
      by_cases hen : cfg.ANIME_MOVIES_ENABLED
      · simp only [sort_item, sortItemStats, h1, ht, hen]
        simp [hm, hm2]
        repeat' split
        all_goals rfl
      · simp [sort_item, sortItemStats, h1, ht, hen]
    | ANIME_SERIES =>
      by_cases hen : cfg.ANIME_SERIES_ENABLED
      · simp only [sort_item, sortItemStats, h1, ht, hen]
        simp [hm, hm2]
        repeat' split
        all_goals rfl
      · simp [sort_item, sortItemStats, h1, ht, hen]

/-- Dry-run `sort_item` leaves the filesystem untouched. -/
theorem sort_item_dry_fs (cfg : Config) (classify : List Char → MediaInfo) (cy : Nat)
    (cc : Bool) (item : FsFile) (override : Option (List Char)) (fs : FS) (s : Stats) :
    (sort_item cfg classify cy true cc item override fs s).1 = fs := by
  have hm : ∀ (g : List FsFile) (d : FPath),
      move_file_group true cc fs g d = (fs, true) := fun g d => move_file_group_dry _ _ _ _
  delta sort_item
  simp only [hm]
  repeat' split
  all_goals rfl

theorem ensureAll_dry (cc : Bool) (ds : List FPath) :
    ∀ fs : FS, ensureAll true cc ds fs = (fs, true) := by
  induction ds with
  | nil => intro fs; rfl
  | cons d t ih =>
    intro fs
    simp only [ensureAll, ensure_dir_dry]
    exact ih fs

theorem ensure_target_dirs_dry (cc : Bool) (cfg : Config) (fs : FS) :
    ensure_target_dirs true cc cfg fs = (fs, true) := by
  unfold ensure_target_dirs
  split
  · rfl
  · exact ensureAll_dry cc _ fs

theorem cleanup_empty_dirs_dry (cfg : Config) (fs : FS) (src : FPath) :
    cleanup_empty_dirs true cfg fs src = fs := rfl

theorem delete_file_group_dry (cfg : Config) (fs : FS) (f : FsFile) :
    delete_file_group true cfg fs f = fs := rfl

theorem sortFold_dry_fs (cfg : Config) (classify : List Char → MediaInfo) (cy : Nat)
    (cc : Bool) (l : List FsFile) :
    ∀ (fs : FS) (s : Stats),
      (l.foldl (fun (acc : FS × Stats) f =>
        sort_item cfg classify cy true cc f none acc.1
          { acc.2 with processed := acc.2.processed + 1 }) (fs, s)).1 = fs := by
  induction l with
  | nil => intro fs s; rfl
  | cons f t ih =>
    intro fs s
    simp only [List.foldl_cons]
    have hstep : (sort_item cfg classify cy true cc f none fs
        { s with processed := s.processed + 1 }) =
        (fs, (sort_item cfg classify cy true cc f none fs
          { s with processed := s.processed + 1 }).2) := by
      have := sort_item_dry_fs cfg classify cy cc f none fs
        { s with processed := s.processed + 1 }
      exact Prod.ext this rfl
    rw [hstep]
    exact ih fs _

theorem process_dry_fs (cfg : Config) (classify : List Char → MediaInfo) (cy : Nat)
    (cc : Bool) (fs : FS) :
    (process_source_directory cfg classify cy true cc fs).1 = fs := by
  unfold process_source_directory
  cases hsrc : cfg.SOURCE_DIR with
  | none => rfl
  | some src =>
    simp only [ensure_target_dirs_dry, cleanup_empty_dirs_dry]
    have hfold : ∀ (l : List FsFile),
        (l.foldl (fun (acc : FS × Stats) f =>
          sort_item cfg classify cy true cc f none acc.1
            { acc.2 with processed := acc.2.processed + 1 }) (fs, statsZero)).1 = fs :=
      fun l => sortFold_dry_fs cfg classify cy cc l fs statsZero
    repeat' split
    all_goals first | rfl | exact hfold _

theorem ensure_dir_cc (fs : FS) (d : FPath) :
    (ensure_dir false true fs d).2 = true ∧
    (ensure_dir false true fs d).1.files = fs.files ∧
    ∀ d₀ ∈ fs.dirs, d₀ ∈ (ensure_dir false true fs d).1.dirs := by
  unfold ensure_dir
  split
  · exact ⟨rfl, rfl, fun _ h => h⟩
  · exact ⟨rfl, rfl, fun _ h => List.mem_append_left _ h⟩

theorem ensureAll_cc (ds : List FPath) : ∀ fs : FS,
    (ensureAll false true ds fs).2 = true ∧
    (ensureAll false true ds fs).1.files = fs.files ∧
    ∀ d₀ ∈ fs.dirs, d₀ ∈ (ensureAll false true ds fs).1.dirs := by
  induction ds with
  | nil => intro fs; exact ⟨rfl, rfl, fun _ h => h⟩
  | cons d t ih =>
    intro fs
    have h1 := ensure_dir_cc fs d
    obtain ⟨fs1, hfs1⟩ : ∃ fs1, ensure_dir false true fs d = (fs1, true) := by
      cases hh : ensure_dir false true fs d with
      | mk a b =>
        cases b
        · rw [hh] at h1; exact absurd h1.1 (by simp)
        · exact ⟨a, rfl⟩
    rw [hfs1] at h1
    have h2 := ih fs1
    rw [show ensureAll false true (d :: t) fs = ensureAll false true t fs1 by
      rw [ensureAll, hfs1]]
    exact ⟨h2.1, h2.2.1.trans h1.2.1, fun d₀ h => h2.2.2 d₀ (h1.2.2 d₀ h)⟩

theorem ensure_target_dirs_cc (cfg : Config) (fs : FS) :
    (ensure_target_dirs false true cfg fs).2 = true ∧
    (ensure_target_dirs false true cfg fs).1.files = fs.files ∧
    ∀ d₀ ∈ fs.dirs, d₀ ∈ (ensure_target_dirs false true cfg fs).1.dirs := by
  unfold ensure_target_dirs
  split
  · exact ⟨rfl, rfl, fun _ h => h⟩
  · exact ensureAll_cc _ fs

theorem existsPath_mono (fs1 fs2 : FS) (hfiles : fs1.files = fs2.files)
    (hdirs : ∀ d ∈ fs2.dirs, d ∈ fs1.dirs) (p : FPath) (h : existsPath fs2 p = true) :
    existsPath fs1 p = true := by
  unfold existsPath at h ⊢
  simp only [Bool.or_eq_true, decide_eq_true_eq] at h ⊢
  rcases h with h | h
  · exact Or.inl (hdirs p h)
  · right
    cases hf : fileOfPath p with
    | none => rw [hf] at h; exact h
    | some f =>
      rw [hf] at h
      simp only [decide_eq_true_eq] at h ⊢
      rw [hfiles]
      exact h

theorem scanAllFound_files_eq (cfg : Config) (src : FPath) (fs1 fs2 : FS)
    (h : fs1.files = fs2.files) : scanAllFound cfg src fs1 = scanAllFound cfg src fs2 := by
  unfold scanAllFound; rw [h]

theorem mem_scanAllFound (cfg : Config) (src : FPath) (fs : FS) (f : FsFile)
    (h : f ∈ scanAllFound cfg src fs) : f ∈ fs.files := by
  unfold scanAllFound at h
  simp only [List.mem_flatten, List.mem_map] at h
  obtain ⟨l, ⟨ext, _, rfl⟩, hf⟩ := h
  exact (List.mem_filter.mp hf).1

/-- Both the dry and the real per-item fold produce the same statistics: the
    pure fold of `sortItemStats`. -/
theorem sortFold_stats_pure (cfg : Config) (classify : List Char → MediaInfo) (cy : Nat)
    (dry cc : Bool) (h : dry = true ∨ cc = true) (l : List FsFile) :
    ∀ (fs : FS) (s : Stats),
      (l.foldl (fun (acc : FS × Stats) f =>
          sort_item cfg classify cy dry cc f none acc.1
            { acc.2 with processed := acc.2.processed + 1 }) (fs, s)).2 =
        l.foldl (fun (st : Stats) f =>
          sortItemStats cfg classify cy f none { st with processed := st.processed + 1 }) s := by
  induction l with
  | nil => intro fs s; rfl
  | cons f t ih =>
    intro fs s
    simp only [List.foldl_cons]
    have hstep : sort_item cfg classify cy dry cc f none fs
        { s with processed := s.processed + 1 } =
        ((sort_item cfg classify cy dry cc f none fs { s with processed := s.processed + 1 }).1,
          sortItemStats cfg classify cy f none { s with processed := s.processed + 1 }) :=
      Prod.ext rfl (sort_item_stats_eq cfg classify cy dry cc f none fs
        { s with processed := s.processed + 1 } h)
    rw [hstep]
    exact ih _ _

/-- A dry pass and a real pass (with creatable directories) report identical
    statistics, provided the filesystem is well-formed at the mismatched
    directory: either it already exists, or no file lies beneath it (on a real
    filesystem files cannot sit under a nonexistent directory). -/
theorem process_stats_parity (cfg : Config) (classify : List Char → MediaInfo) (cy : Nat)
    (cc : Bool) (fs : FS)
    (hWF : ∀ mp, get_mismatched_path cfg = some mp →
      (existsPath fs mp = true ∨ ∀ f ∈ fs.files, isPrefixL mp f.dir = false)) :
    (process_source_directory cfg classify cy true cc fs).2 =
      (process_source_directory cfg classify cy false true fs).2 := by
  unfold process_source_directory
  cases hsrc : cfg.SOURCE_DIR with
  | none => rfl
  | some src =>
    by_cases hex : existsPath fs src = true
    · have hE := ensure_target_dirs_cc cfg fs
      obtain ⟨fsE, hfsE⟩ : ∃ fsE, ensure_target_dirs false true cfg fs = (fsE, true) := by
        cases hh : ensure_target_dirs false true cfg fs with
        | mk a b =>
          cases b
          · rw [hh] at hE; exact absurd hE.1 (by simp)
          · exact ⟨a, rfl⟩
      rw [hfsE] at hE
      have hfilesE : fsE.files = fs.files := hE.2.1
      have hdirsE : ∀ d ∈ fs.dirs, d ∈ fsE.dirs := hE.2.2
      have hscan : scanAllFound cfg src fsE = scanAllFound cfg src fs :=
        scanAllFound_files_eq cfg src fsE fs hfilesE
      have hlist :
          (match get_mismatched_path cfg with
           | some mp =>
             if existsPath fsE mp = true
             then (scanAllFound cfg src fsE).filter (fun (f : FsFile) => !isPrefixL mp f.dir)
             else scanAllFound cfg src fsE
           | none => scanAllFound cfg src fsE) =
          (match get_mismatched_path cfg with
           | some mp =>
             if existsPath fs mp = true
             then (scanAllFound cfg src fs).filter (fun (f : FsFile) => !isPrefixL mp f.dir)
             else scanAllFound cfg src fs
           | none => scanAllFound cfg src fs) := by
        cases hmp : get_mismatched_path cfg with
        | none => rw [hscan]
        | some mp =>
          simp only []
          rcases hWF mp hmp with hWF1 | hWF2
          · rw [hscan, if_pos (existsPath_mono fsE fs hfilesE hdirsE mp hWF1), if_pos hWF1]
          · have hid : (scanAllFound cfg src fs).filter
                (fun (f : FsFile) => !isPrefixL mp f.dir) = scanAllFound cfg src fs := by
              apply List.filter_eq_self.mpr
              intro a ha
              have hmem : a ∈ fs.files := mem_scanAllFound cfg src fs a ha
              simp [hWF2 a hmem]
            rw [hscan, hid]
            simp only [ite_self]
      simp only [ensure_target_dirs_dry, hfsE, hex, Bool.not_true, Bool.false_eq_true,
        if_false]
      simp only [hlist]
      rw [sortFold_stats_pure cfg classify cy true cc (Or.inl rfl),
        sortFold_stats_pure cfg classify cy false true (Or.inr rfl)]
    · simp only [Bool.not_eq_true] at hex
      simp only [ensure_target_dirs_dry, hex, Bool.not_false, if_true]

/-- C9: with the dry-run flag set, no engine operation mutates the
    filesystem — `ensure_dir` creates nothing, `move_file_group` and
    `delete_file_group` move or remove nothing, `cleanup_empty_dirs` removes
    nothing, and a whole directory pass leaves the filesystem untouched —
    while the pass still reports exactly the statistics of the corresponding
    real run (directory creation succeeding, filesystem well-formed at the
    mismatched directory). -/
theorem C9_dry_run_no_mutation :
    (∀ (cc : Bool) (fs : FS) (p : FPath), ensure_dir true cc fs p = (fs, true)) ∧
    (∀ (cc : Bool) (fs : FS) (g : List FsFile) (d : FPath),
      move_file_group true cc fs g d = (fs, true)) ∧
    (∀ (cfg : Config) (fs : FS) (f : FsFile), delete_file_group true cfg fs f = fs) ∧
    (∀ (cfg : Config) (fs : FS) (src : FPath), cleanup_empty_dirs true cfg fs src = fs) ∧
    (∀ (cfg : Config) (classify : List Char → MediaInfo) (cy : Nat) (cc : Bool) (fs : FS),
      (process_source_directory cfg classify cy true cc fs).1 = fs) ∧
    (∀ (cfg : Config) (classify : List Char → MediaInfo) (cy : Nat) (cc : Bool) (fs : FS),
      (∀ mp, get_mismatched_path cfg = some mp →
        (existsPath fs mp = true ∨ ∀ f ∈ fs.files, isPrefixL mp f.dir = false)) →
      (process_source_directory cfg classify cy true cc fs).2 =
        (process_source_directory cfg classify cy false true fs).2) :=
  ⟨ensure_dir_dry, move_file_group_dry, delete_file_group_dry, cleanup_empty_dirs_dry,
   process_dry_fs, process_stats_parity⟩

def clC9 : List Char → MediaInfo := fun n =>
  if n = "a.S01E02".toList then ⟨"X".toList, none, MediaType.TV_SERIES, none, none, none⟩
  else ⟨n, none, MediaType.UNKNOWN, none, none, none⟩

def fsC9 : FS := ⟨[⟨["src".toList], "a.S01E02.mkv".toList⟩], [["src".toList]]⟩

theorem C9_dry_run_no_mutation_witness :
    ((∀ f ∈ fsC9.files, isPrefixL ["src".toList, "_Mismatched".toList] f.dir = false)) ∧
    (process_source_directory cfg0 clC9 2025 true false fsC9).1 = fsC9 ∧
    (process_source_directory cfg0 clC9 2025 true false fsC9).2 =
      (process_source_directory cfg0 clC9 2025 false true fsC9).2 := by
  refine ⟨by decide, ?_, ?_⟩
  · exact C9_dry_run_no_mutation.2.2.2.2.1 cfg0 clC9 2025 false fsC9
  · apply C9_dry_run_no_mutation.2.2.2.2.2 cfg0 clC9 2025 false fsC9
    intro mp hmp
    have hmp2 : mp = ["src".toList, "_Mismatched".toList] := by
      have h2 : (some (["src".toList, "_Mismatched".toList] : FPath) : Option FPath) = some mp := by
        rw [← hmp]
        rfl
      exact (Option.some.inj h2).symm
    subst hmp2
    right
    decide


/-! ## Claim C2 — path-prefix order and filesystem transition facts -/

lemma isPrefixL_refl : ∀ p : FPath, isPrefixL p p = true := by
  intro p
  induction p with
  | nil => rfl
  | cons x xs ih =>
    show (x == x && isPrefixL xs xs) = true
    rw [beq_self_eq_true, ih]
    rfl

lemma isPrefixL_nil_left (p : FPath) : isPrefixL [] p = true := rfl

lemma isPrefixL_trans : ∀ a b c : FPath,
    isPrefixL a b = true → isPrefixL b c = true → isPrefixL a c = true := by
  intro a
  induction a with
  | nil => intro b c _ _; rfl
  | cons x xs ih =>
    intro b c hab hbc
    cases b with
    | nil => exact absurd hab (by simp [isPrefixL])
    | cons y ys =>
      cases c with
      | nil => exact absurd hbc (by simp [isPrefixL])
      | cons z zs =>
        have hab2 : (x == y && isPrefixL xs ys) = true := hab
        have hbc2 : (y == z && isPrefixL ys zs) = true := hbc
        rw [Bool.and_eq_true] at hab2 hbc2
        show (x == z && isPrefixL xs zs) = true
        rw [Bool.and_eq_true]
        refine ⟨?_, ih ys zs hab2.2 hbc2.2⟩
        rw [beq_iff_eq] at hab2 hbc2 ⊢
        exact hab2.1.trans hbc2.1

lemma isPrefixL_length : ∀ a b : FPath, isPrefixL a b = true → a.length ≤ b.length := by
  intro a
  induction a with
  | nil => intro b _; simp
  | cons x xs ih =>
    intro b h
    cases b with
    | nil => exact absurd h (by simp [isPrefixL])
    | cons y ys =>
      have h2 : (x == y && isPrefixL xs ys) = true := h
      rw [Bool.and_eq_true] at h2
      have := ih ys h2.2
      simp only [List.length_cons]
      omega

lemma isPrefixL_append_self : ∀ p e : FPath, isPrefixL p (p ++ e) = true := by
  intro p e
  induction p with
  | nil => rfl
  | cons x xs ih =>
    show (x == x && isPrefixL xs (xs ++ e)) = true
    rw [beq_self_eq_true, ih]
    rfl

lemma isPrefixL_of_le : ∀ a b c : FPath, isPrefixL a c = true → isPrefixL b c = true →
    a.length ≤ b.length → isPrefixL a b = true := by
  intro a
  induction a with
  | nil => intro b c _ _ _; rfl
  | cons x xs ih =>
    intro b c hac hbc hl
    cases c with
    | nil => exact absurd hac (by simp [isPrefixL])
    | cons z zs =>
      cases b with
      | nil => simp at hl
      | cons y ys =>
        have hac2 : (x == z && isPrefixL xs zs) = true := hac
        have hbc2 : (y == z && isPrefixL ys zs) = true := hbc
        rw [Bool.and_eq_true] at hac2 hbc2
        show (x == y && isPrefixL xs ys) = true
        rw [Bool.and_eq_true]
        refine ⟨?_, ih ys zs hac2.2 hbc2.2 (by simp at hl; omega)⟩
        rw [beq_iff_eq] at hac2 hbc2 ⊢
        exact hac2.1.trans hbc2.1.symm

/-- Directions of the "destination tree disjoint from the source tree"
    condition are stable under descending into the destination. -/
lemma outside_append (src b e : FPath) (h1 : isPrefixL src b = false)
    (h2 : isPrefixL b src = false) :
    isPrefixL src (b ++ e) = false ∧ isPrefixL (b ++ e) src = false := by
  constructor
  · cases hsp : isPrefixL src (b ++ e) with
    | false => rfl
    | true =>
      exfalso
      by_cases hl : src.length ≤ b.length
      · rw [isPrefixL_of_le src b (b ++ e) hsp (isPrefixL_append_self b e) hl] at h1
        exact Bool.noConfusion h1
      · rw [isPrefixL_of_le b src (b ++ e) (isPrefixL_append_self b e) hsp (by omega)] at h2
        exact Bool.noConfusion h2
  · cases hsp : isPrefixL (b ++ e) src with
    | false => rfl
    | true =>
      exfalso
      rw [isPrefixL_trans b (b ++ e) src (isPrefixL_append_self b e) hsp] at h2
      exact Bool.noConfusion h2

lemma outside_ne_nil {src d : FPath} (h : isPrefixL d src = false) : d ≠ [] := by
  intro he
  rw [he, isPrefixL_nil_left] at h
  exact Bool.noConfusion h

lemma isPrefixL_dropLast : ∀ p : FPath, isPrefixL p.dropLast p = true := by
  intro p
  induction p with
  | nil => rfl
  | cons x xs ih =>
    cases xs with
    | nil => rfl
    | cons y ys =>
      show (x == x && isPrefixL (y :: ys).dropLast (y :: ys)) = true
      rw [beq_self_eq_true, ih]
      rfl

lemma not_prefix_dropLast {src p : FPath} (h : isPrefixL src p = false) :
    isPrefixL src p.dropLast = false := by
  cases hd : isPrefixL src p.dropLast with
  | false => rfl
  | true =>
    rw [isPrefixL_trans src p.dropLast p hd (isPrefixL_dropLast p)] at h
    exact Bool.noConfusion h

lemma fileOfPath_dir {p : FPath} {f : FsFile} (h : fileOfPath p = some f) :
    f.dir = p.dropLast := by
  unfold fileOfPath at h
  cases hg : p.getLast? with
  | none => rw [hg] at h; exact absurd h (by simp)
  | some n =>
    rw [hg] at h
    have := Option.some.inj h
    rw [← this]

/-- The transition relation every real-run engine step satisfies when all
    destinations lie outside the source tree: files below the source only
    disappear, files elsewhere persist, directories persist. -/
def stepOK (src : FPath) (fs1 fs2 : FS) : Prop :=
  (∀ h ∈ fs2.files, isPrefixL src h.dir = true → h ∈ fs1.files) ∧
  (∀ h ∈ fs1.files, isPrefixL src h.dir = false → h ∈ fs2.files) ∧
  (∀ d ∈ fs1.dirs, d ∈ fs2.dirs)

lemma stepOK_refl (src : FPath) (fs : FS) : stepOK src fs fs :=
  ⟨fun _ h _ => h, fun _ h _ => h, fun _ h => h⟩

lemma stepOK_trans {src : FPath} {fs1 fs2 fs3 : FS} (h12 : stepOK src fs1 fs2)
    (h23 : stepOK src fs2 fs3) : stepOK src fs1 fs3 :=
  ⟨fun h hm hp => h12.1 h (h23.1 h hm hp) hp,
   fun h hm hp => h23.2.1 h (h12.2.1 h hm hp) hp,
   fun d hd => h23.2.2 d (h12.2.2 d hd)⟩

lemma stepOK_existsPath {src : FPath} {fs1 fs2 : FS} (h : stepOK src fs1 fs2) (p : FPath)
    (hp : isPrefixL src p = false) (he : existsPath fs1 p = true) :
    existsPath fs2 p = true := by
  unfold existsPath at he ⊢
  simp only [Bool.or_eq_true, decide_eq_true_eq] at he ⊢
  rcases he with he | he
  · exact Or.inl (h.2.2 p he)
  · right
    cases hf : fileOfPath p with
    | none => rw [hf] at he; exact absurd he (by simp)
    | some f =>
      rw [hf] at he
      simp only [decide_eq_true_eq] at he ⊢
      have hdir : isPrefixL src f.dir = false := by
        rw [fileOfPath_dir hf]
        exact not_prefix_dropLast hp
      exact h.2.1 f he hdir


lemma mem_pathInitsAux_self : ∀ (l : FPath) (acc : FPath), l ≠ [] →
    (acc ++ l) ∈ pathInitsAux acc l := by
  intro l
  induction l with
  | nil => intro acc h; exact absurd rfl h
  | cons x xs ih =>
    intro acc _
    cases xs with
    | nil => simp [pathInitsAux]
    | cons y ys =>
      rw [pathInitsAux]
      refine List.mem_cons_of_mem _ ?_
      have := ih (acc ++ [x]) (by simp)
      rw [List.append_assoc] at this
      exact this

lemma mem_pathInits_self (p : FPath) (h : p ≠ []) : p ∈ pathInits p := by
  have := mem_pathInitsAux_self p [] h
  rwa [List.nil_append] at this

lemma existsPath_mkdirParents_self (fs : FS) (p : FPath) (h : p ≠ []) :
    existsPath (mkdirParents fs p) p = true := by
  unfold existsPath
  simp only [Bool.or_eq_true, decide_eq_true_eq]
  left
  show p ∈ fs.dirs ++ (pathInits p).filter (fun d => decide (d ∉ fs.dirs))
  by_cases hm : p ∈ fs.dirs
  · exact List.mem_append_left _ hm
  · refine List.mem_append_right _ (List.mem_filter.mpr ⟨mem_pathInits_self p h, by simp [hm]⟩)

lemma mkdirParents_stepOK (src : FPath) (fs : FS) (p : FPath) :
    stepOK src fs (mkdirParents fs p) :=
  ⟨fun h hm _ => hm, fun h hm _ => hm, fun d hd => List.mem_append_left _ hd⟩

lemma ensure_dir_stepOK (src : FPath) (dry cc : Bool) (fs : FS) (p : FPath) :
    stepOK src fs (ensure_dir dry cc fs p).1 := by
  unfold ensure_dir
  repeat' split
  all_goals first
    | exact stepOK_refl src fs
    | exact mkdirParents_stepOK src fs p

lemma ensure_dir_spec (fs : FS) (p : FPath) (hne : p ≠ []) :
    (ensure_dir false true fs p).2 = true ∧
    existsPath (ensure_dir false true fs p).1 p = true := by
  unfold ensure_dir
  split
  · rename_i hex
    exact ⟨rfl, hex⟩
  · exact ⟨rfl, existsPath_mkdirParents_self fs p hne⟩

lemma moveLoop_stepOK (src : FPath) (dest : FPath) (hdest : isPrefixL src dest = false)
    (group : List FsFile) (hg : ∀ g ∈ group, isPrefixL src g.dir = true) :
    ∀ fs : FS, stepOK src fs (moveLoop false dest group fs) := by
  induction group with
  | nil => intro fs; exact stepOK_refl src fs
  | cons g t ih =>
    have hgt : ∀ x ∈ t, isPrefixL src x.dir = true := fun x hx => hg x (by simp [hx])
    intro fs
    simp only [moveLoop]
    split
    · exact ih hgt fs
    · split
      · exact ih hgt fs
      · split
        · exact ih hgt fs
        · refine stepOK_trans ?_ (ih hgt _)
          refine ⟨?_, ?_, fun d hd => hd⟩
          · intro h hm hp
            rcases List.mem_cons.mp hm with rfl | hm2
            · rw [show (⟨dest, g.name⟩ : FsFile).dir = dest from rfl] at hp
              rw [hp] at hdest
              exact absurd hdest (by simp)
            · exact List.erase_subset _ _ hm2
          · intro h hm hp
            have hne : h ≠ g := by
              intro he
              rw [he, hg g (by simp)] at hp
              exact Bool.noConfusion hp
            exact List.mem_cons_of_mem _ ((List.mem_erase_of_ne hne).mpr hm)

lemma moveLoop_targets (src : FPath) (dest : FPath) (hdest : isPrefixL src dest = false)
    (hdest2 : isPrefixL dest src = false) (group : List FsFile)
    (hg : ∀ g ∈ group, isPrefixL src g.dir = true) :
    ∀ fs : FS, ∀ g ∈ group,
      existsPath (moveLoop false dest group fs) (dest ++ [g.name]) = true := by
  have htgt_out : ∀ n : List Char, isPrefixL src (dest ++ [n]) = false :=
    fun n => (outside_append src dest [n] hdest hdest2).1
  induction group with
  | nil => intro fs g hgm; exact absurd hgm (List.not_mem_nil g)
  | cons g t ih =>
    have hgt : ∀ x ∈ t, isPrefixL src x.dir = true := fun x hx => hg x (by simp [hx])
    intro fs g0 hg0
    have hgdir : g.dir ≠ dest := by
      intro he
      have := hg g (by simp)
      rw [he, hdest] at this
      exact Bool.noConfusion this
    simp only [moveLoop, if_neg hgdir]
    split
    · -- target of the head already exists
      rename_i hex
      rcases List.mem_cons.mp hg0 with rfl | hm2
      · exact stepOK_existsPath (moveLoop_stepOK src dest hdest t hgt fs) _
          (htgt_out g0.name) hex
      · exact ih hgt fs g0 hm2
    · split
      · rename_i hdry
        exact absurd hdry (by simp)
      · rcases List.mem_cons.mp hg0 with rfl | hm2
        · refine stepOK_existsPath
            (moveLoop_stepOK src dest hdest t hgt _) _ (htgt_out g0.name) ?_
          rw [existsPath_concat]
          simp
        · exact ih hgt _ g0 hm2

lemma move_group_spec (src : FPath) (dest : FPath) (hdest : isPrefixL src dest = false)
    (hdest2 : isPrefixL dest src = false) (group : List FsFile)
    (hg : ∀ g ∈ group, isPrefixL src g.dir = true) (fs : FS) :
    stepOK src fs (move_file_group false true fs group dest).1 ∧
    existsPath (move_file_group false true fs group dest).1 dest = true ∧
    ∀ g ∈ group,
      existsPath (move_file_group false true fs group dest).1 (dest ++ [g.name]) = true := by
  have hne : dest ≠ [] := outside_ne_nil hdest2
  have hD := ensure_dir_spec fs dest hne
  obtain ⟨fsD, hfsD⟩ : ∃ fsD, ensure_dir false true fs dest = (fsD, true) := by
    cases hh : ensure_dir false true fs dest with
    | mk a b =>
      cases b
      · rw [hh] at hD; exact absurd hD.1 (by simp)
      · exact ⟨a, rfl⟩
  rw [hfsD] at hD
  have hmfg : move_file_group false true fs group dest =
      (moveLoop false dest group fsD, true) := by
    unfold move_file_group
    rw [hfsD]
  rw [hmfg]
  have hstepD : stepOK src fs fsD := by
    have := ensure_dir_stepOK src false true fs dest
    rwa [hfsD] at this
  refine ⟨stepOK_trans hstepD (moveLoop_stepOK src dest hdest group hg fsD), ?_, ?_⟩
  · exact stepOK_existsPath (moveLoop_stepOK src dest hdest group hg fsD) dest hdest hD.2
  · exact moveLoop_targets src dest hdest hdest2 group hg fsD

lemma move_group_noop (cc : Bool) (fs : FS) (dest : FPath) (group : List FsFile)
    (hex : existsPath fs dest = true)
    (hall : ∀ g ∈ group, g.dir = dest ∨ existsPath fs (dest ++ [g.name]) = true) :
    move_file_group false cc fs group dest = (fs, true) := by
  have hloop : moveLoop false dest group fs = fs := by
    induction group with
    | nil => rfl
    | cons g t ih =>
      have hgt : ∀ x ∈ t, x.dir = dest ∨ existsPath fs (dest ++ [x.name]) = true :=
        fun x hx => hall x (by simp [hx])
      simp only [moveLoop]
      rcases hall g (by simp) with hgd | hgex
      · rw [if_pos hgd]
        exact ih hgt
      · by_cases hgd2 : g.dir = dest
        · rw [if_pos hgd2]
          exact ih hgt
        · rw [if_neg hgd2, if_pos hgex]
          exact ih hgt
  unfold move_file_group
  rw [show ensure_dir false cc fs dest = (fs, true) from by unfold ensure_dir; rw [if_pos hex]]
  show (moveLoop false dest group fs, true) = (fs, true)
  rw [hloop]


/-- The destination directory `sort_item` would move the item's group to
    (`none` when the branch taken performs no move).  Computed from the item
    and configuration only — the filesystem never enters the choice. -/
def sortDest (cfg : Config) (classify : List Char → MediaInfo) (cy : Nat)
    (item : FsFile) : Option FPath :=
  if decide (lowerStr (suffixOf item.name) ∈ cfg.SIDECAR_EXTENSIONS) then none
  else
    let cl := classifyStage cfg classify item none
    let info := validate_api_result cfg cy item.name cl.2 cl.1
    if info.media_type = .UNKNOWN then
      if cfg.CLEANUP_MODE_ENABLED then none
      else
        match get_mismatched_path cfg with
        | none => none
        | some mismatchedPath =>
          if (extract_season_info item.name).isSome then
            if cfg.FALLBACK_SHOW_DESTINATION = "ignore".toList then none
            else
              let base : Option FPath :=
                if cfg.FALLBACK_SHOW_DESTINATION = "tv".toList then cfg.TV_SHOWS_DIR
                else if cfg.FALLBACK_SHOW_DESTINATION = "anime".toList then cfg.ANIME_SERIES_DIR
                else if cfg.FALLBACK_SHOW_DESTINATION = "mismatched".toList then
                  some mismatchedPath
                else none
              match base with
              | none => none
              | some b =>
                some (b ++ [get_folder_name info,
                  seasonFolder ((extract_season_info item.name).getD 1)])
          else some (mismatchedPath ++ [get_folder_name info])
    else
      let enabled :=
        match info.media_type with
        | .MOVIE => cfg.MOVIES_ENABLED
        | .TV_SERIES => cfg.TV_SHOWS_ENABLED
        | .ANIME_MOVIE => cfg.ANIME_MOVIES_ENABLED
        | .ANIME_SERIES => cfg.ANIME_SERIES_ENABLED
        | .UNKNOWN => true
      if !enabled then none
      else
        let base0 : Option FPath :=
          if cfg.CLEANUP_MODE_ENABLED then some item.dir
          else
            match info.media_type with
            | .MOVIE => cfg.MOVIES_DIR
            | .TV_SERIES => cfg.TV_SHOWS_DIR
            | .ANIME_MOVIE => cfg.ANIME_MOVIES_DIR
            | .ANIME_SERIES => cfg.ANIME_SERIES_DIR
            | .UNKNOWN => none
        let base1 : Option FPath :=
          if info.media_type == .MOVIE && cfg.SPLIT_MOVIES_DIR.isSome &&
              !cfg.LANGUAGES_TO_SPLIT.isEmpty && !cfg.CLEANUP_MODE_ENABLED then
            let movieLanguages :=
              (splitComma (info.language.getD [])).map (fun l => lowerStr (stripEnds l))
            let splitLanguages := cfg.LANGUAGES_TO_SPLIT.map (fun l => lowerStr (stripEnds l))
            let shouldSplit :=
              if splitLanguages.contains "all".toList
              then !(movieLanguages.contains "english".toList)
              else movieLanguages.any (fun l => splitLanguages.contains l)
            if shouldSplit then cfg.SPLIT_MOVIES_DIR else base0
          else base0
        match base1 with
        | none => none
        | some b =>
          if info.media_type == .MOVIE || info.media_type == .ANIME_MOVIE then
            let dest := b ++ [get_folder_name info]
            if cfg.CLEANUP_MODE_ENABLED && dest == item.dir then none else some dest
          else
            let dest := b ++ [get_folder_name info,
              seasonFolder ((extract_season_info item.name).getD 1)]
            if cfg.CLEANUP_MODE_ENABLED && dest == item.dir then none else some dest

set_option maxHeartbeats 3200000 in
/-- The filesystem component of a real `sort_item` run is exactly: move the
    group to `sortDest` when it is set, do nothing otherwise. -/
theorem sort_item_fst_char (cfg : Config) (classify : List Char → MediaInfo) (cy : Nat)
    (cc : Bool) (item : FsFile) (fs : FS) (s : Stats) :
    (sort_item cfg classify cy false cc item none fs s).1 =
      (match sortDest cfg classify cy item with
       | none => fs
       | some dest =>
         (move_file_group false cc fs (item :: find_sidecar_files cfg fs item) dest).1) := by
  have hfst : ∀ (c : Prop) [Decidable c] (fs1 fs2 : FS) (st1 st2 : Stats),
      (if c then (fs1, st1) else (fs2, st2)).1 = if c then fs1 else fs2 := by
    intro c _ fs1 fs2 st1 st2
    split <;> rfl
  by_cases h1 : lowerStr (suffixOf item.name) ∈ cfg.SIDECAR_EXTENSIONS
  · simp [sort_item, sortDest, h1]
  · cases ht : (validate_api_result cfg cy item.name
        (classifyStage cfg classify item none).2
        (classifyStage cfg classify item none).1).media_type with
    | UNKNOWN =>
      by_cases hcl : cfg.CLEANUP_MODE_ENABLED
      · simp [sort_item, sortDest, h1, ht, hcl]
      · cases hmp : get_mismatched_path cfg with
        | none => simp [sort_item, sortDest, h1, ht, hcl, hmp]
        | some mp =>
          by_cases hs2 : (extract_season_info item.name).isSome
          · by_cases hig : cfg.FALLBACK_SHOW_DESTINATION = "ignore".toList
            · simp [sort_item, sortDest, h1, ht, hcl, hmp, hs2, hig]
            · simp only [show ("ignore".toList : List Char) = ['i','g','n','o','r','e'] from rfl]
                at hig
              by_cases htv : cfg.FALLBACK_SHOW_DESTINATION = "tv".toList
              · cases hb : cfg.TV_SHOWS_DIR with
                | none => simp [sort_item, sortDest, h1, ht, hcl, hmp, hs2, hig, htv, hb]
                | some b =>
                  simp [sort_item, sortDest, h1, ht, hcl, hmp, hs2, hig, htv, hb, hfst]
              · simp only [show ("tv".toList : List Char) = ['t','v'] from rfl] at htv
                by_cases han : cfg.FALLBACK_SHOW_DESTINATION = "anime".toList
                · cases hb : cfg.ANIME_SERIES_DIR with
                  | none =>
                    simp [sort_item, sortDest, h1, ht, hcl, hmp, hs2, hig, htv, han, hb]
                  | some b =>
                    simp [sort_item, sortDest, h1, ht, hcl, hmp, hs2, hig, htv, han, hb, hfst]
                · simp only [show ("anime".toList : List Char) = ['a','n','i','m','e'] from rfl]
                    at han
                  by_cases hmm : cfg.FALLBACK_SHOW_DESTINATION = "mismatched".toList
                  · simp [sort_item, sortDest, h1, ht, hcl, hmp, hs2, hig, htv, han, hmm, hfst]
                  · simp only [show ("mismatched".toList : List Char) =
                      ['m','i','s','m','a','t','c','h','e','d'] from rfl] at hmm
                    simp [sort_item, sortDest, h1, ht, hcl, hmp, hs2, hig, htv, han, hmm]
          · simp [sort_item, sortDest, h1, ht, hcl, hmp, hs2, hfst]
    | MOVIE =>
      by_cases hen : cfg.MOVIES_ENABLED
      · simp only [sort_item, sortDest, h1, ht, hen]
        simp [hfst]
        repeat' split
        all_goals first | rfl | simp_all
      · simp [sort_item, sortDest, h1, ht, hen]
    | TV_SERIES =>
      by_cases hen : cfg.TV_SHOWS_ENABLED
      · simp only [sort_item, sortDest, h1, ht, hen]
        simp [hfst]
        repeat' split
        all_goals first | rfl | simp_all
      · simp [sort_item, sortDest, h1, ht, hen]
    | ANIME_MOVIE =>
      by_cases hen : cfg.ANIME_MOVIES_ENABLED
      · simp only [sort_item, sortDest, h1, ht, hen]
        simp [hfst]
        repeat' split
        all_goals first | rfl | simp_all
      · simp [sort_item, sortDest, h1, ht, hen]
    | ANIME_SERIES =>
      by_cases hen : cfg.ANIME_SERIES_ENABLED
      · simp only [sort_item, sortDest, h1, ht, hen]
        simp [hfst]
        repeat' split
        all_goals first | rfl | simp_all
      · simp [sort_item, sortDest, h1, ht, hen]


/-- Under "every configured destination tree is disjoint from the source
    tree" (and cleanup mode off), every destination `sort_item` can compute
    is itself disjoint from the source tree. -/
lemma sortDest_some_out (cfg : Config) (classify : List Char → MediaInfo) (cy : Nat)
    (src : FPath)
    (hclean : cfg.CLEANUP_MODE_ENABLED = false)
    (hout : ∀ d : FPath,
      (cfg.MOVIES_DIR = some d ∨ cfg.TV_SHOWS_DIR = some d ∨
       cfg.ANIME_MOVIES_DIR = some d ∨ cfg.ANIME_SERIES_DIR = some d ∨
       cfg.SPLIT_MOVIES_DIR = some d ∨ get_mismatched_path cfg = some d) →
      isPrefixL src d = false ∧ isPrefixL d src = false)
    {item : FsFile} {dest : FPath}
    (h : sortDest cfg classify cy item = some dest) :
    isPrefixL src dest = false ∧ isPrefixL dest src = false := by
  unfold sortDest at h
  by_cases h1 : lowerStr (suffixOf item.name) ∈ cfg.SIDECAR_EXTENSIONS
  · simp [h1] at h
  · cases ht : (validate_api_result cfg cy item.name
        (classifyStage cfg classify item none).2
        (classifyStage cfg classify item none).1).media_type with
    | UNKNOWN =>
      cases hmp : get_mismatched_path cfg with
      | none => simp [h1, ht, hclean, hmp] at h
      | some mp =>
        have hmpo := hout mp (Or.inr (Or.inr (Or.inr (Or.inr (Or.inr hmp)))))
        by_cases hs2 : (extract_season_info item.name).isSome
        · by_cases hig : cfg.FALLBACK_SHOW_DESTINATION = "ignore".toList
          · simp [h1, ht, hclean, hmp, hs2, hig] at h
          · simp only [show ("ignore".toList : List Char) = ['i','g','n','o','r','e'] from rfl]
              at hig
            by_cases htv : cfg.FALLBACK_SHOW_DESTINATION = "tv".toList
            · cases hb : cfg.TV_SHOWS_DIR with
              | none => simp [h1, ht, hclean, hmp, hs2, hig, htv, hb] at h
              | some b =>
                have hbo := hout b (Or.inr (Or.inl hb))
                simp only [h1, ht, hclean, hmp, hs2, hig, htv, hb] at h
                simp at h
                exact h ▸ outside_append src b _ hbo.1 hbo.2
            · simp only [show ("tv".toList : List Char) = ['t','v'] from rfl] at htv
              by_cases han : cfg.FALLBACK_SHOW_DESTINATION = "anime".toList
              · cases hb : cfg.ANIME_SERIES_DIR with
                | none => simp [h1, ht, hclean, hmp, hs2, hig, htv, han, hb] at h
                | some b =>
                  have hbo := hout b (Or.inr (Or.inr (Or.inr (Or.inl hb))))
                  simp only [h1, ht, hclean, hmp, hs2, hig, htv, han, hb] at h
                  simp at h
                  exact h ▸ outside_append src b _ hbo.1 hbo.2
              · simp only [show ("anime".toList : List Char) = ['a','n','i','m','e'] from rfl]
                  at han
                by_cases hmm : cfg.FALLBACK_SHOW_DESTINATION = "mismatched".toList
                · simp only [h1, ht, hclean, hmp, hs2, hig, htv, han, hmm] at h
                  simp at h
                  exact h ▸ outside_append src mp _ hmpo.1 hmpo.2
                · simp only [show ("mismatched".toList : List Char) =
                    ['m','i','s','m','a','t','c','h','e','d'] from rfl] at hmm
                  simp [h1, ht, hclean, hmp, hs2, hig, htv, han, hmm] at h
        · simp only [h1, ht, hclean, hmp, hs2] at h
          simp at h
          exact h ▸ outside_append src mp _ hmpo.1 hmpo.2
    | MOVIE =>
      by_cases hen : cfg.MOVIES_ENABLED
      · cases hsp : cfg.SPLIT_MOVIES_DIR with
        | none =>
          cases hmv : cfg.MOVIES_DIR with
          | none => simp [h1, ht, hclean, hen, hsp, hmv] at h
          | some b =>
            have hbo := hout b (Or.inl hmv)
            simp [h1, ht, hclean, hen, hsp, hmv] at h
            exact h ▸ outside_append src b _ hbo.1 hbo.2
        | some sd =>
          have hsdo := hout sd (Or.inr (Or.inr (Or.inr (Or.inr (Or.inl hsp)))))
          by_cases hlang : cfg.LANGUAGES_TO_SPLIT = []
          · cases hmv : cfg.MOVIES_DIR with
            | none => simp [h1, ht, hclean, hen, hsp, hlang, hmv] at h
            | some b =>
              have hbo := hout b (Or.inl hmv)
              simp [h1, ht, hclean, hen, hsp, hlang, hmv] at h
              exact h ▸ outside_append src b _ hbo.1 hbo.2
          · cases hmv : cfg.MOVIES_DIR with
            | none =>
              simp [h1, ht, hclean, hen, hsp, hlang, hmv] at h
              repeat' split at h
              all_goals try (simp at h; done)
              all_goals try simp only [Option.some.injEq] at h
              all_goals first
                | exact h ▸ outside_append src sd _ hsdo.1 hsdo.2
                | (rename_i b2 heq
                   repeat' split at heq
                   all_goals first
                     | (simp at heq; done)
                     | (obtain rfl := Option.some.inj heq
                        exact h ▸ outside_append src sd _ hsdo.1 hsdo.2))
            | some b =>
              have hbo := hout b (Or.inl hmv)
              simp [h1, ht, hclean, hen, hsp, hlang, hmv] at h
              repeat' split at h
              all_goals try (simp at h; done)
              all_goals try simp only [Option.some.injEq] at h
              all_goals first
                | exact h ▸ outside_append src sd _ hsdo.1 hsdo.2
                | exact h ▸ outside_append src b _ hbo.1 hbo.2
                | (rename_i b2 heq
                   repeat' split at heq
                   all_goals first
                     | (simp at heq; done)
                     | (obtain rfl := Option.some.inj heq
                        exact h ▸ outside_append src sd _ hsdo.1 hsdo.2)
                     | (obtain rfl := Option.some.inj heq
                        exact h ▸ outside_append src b _ hbo.1 hbo.2))
      · simp [h1, ht, hclean, hen] at h
    | TV_SERIES =>
      by_cases hen : cfg.TV_SHOWS_ENABLED
      · cases hb : cfg.TV_SHOWS_DIR with
        | none => simp [h1, ht, hclean, hen, hb] at h
        | some b =>
          have hbo := hout b (Or.inr (Or.inl hb))
          simp [h1, ht, hclean, hen, hb] at h
          exact h ▸ outside_append src b _ hbo.1 hbo.2
      · simp [h1, ht, hclean, hen] at h
    | ANIME_MOVIE =>
      by_cases hen : cfg.ANIME_MOVIES_ENABLED
      · cases hb : cfg.ANIME_MOVIES_DIR with
        | none => simp [h1, ht, hclean, hen, hb] at h
        | some b =>
          have hbo := hout b (Or.inr (Or.inr (Or.inl hb)))
          simp [h1, ht, hclean, hen, hb] at h
          exact h ▸ outside_append src b _ hbo.1 hbo.2
      · simp [h1, ht, hclean, hen] at h
    | ANIME_SERIES =>
      by_cases hen : cfg.ANIME_SERIES_ENABLED
      · cases hb : cfg.ANIME_SERIES_DIR with
        | none => simp [h1, ht, hclean, hen, hb] at h
        | some b =>
          have hbo := hout b (Or.inr (Or.inr (Or.inr (Or.inl hb))))
          simp [h1, ht, hclean, hen, hb] at h
          exact h ▸ outside_append src b _ hbo.1 hbo.2
      · simp [h1, ht, hclean, hen] at h


lemma find_sidecar_mem {cfg : Config} {fs : FS} {item g : FsFile}
    (h : g ∈ find_sidecar_files cfg fs item) : g ∈ fs.files ∧ g.dir = item.dir := by
  have h2 := List.mem_filter.mp h
  refine ⟨h2.1, ?_⟩
  have h3 := h2.2
  rw [Bool.and_eq_true, Bool.and_eq_true, Bool.and_eq_true] at h3
  exact of_decide_eq_true h3.1.1.1

lemma find_sidecar_mono {cfg : Config} (src : FPath) {fs1 fs2 : FS} {item : FsFile}
    (hsub : ∀ h ∈ fs2.files, isPrefixL src h.dir = true → h ∈ fs1.files)
    (hitem : isPrefixL src item.dir = true) :
    ∀ g ∈ find_sidecar_files cfg fs2 item, g ∈ find_sidecar_files cfg fs1 item := by
  intro g hg
  have h2 := List.mem_filter.mp hg
  have hdir : g.dir = item.dir := (find_sidecar_mem hg).2
  exact List.mem_filter.mpr ⟨hsub g h2.1 (by rw [hdir]; exact hitem), h2.2⟩

/-- Every target of the group at the destination already exists (or the group
    member already sits there): the configuration in which the move loop does
    not touch the filesystem. -/
def groupTargetsExist (fs : FS) (dest : FPath) (group : List FsFile) : Bool :=
  existsPath fs dest &&
    group.all (fun g => decide (g.dir = dest) || existsPath fs (dest ++ [g.name]))

/-- An item is settled when `sort_item` on it cannot change the filesystem:
    either its branch performs no move, or every member of its move group is
    already blocked by an existing target. -/
def settled (cfg : Config) (classify : List Char → MediaInfo) (cy : Nat) (fs : FS)
    (item : FsFile) : Bool :=
  match sortDest cfg classify cy item with
  | none => true
  | some dest => groupTargetsExist fs dest (item :: find_sidecar_files cfg fs item)

/-- A settled item leaves the filesystem exactly as it was. -/
lemma sort_item_settled_fst (cfg : Config) (classify : List Char → MediaInfo) (cy : Nat)
    (cc : Bool) (item : FsFile) (fs : FS) (s : Stats)
    (h : settled cfg classify cy fs item = true) :
    (sort_item cfg classify cy false cc item none fs s).1 = fs := by
  rw [sort_item_fst_char]
  cases hd : sortDest cfg classify cy item with
  | none => rfl
  | some dest =>
    unfold settled at h
    rw [hd] at h
    unfold groupTargetsExist at h
    rw [Bool.and_eq_true, List.all_eq_true] at h
    show (move_file_group false cc fs (item :: find_sidecar_files cfg fs item) dest).1 = fs
    rw [move_group_noop cc fs dest (item :: find_sidecar_files cfg fs item) h.1 ?_]
    intro g hg
    have h2 := h.2 g hg
    rw [Bool.or_eq_true, decide_eq_true_eq] at h2
    exact h2

/-- The facts about a filesystem transition that keep settled items settled:
    files below the source only disappear, and existing paths outside the
    source keep existing. -/
def viewOK (src : FPath) (fs1 fs2 : FS) : Prop :=
  (∀ h ∈ fs2.files, isPrefixL src h.dir = true → h ∈ fs1.files) ∧
  (∀ p : FPath, isPrefixL src p = false → existsPath fs1 p = true → existsPath fs2 p = true)

lemma stepOK_viewOK {src : FPath} {fs1 fs2 : FS} (h : stepOK src fs1 fs2) :
    viewOK src fs1 fs2 :=
  ⟨h.1, fun p hp he => stepOK_existsPath h p hp he⟩

lemma viewOK_refl (src : FPath) (fs : FS) : viewOK src fs fs :=
  ⟨fun _ h _ => h, fun _ _ he => he⟩

lemma viewOK_trans {src : FPath} {fs1 fs2 fs3 : FS} (h12 : viewOK src fs1 fs2)
    (h23 : viewOK src fs2 fs3) : viewOK src fs1 fs3 :=
  ⟨fun h hm hp => h12.1 h (h23.1 h hm hp) hp,
   fun p hp he => h23.2 p hp (h12.2 p hp he)⟩

lemma settled_mono (cfg : Config) (classify : List Char → MediaInfo) (cy : Nat)
    (src : FPath)
    (hclean : cfg.CLEANUP_MODE_ENABLED = false)
    (hout : ∀ d : FPath,
      (cfg.MOVIES_DIR = some d ∨ cfg.TV_SHOWS_DIR = some d ∨
       cfg.ANIME_MOVIES_DIR = some d ∨ cfg.ANIME_SERIES_DIR = some d ∨
       cfg.SPLIT_MOVIES_DIR = some d ∨ get_mismatched_path cfg = some d) →
      isPrefixL src d = false ∧ isPrefixL d src = false)
    {item : FsFile} (hitem : isPrefixL src item.dir = true)
    {fs1 fs2 : FS} (hv : viewOK src fs1 fs2)
    (h : settled cfg classify cy fs1 item = true) :
    settled cfg classify cy fs2 item = true := by
  unfold settled at h ⊢
  cases hd : sortDest cfg classify cy item with
  | none => rfl
  | some dest =>
    rw [hd] at h
    obtain ⟨ho1, ho2⟩ := sortDest_some_out cfg classify cy src hclean hout hd
    have hdo : ∀ n : List Char, isPrefixL src (dest ++ [n]) = false :=
      fun n => (outside_append src dest [n] ho1 ho2).1
    unfold groupTargetsExist at h ⊢
    rw [Bool.and_eq_true, List.all_eq_true] at h
    rw [Bool.and_eq_true, List.all_eq_true]
    refine ⟨hv.2 dest ho1 h.1, ?_⟩
    intro g hg
    have hg1 : g ∈ item :: find_sidecar_files cfg fs1 item := by
      rcases List.mem_cons.mp hg with rfl | hg2
      · exact List.mem_cons_self _ _
      · exact List.mem_cons_of_mem _ (find_sidecar_mono src hv.1 hitem g hg2)
    have h2 := h.2 g hg1
    rw [Bool.or_eq_true] at h2 ⊢
    rcases h2 with h2 | h2
    · exact Or.inl h2
    · exact Or.inr (hv.2 _ (hdo g.name) h2)

/-- One real `sort_item` step on an item below the source: the filesystem
    transition is a `stepOK`, and the item itself comes out settled. -/
lemma sort_item_step_post (cfg : Config) (classify : List Char → MediaInfo) (cy : Nat)
    (src : FPath)
    (hclean : cfg.CLEANUP_MODE_ENABLED = false)
    (hout : ∀ d : FPath,
      (cfg.MOVIES_DIR = some d ∨ cfg.TV_SHOWS_DIR = some d ∨
       cfg.ANIME_MOVIES_DIR = some d ∨ cfg.ANIME_SERIES_DIR = some d ∨
       cfg.SPLIT_MOVIES_DIR = some d ∨ get_mismatched_path cfg = some d) →
      isPrefixL src d = false ∧ isPrefixL d src = false)
    {item : FsFile} (hitem : isPrefixL src item.dir = true) (fs : FS) (s : Stats) :
    stepOK src fs (sort_item cfg classify cy false true item none fs s).1 ∧
    settled cfg classify cy (sort_item cfg classify cy false true item none fs s).1
      item = true := by
  rw [sort_item_fst_char]
  cases hd : sortDest cfg classify cy item with
  | none =>
    refine ⟨stepOK_refl src fs, ?_⟩
    unfold settled
    rw [hd]
  | some dest =>
    obtain ⟨ho1, ho2⟩ := sortDest_some_out cfg classify cy src hclean hout hd
    have hgrp : ∀ g ∈ item :: find_sidecar_files cfg fs item,
        isPrefixL src g.dir = true := by
      intro g hg
      rcases List.mem_cons.mp hg with rfl | hg2
      · exact hitem
      · rw [(find_sidecar_mem hg2).2]
        exact hitem
    have hspec := move_group_spec src dest ho1 ho2
      (item :: find_sidecar_files cfg fs item) hgrp fs
    show stepOK src fs
        (move_file_group false true fs (item :: find_sidecar_files cfg fs item) dest).1 ∧
      settled cfg classify cy
        (move_file_group false true fs (item :: find_sidecar_files cfg fs item) dest).1
        item = true
    refine ⟨hspec.1, ?_⟩
    unfold settled
    rw [hd]
    unfold groupTargetsExist
    rw [Bool.and_eq_true, List.all_eq_true]
    refine ⟨hspec.2.1, ?_⟩
    intro g hg
    have hg1 : g ∈ item :: find_sidecar_files cfg fs item := by
      rcases List.mem_cons.mp hg with rfl | hg2
      · exact List.mem_cons_self _ _
      · exact List.mem_cons_of_mem _ (find_sidecar_mono src hspec.1.1 hitem g hg2)
    rw [Bool.or_eq_true]
    exact Or.inr (hspec.2.2 g hg1)


/-- After the per-item fold of a real run, the filesystem transition is a
    `stepOK` and every processed item is settled. -/
lemma sortFold_settled (cfg : Config) (classify : List Char → MediaInfo) (cy : Nat)
    (src : FPath)
    (hclean : cfg.CLEANUP_MODE_ENABLED = false)
    (hout : ∀ d : FPath,
      (cfg.MOVIES_DIR = some d ∨ cfg.TV_SHOWS_DIR = some d ∨
       cfg.ANIME_MOVIES_DIR = some d ∨ cfg.ANIME_SERIES_DIR = some d ∨
       cfg.SPLIT_MOVIES_DIR = some d ∨ get_mismatched_path cfg = some d) →
      isPrefixL src d = false ∧ isPrefixL d src = false)
    (L : List FsFile) :
    ∀ (fs : FS) (s : Stats), (∀ f ∈ L, isPrefixL src f.dir = true) →
      stepOK src fs (L.foldl (fun (acc : FS × Stats) f =>
        sort_item cfg classify cy false true f none acc.1
          { acc.2 with processed := acc.2.processed + 1 }) (fs, s)).1 ∧
      ∀ f ∈ L, settled cfg classify cy (L.foldl (fun (acc : FS × Stats) f =>
        sort_item cfg classify cy false true f none acc.1
          { acc.2 with processed := acc.2.processed + 1 }) (fs, s)).1 f = true := by
  induction L with
  | nil =>
    intro fs s _
    exact ⟨stepOK_refl src fs, fun f hf => absurd hf (List.not_mem_nil f)⟩
  | cons f t ih =>
    intro fs s hL
    have hf := hL f (by simp)
    have hstep := sort_item_step_post cfg classify cy src hclean hout hf fs
      { s with processed := s.processed + 1 }
    have hIH := ih (sort_item cfg classify cy false true f none fs
        { s with processed := s.processed + 1 }).1
      (sort_item cfg classify cy false true f none fs
        { s with processed := s.processed + 1 }).2
      (fun g hg => hL g (by simp [hg]))
    simp only [List.foldl_cons]
    refine ⟨stepOK_trans hstep.1 hIH.1, ?_⟩
    intro g hg
    rcases List.mem_cons.mp hg with rfl | hg2
    · exact settled_mono cfg classify cy src hclean hout hf
        (stepOK_viewOK hIH.1) hstep.2
    · exact hIH.2 g hg2

/-- A per-item fold over settled items leaves the filesystem unchanged. -/
lemma sortFold_noop (cfg : Config) (classify : List Char → MediaInfo) (cy : Nat)
    (cc : Bool) (L : List FsFile) :
    ∀ (fs : FS) (s : Stats), (∀ f ∈ L, settled cfg classify cy fs f = true) →
      (L.foldl (fun (acc : FS × Stats) f =>
        sort_item cfg classify cy false cc f none acc.1
          { acc.2 with processed := acc.2.processed + 1 }) (fs, s)).1 = fs := by
  induction L with
  | nil => intro fs s _; rfl
  | cons f t ih =>
    intro fs s hL
    simp only [List.foldl_cons]
    have hstep : sort_item cfg classify cy false cc f none fs
        { s with processed := s.processed + 1 } =
        (fs, (sort_item cfg classify cy false cc f none fs
          { s with processed := s.processed + 1 }).2) :=
      Prod.ext (sort_item_settled_fst cfg classify cy cc f fs _ (hL f (by simp))) rfl
    rw [hstep]
    exact ih fs _ (fun g hg => hL g (by simp [hg]))

/-! ## The empty-directory sweep -/

/-- The per-directory loop of `cleanup_empty_dirs`. -/
def dirSweep (L : List FPath) (fs : FS) : FS :=
  L.foldl
    (fun fs' d => if !dirHasChild fs' d then { fs' with dirs := fs'.dirs.erase d } else fs')
    fs

lemma cleanup_eq_dirSweep (cfg : Config) (fs : FS) (path : FPath) :
    cleanup_empty_dirs false cfg fs path =
      dirSweep (sortLenDesc (fs.dirs.filter
        (fun d => isPrefixL path d && !(d == path) &&
          !(some d == get_mismatched_path cfg)))) fs := rfl

lemma dirSweep_cons (d : FPath) (L : List FPath) (fs : FS) :
    dirSweep (d :: L) fs =
      dirSweep L (if !dirHasChild fs d then { fs with dirs := fs.dirs.erase d } else fs) := rfl

lemma dirSweep_files : ∀ (L : List FPath) (fs : FS), (dirSweep L fs).files = fs.files := by
  intro L
  induction L with
  | nil => intro fs; rfl
  | cons d t ih =>
    intro fs
    rw [dirSweep_cons]
    split
    · exact ih _
    · exact ih fs

lemma dirSweep_dirs_sub : ∀ (L : List FPath) (fs : FS) (d : FPath),
    d ∈ (dirSweep L fs).dirs → d ∈ fs.dirs := by
  intro L
  induction L with
  | nil => intro fs d h; exact h
  | cons e t ih =>
    intro fs d h
    rw [dirSweep_cons] at h
    rcases hb : !dirHasChild fs e with hfalse | htrue
    · rw [hb] at h
      simp only [Bool.false_eq_true, if_false] at h
      exact ih fs d h
    · rw [hb] at h
      simp only [if_true] at h
      exact List.erase_subset _ _ (ih _ d h)

lemma dirSweep_keep : ∀ (L : List FPath) (fs : FS) (e : FPath),
    (∀ d ∈ L, d ≠ e) → e ∈ fs.dirs → e ∈ (dirSweep L fs).dirs := by
  intro L
  induction L with
  | nil => intro fs e _ h; exact h
  | cons d t ih =>
    intro fs e hL h
    rw [dirSweep_cons]
    split
    · refine ih _ e (fun x hx => hL x (by simp [hx])) ?_
      exact (List.mem_erase_of_ne (fun he => absurd he.symm (hL d (by simp)))).mpr h
    · exact ih fs e (fun x hx => hL x (by simp [hx])) h

lemma dirSweep_noop : ∀ (L : List FPath) (fs : FS),
    (∀ d ∈ L, dirHasChild fs d = true) → dirSweep L fs = fs := by
  intro L
  induction L with
  | nil => intro fs _; rfl
  | cons d t ih =>
    intro fs hL
    rw [dirSweep_cons, hL d (by simp)]
    show dirSweep t fs = fs
    exact ih fs (fun x hx => hL x (by simp [hx]))

lemma mem_dirDepthInsert {x d : FPath} : ∀ l : List FPath,
    x ∈ dirDepthInsert d l → x = d ∨ x ∈ l := by
  intro l
  induction l with
  | nil => intro h; simp [dirDepthInsert] at h; exact Or.inl h
  | cons e es ih =>
    intro h
    unfold dirDepthInsert at h
    split at h
    · rcases List.mem_cons.mp h with rfl | h2
      · exact Or.inl rfl
      · exact Or.inr h2
    · rcases List.mem_cons.mp h with rfl | h2
      · exact Or.inr (by simp)
      · rcases ih h2 with h3 | h3
        · exact Or.inl h3
        · exact Or.inr (by simp [h3])

lemma mem_dirDepthInsert_of_mem {x d : FPath} : ∀ l : List FPath,
    x ∈ l → x ∈ dirDepthInsert d l := by
  intro l
  induction l with
  | nil => intro h; exact absurd h (List.not_mem_nil x)
  | cons e es ih =>
    intro h
    unfold dirDepthInsert
    split
    · exact List.mem_cons_of_mem _ h
    · rcases List.mem_cons.mp h with rfl | h2
      · exact List.mem_cons_self _ _
      · exact List.mem_cons_of_mem _ (ih h2)

lemma mem_sortLenDesc_of_mem {x : FPath} : ∀ l : List FPath,
    x ∈ l → x ∈ sortLenDesc l := by
  intro l
  induction l with
  | nil => intro h; exact absurd h (List.not_mem_nil x)
  | cons e es ih =>
    intro h
    show x ∈ dirDepthInsert e (sortLenDesc es)
    rcases List.mem_cons.mp h with rfl | h2
    · induction sortLenDesc es with
      | nil => simp [dirDepthInsert]
      | cons a t ih2 =>
        unfold dirDepthInsert
        split
        · exact List.mem_cons_self _ _
        · exact List.mem_cons_of_mem _ ih2
    · exact mem_dirDepthInsert_of_mem _ (ih h2)

lemma mem_of_mem_sortLenDesc {x : FPath} : ∀ l : List FPath,
    x ∈ sortLenDesc l → x ∈ l := by
  intro l
  induction l with
  | nil => intro h; exact absurd h (List.not_mem_nil x)
  | cons e es ih =>
    intro h
    rcases mem_dirDepthInsert (sortLenDesc es) h with rfl | h2
    · simp
    · exact List.mem_cons_of_mem _ (ih h2)

lemma dirDepthInsert_sorted (d : FPath) : ∀ l : List FPath,
    l.Pairwise (fun a b => b.length ≤ a.length) →
    (dirDepthInsert d l).Pairwise (fun a b => b.length ≤ a.length) := by
  intro l
  induction l with
  | nil => intro _; simp [dirDepthInsert]
  | cons e es ih =>
    intro hp
    obtain ⟨hpe, hpt⟩ := List.pairwise_cons.mp hp
    unfold dirDepthInsert
    split
    · rename_i hle
      refine List.pairwise_cons.mpr ⟨?_, hp⟩
      intro x hx
      rcases List.mem_cons.mp hx with rfl | h2
      · exact hle
      · exact le_trans (hpe x h2) hle
    · rename_i hgt
      refine List.pairwise_cons.mpr ⟨?_, ih hpt⟩
      intro x hx
      rcases mem_dirDepthInsert es hx with rfl | h2
      · omega
      · exact hpe x h2

lemma sortLenDesc_sorted : ∀ l : List FPath,
    (sortLenDesc l).Pairwise (fun a b => b.length ≤ a.length) := by
  intro l
  induction l with
  | nil => exact List.Pairwise.nil
  | cons e es ih => exact dirDepthInsert_sorted e (sortLenDesc es) ih


/-- After a children-first sweep over distinct directories, every swept
    directory still present has a child: a second sweep finds nothing. -/
lemma dirSweep_post : ∀ (L : List FPath) (fs : FS), fs.dirs.Nodup →
    L.Pairwise (fun a b => b.length ≤ a.length) →
    ∀ d ∈ L, d ∈ (dirSweep L fs).dirs → dirHasChild (dirSweep L fs) d = true := by
  intro L
  induction L with
  | nil => intro fs _ _ d hd; exact absurd hd (List.not_mem_nil d)
  | cons e t ih =>
    intro fs hnd hdesc d hd hmem
    obtain ⟨hpe, hpt⟩ := List.pairwise_cons.mp hdesc
    rw [dirSweep_cons] at hmem ⊢
    cases hb : dirHasChild fs e with
    | false =>
      simp only [hb, Bool.not_false, if_true] at hmem ⊢
      rcases List.mem_cons.mp hd with rfl | hd2
      · exfalso
        have := dirSweep_dirs_sub t _ d hmem
        exact hnd.not_mem_erase this
      · exact ih { fs with dirs := fs.dirs.erase e } (hnd.erase e) hpt d hd2 hmem
    | true =>
      simp only [hb, Bool.not_true, Bool.false_eq_true, if_false] at hmem ⊢
      rcases List.mem_cons.mp hd with rfl | hd2
      · -- show the child survives the remaining (shorter) sweep
        unfold dirHasChild at hb ⊢
        rw [Bool.or_eq_true, List.any_eq_true] at hb
        rw [Bool.or_eq_true, List.any_eq_true, List.any_eq_true]
        rcases hb with ⟨f, hf, hfd⟩ | h2
        · exact Or.inl ⟨f, by rw [dirSweep_files]; exact hf, hfd⟩
        · rw [List.any_eq_true] at h2
          obtain ⟨c, hc, hcc⟩ := h2
          right
          refine ⟨c, ?_, hcc⟩
          refine dirSweep_keep t fs c ?_ hc
          intro x hx he
          rw [Bool.and_eq_true] at hcc
          have hclen : c.length = d.length + 1 := by
            have := hcc.1
            rw [beq_iff_eq] at this
            exact this
          have hxlen := hpe x hx
          rw [he] at hxlen
          omega
      · exact ih fs hnd hpt d hd2 hmem

lemma mkdirParents_nodup (fs : FS) (p : FPath) (h : fs.dirs.Nodup) :
    (mkdirParents fs p).dirs.Nodup := by
  show (fs.dirs ++ (pathInits p).filter (fun d => decide (d ∉ fs.dirs))).Nodup
  have hlow : ∀ (l : FPath) (acc : FPath), ∀ d ∈ pathInitsAux acc l,
      acc.length < d.length := by
    intro l
    induction l with
    | nil => intro acc d hd; exact absurd hd (List.not_mem_nil d)
    | cons x xs ih =>
      intro acc d hd
      rcases List.mem_cons.mp hd with rfl | hd2
      · simp
      · have := ih (acc ++ [x]) d hd2
        simp only [List.length_append, List.length_cons, List.length_nil] at this
        omega
  have hinits : ∀ (l : FPath) (acc : FPath), (pathInitsAux acc l).Nodup := by
    intro l
    induction l with
    | nil => intro acc; exact List.nodup_nil
    | cons x xs ih =>
      intro acc
      refine List.Nodup.cons ?_ (ih (acc ++ [x]))
      intro hmem
      have := hlow xs (acc ++ [x]) _ hmem
      simp only [List.length_append, List.length_cons, List.length_nil] at this
      omega
  refine List.Nodup.append h ((hinits p []).filter _) ?_
  intro a ha hb
  have := (List.mem_filter.mp hb).2
  rw [decide_eq_true_eq] at this
  exact this ha

lemma ensure_dir_nodup (dry cc : Bool) (fs : FS) (p : FPath) (h : fs.dirs.Nodup) :
    (ensure_dir dry cc fs p).1.dirs.Nodup := by
  unfold ensure_dir
  repeat' split
  all_goals first
    | exact h
    | exact mkdirParents_nodup fs p h

lemma ensureAll_nodup (dry cc : Bool) : ∀ (ds : List FPath) (fs : FS),
    fs.dirs.Nodup → (ensureAll dry cc ds fs).1.dirs.Nodup := by
  intro ds
  induction ds with
  | nil => intro fs h; exact h
  | cons d t ih =>
    intro fs h
    rw [ensureAll]
    cases he : ensure_dir dry cc fs d with
    | mk a b =>
      have ha : a.dirs.Nodup := by
        have := ensure_dir_nodup dry cc fs d h
        rw [he] at this
        exact this
      cases b
      · exact ha
      · exact ih a ha

lemma ensure_target_dirs_nodup (dry cc : Bool) (cfg : Config) (fs : FS)
    (h : fs.dirs.Nodup) : (ensure_target_dirs dry cc cfg fs).1.dirs.Nodup := by
  unfold ensure_target_dirs
  split
  · exact h
  · exact ensureAll_nodup dry cc _ fs h

lemma move_file_group_nodup (dry cc : Bool) (fs : FS) (g : List FsFile) (d : FPath)
    (h : fs.dirs.Nodup) : (move_file_group dry cc fs g d).1.dirs.Nodup := by
  unfold move_file_group
  cases he : ensure_dir dry cc fs d with
  | mk a b =>
    have ha : a.dirs.Nodup := by
      have := ensure_dir_nodup dry cc fs d h
      rw [he] at this
      exact this
    cases b
    · exact ha
    · show (moveLoop dry d g a).dirs.Nodup
      rw [moveLoop_dirs_eq]
      exact ha

lemma sort_item_nodup (cfg : Config) (classify : List Char → MediaInfo) (cy : Nat)
    (cc : Bool) (item : FsFile) (fs : FS) (s : Stats) (h : fs.dirs.Nodup) :
    (sort_item cfg classify cy false cc item none fs s).1.dirs.Nodup := by
  rw [sort_item_fst_char]
  cases hd : sortDest cfg classify cy item with
  | none => exact h
  | some dest =>
    exact move_file_group_nodup false cc fs _ dest h

lemma sortFold_nodup (cfg : Config) (classify : List Char → MediaInfo) (cy : Nat)
    (cc : Bool) : ∀ (L : List FsFile) (fs : FS) (s : Stats), fs.dirs.Nodup →
    (L.foldl (fun (acc : FS × Stats) f =>
      sort_item cfg classify cy false cc f none acc.1
        { acc.2 with processed := acc.2.processed + 1 }) (fs, s)).1.dirs.Nodup := by
  intro L
  induction L with
  | nil => intro fs s h; exact h
  | cons f t ih =>
    intro fs s h
    simp only [List.foldl_cons]
    exact ih _ _ (sort_item_nodup cfg classify cy cc f fs _ h)

/-- Sweeping the empty directories below the source is idempotent. -/
lemma cleanup_idem (cfg : Config) (fs : FS) (path : FPath) (hnd : fs.dirs.Nodup) :
    cleanup_empty_dirs false cfg (cleanup_empty_dirs false cfg fs path) path =
      cleanup_empty_dirs false cfg fs path := by
  rw [cleanup_eq_dirSweep cfg (cleanup_empty_dirs false cfg fs path) path]
  apply dirSweep_noop
  intro d hd
  have hd2 := mem_of_mem_sortLenDesc _ hd
  have hd3 := List.mem_filter.mp hd2
  have hd4 : d ∈ fs.dirs := by
    rw [cleanup_eq_dirSweep] at hd3
    exact dirSweep_dirs_sub _ fs d hd3.1
  have hd5 : d ∈ fs.dirs.filter
      (fun d => isPrefixL path d && !(d == path) &&
        !(some d == get_mismatched_path cfg)) :=
    List.mem_filter.mpr ⟨hd4, hd3.2⟩
  rw [cleanup_eq_dirSweep]
  refine dirSweep_post _ fs hnd (sortLenDesc_sorted _) d
    (mem_sortLenDesc_of_mem _ hd5) ?_
  rw [cleanup_eq_dirSweep] at hd3
  exact hd3.1

/-- The cleanup sweep only drops directories below its path argument: every
    settledness witness survives it. -/
lemma cleanup_viewOK (cfg : Config) (fs : FS) (src : FPath) :
    viewOK src fs (cleanup_empty_dirs false cfg fs src) := by
  constructor
  · intro h hm _
    rw [cleanup_eq_dirSweep, dirSweep_files] at hm
    exact hm
  · intro p hp he
    unfold existsPath at he ⊢
    rw [Bool.or_eq_true, decide_eq_true_eq] at he
    rw [Bool.or_eq_true, decide_eq_true_eq]
    rcases he with he | he
    · left
      rw [cleanup_eq_dirSweep]
      refine dirSweep_keep _ fs p ?_ he
      intro d hd hdp
      have hd2 := List.mem_filter.mp (mem_of_mem_sortLenDesc _ hd)
      have hd3 := hd2.2
      rw [Bool.and_eq_true, Bool.and_eq_true] at hd3
      have h4 : isPrefixL src p = true := by rw [← hdp]; exact hd3.1.1
      rw [h4] at hp
      exact Bool.noConfusion hp
    · right
      cases hf : fileOfPath p with
      | none => rw [hf] at he; exact absurd he (by simp)
      | some f =>
        rw [hf] at he
        have he2 : decide (f ∈ fs.files) = true := he
        show decide (f ∈ (cleanup_empty_dirs false cfg fs src).files) = true
        rw [cleanup_eq_dirSweep, dirSweep_files]
        exact he2

lemma cleanup_dirs_nodup (cfg : Config) (fs : FS) (path : FPath) (h : fs.dirs.Nodup) :
    (cleanup_empty_dirs false cfg fs path).dirs.Nodup := by
  rw [cleanup_eq_dirSweep]
  generalize sortLenDesc _ = L
  induction L generalizing fs with
  | nil => exact h
  | cons d t ih =>
    rw [dirSweep_cons]
    split
    · exact ih { fs with dirs := fs.dirs.erase d } (h.erase d)
    · exact ih fs h


lemma prefix_comparable {a b c : FPath} (hac : isPrefixL a c = true)
    (hbc : isPrefixL b c = true) :
    isPrefixL a b = true ∨ isPrefixL b a = true := by
  rcases Nat.le_total a.length b.length with hl | hl
  · exact Or.inl (isPrefixL_of_le a b c hac hbc hl)
  · exact Or.inr (isPrefixL_of_le b a c hbc hac hl)

/-- The deduplicated extension list the deep scan iterates over. -/
def scanExts (cfg : Config) : List (List Char) :=
  cfg.SUPPORTED_EXTENSIONS ++
    cfg.SIDECAR_EXTENSIONS.filter (fun e => decide (e ∉ cfg.SUPPORTED_EXTENSIONS))

lemma mem_scanAllFound_spec (cfg : Config) (src : FPath) (fs : FS) (f : FsFile) :
    f ∈ scanAllFound cfg src fs ↔
      (f ∈ fs.files ∧ isPrefixL src f.dir = true ∧
        ∃ ext ∈ scanExts cfg, ext.isSuffixOf f.name = true) := by
  unfold scanAllFound scanExts
  constructor
  · intro h
    simp only [List.mem_flatten, List.mem_map] at h
    obtain ⟨l, ⟨ext, hext, rfl⟩, hf⟩ := h
    have h2 := List.mem_filter.mp hf
    have h3 := h2.2
    rw [Bool.and_eq_true] at h3
    exact ⟨h2.1, h3.1, ext, hext, h3.2⟩
  · rintro ⟨h1, h2, ext, hext, h3⟩
    simp only [List.mem_flatten, List.mem_map]
    refine ⟨_, ⟨ext, hext, rfl⟩, List.mem_filter.mpr ⟨h1, ?_⟩⟩
    rw [Bool.and_eq_true]
    exact ⟨h2, h3⟩

lemma targetDirs_sub (cfg : Config) : ∀ d ∈ targetDirsList cfg,
    cfg.MOVIES_DIR = some d ∨ cfg.TV_SHOWS_DIR = some d ∨
    cfg.ANIME_MOVIES_DIR = some d ∨ cfg.ANIME_SERIES_DIR = some d ∨
    cfg.SPLIT_MOVIES_DIR = some d ∨ get_mismatched_path cfg = some d := by
  intro d hd
  unfold targetDirsList at hd
  rw [List.reduceOption_mem_iff] at hd
  simp only [List.mem_append, List.mem_singleton] at hd
  rcases hd with ((((h | h) | h) | h) | h) | h
  · exact Or.inr (Or.inr (Or.inr (Or.inr (Or.inr h.symm))))
  · by_cases he : cfg.MOVIES_ENABLED
    · simp only [he, if_true, List.mem_singleton] at h
      exact Or.inl h.symm
    · simp [he] at h
  · by_cases he : cfg.TV_SHOWS_ENABLED
    · simp only [he, if_true, List.mem_singleton] at h
      exact Or.inr (Or.inl h.symm)
    · simp [he] at h
  · by_cases he : cfg.ANIME_MOVIES_ENABLED
    · simp only [he, if_true, List.mem_singleton] at h
      exact Or.inr (Or.inr (Or.inl h.symm))
    · simp [he] at h
  · by_cases he : cfg.ANIME_SERIES_ENABLED
    · simp only [he, if_true, List.mem_singleton] at h
      exact Or.inr (Or.inr (Or.inr (Or.inl h.symm)))
    · simp [he] at h
  · by_cases he : (!cfg.LANGUAGES_TO_SPLIT.isEmpty && cfg.SPLIT_MOVIES_DIR.isSome) = true
    · rw [if_pos he, List.mem_singleton] at h
      exact Or.inr (Or.inr (Or.inr (Or.inr (Or.inl h.symm))))
    · rw [if_neg he] at h
      exact absurd h (List.not_mem_nil _)

lemma ensureAll_exists_all : ∀ (ds : List FPath) (fs : FS), (∀ d ∈ ds, d ≠ []) →
    ∀ d ∈ ds, existsPath (ensureAll false true ds fs).1 d = true := by
  intro ds
  induction ds with
  | nil => intro fs _ d hd; exact absurd hd (List.not_mem_nil d)
  | cons e t ih =>
    intro fs hne d hd
    have hD := ensure_dir_spec fs e (hne e (by simp))
    obtain ⟨fsD, hfsD⟩ : ∃ fsD, ensure_dir false true fs e = (fsD, true) := by
      cases hh : ensure_dir false true fs e with
      | mk a b =>
        cases b
        · rw [hh] at hD; exact absurd hD.1 (by simp)
        · exact ⟨a, rfl⟩
    rw [hfsD] at hD
    rw [show ensureAll false true (e :: t) fs = ensureAll false true t fsD from by
      rw [ensureAll, hfsD]]
    rcases List.mem_cons.mp hd with rfl | hd2
    · have hcc := ensureAll_cc t fsD
      exact existsPath_mono (ensureAll false true t fsD).1 fsD hcc.2.1 hcc.2.2 d hD.2
    · exact ih fsD (fun x hx => hne x (by simp [hx])) d hd2

lemma ensure_target_exists (cfg : Config) (fs : FS)
    (hclean : cfg.CLEANUP_MODE_ENABLED = false)
    (hne : ∀ d ∈ targetDirsList cfg, d ≠ []) :
    ∀ d ∈ targetDirsList cfg,
      existsPath (ensure_target_dirs false true cfg fs).1 d = true := by
  unfold ensure_target_dirs
  rw [hclean]
  simp only [Bool.false_eq_true, if_false]
  exact ensureAll_exists_all _ fs hne

lemma ensureAll_noop : ∀ (ds : List FPath) (fs : FS),
    (∀ d ∈ ds, existsPath fs d = true) → ensureAll false true ds fs = (fs, true) := by
  intro ds
  induction ds with
  | nil => intro fs _; rfl
  | cons e t ih =>
    intro fs h
    rw [ensureAll, show ensure_dir false true fs e = (fs, true) from by
      unfold ensure_dir; rw [if_pos (h e (by simp))]]
    exact ih fs (fun x hx => h x (by simp [hx]))

lemma ensure_target_noop (cfg : Config) (fs : FS)
    (h : ∀ d ∈ targetDirsList cfg, existsPath fs d = true) :
    ensure_target_dirs false true cfg fs = (fs, true) := by
  unfold ensure_target_dirs
  split
  · rfl
  · exact ensureAll_noop _ fs h

lemma stepOK_existsPath_src {src : FPath} {fs1 fs2 : FS} (h : stepOK src fs1 fs2)
    (hsrcne : src ≠ []) (he : existsPath fs1 src = true) : existsPath fs2 src = true := by
  unfold existsPath at he ⊢
  rw [Bool.or_eq_true, decide_eq_true_eq] at he
  rw [Bool.or_eq_true, decide_eq_true_eq]
  rcases he with he | he
  · exact Or.inl (h.2.2 src he)
  · right
    cases hf : fileOfPath src with
    | none => rw [hf] at he; exact absurd he (by simp)
    | some f =>
      rw [hf] at he
      have he2 : f ∈ fs1.files := of_decide_eq_true he
      have hdir : isPrefixL src f.dir = false := by
        rw [fileOfPath_dir hf]
        cases hq : isPrefixL src src.dropLast with
        | false => rfl
        | true =>
          exfalso
          have := isPrefixL_length src src.dropLast hq
          rw [List.length_dropLast] at this
          have hpos : 0 < src.length := List.length_pos.mpr hsrcne
          omega
      exact decide_eq_true (h.2.1 f he2 hdir)

lemma cleanup_existsPath_path (cfg : Config) (fs : FS) (src : FPath)
    (he : existsPath fs src = true) :
    existsPath (cleanup_empty_dirs false cfg fs src) src = true := by
  unfold existsPath at he ⊢
  rw [Bool.or_eq_true, decide_eq_true_eq] at he
  rw [Bool.or_eq_true, decide_eq_true_eq]
  rcases he with he | he
  · left
    rw [cleanup_eq_dirSweep]
    refine dirSweep_keep _ fs src ?_ he
    intro d hd hdp
    have hd2 := List.mem_filter.mp (mem_of_mem_sortLenDesc _ hd)
    have hd3 := hd2.2
    rw [Bool.and_eq_true, Bool.and_eq_true] at hd3
    have := hd3.1.2
    rw [hdp] at this
    simp at this
  · right
    cases hf : fileOfPath src with
    | none => rw [hf] at he; exact absurd he (by simp)
    | some f =>
      rw [hf] at he
      have he2 : decide (f ∈ fs.files) = true := he
      show decide (f ∈ (cleanup_empty_dirs false cfg fs src).files) = true
      rw [cleanup_eq_dirSweep, dirSweep_files]
      exact he2


/-- The media-file list a real pass iterates over: the deep scan below the
    source on the post-ensure filesystem, minus files inside an existing
    mismatched directory, restricted to supported (primary) extensions. -/
def procMediaList (cfg : Config) (src : FPath) (fsA : FS) : List FsFile :=
  (match get_mismatched_path cfg with
   | some mp =>
     if existsPath fsA mp
     then (scanAllFound cfg src fsA).filter (fun (f : FsFile) => !isPrefixL mp f.dir)
     else scanAllFound cfg src fsA
   | none => scanAllFound cfg src fsA).filter
    (fun (f : FsFile) => decide (lowerStr (suffixOf f.name) ∈ cfg.SUPPORTED_EXTENSIONS))

lemma procMediaList_mem (cfg : Config) (src : FPath) (fsA : FS) (f : FsFile)
    (hf : f ∈ procMediaList cfg src fsA) :
    f ∈ fsA.files ∧ isPrefixL src f.dir = true ∧
    decide (lowerStr (suffixOf f.name) ∈ cfg.SUPPORTED_EXTENSIONS) = true ∧
    ∃ ext ∈ scanExts cfg, ext.isSuffixOf f.name = true := by
  unfold procMediaList at hf
  have h1 := List.mem_filter.mp hf
  have hA := h1.1
  have h2 : f ∈ scanAllFound cfg src fsA := by
    cases hmp : get_mismatched_path cfg with
    | none => rw [hmp] at hA; exact hA
    | some mp =>
      rw [hmp] at hA
      by_cases hemp : existsPath fsA mp = true
      · have hA2 : f ∈ (scanAllFound cfg src fsA).filter
            (fun (f : FsFile) => !isPrefixL mp f.dir) := by
          have hshow : (match some mp with
             | some mp =>
               if existsPath fsA mp
               then (scanAllFound cfg src fsA).filter (fun (f : FsFile) => !isPrefixL mp f.dir)
               else scanAllFound cfg src fsA
             | none => scanAllFound cfg src fsA) = (scanAllFound cfg src fsA).filter
              (fun (f : FsFile) => !isPrefixL mp f.dir) := by
            simp only []
            rw [if_pos hemp]
          rw [hshow] at hA
          exact hA
        exact (List.mem_filter.mp hA2).1
      · have hshow : (match some mp with
           | some mp =>
             if existsPath fsA mp
             then (scanAllFound cfg src fsA).filter (fun (f : FsFile) => !isPrefixL mp f.dir)
             else scanAllFound cfg src fsA
           | none => scanAllFound cfg src fsA) = scanAllFound cfg src fsA := by
          simp only []
          rw [if_neg hemp]
        rw [hshow] at hA
        exact hA
  have h3 := (mem_scanAllFound_spec cfg src fsA f).mp h2
  exact ⟨h3.1, h3.2.1, h1.2, h3.2.2⟩

lemma procMediaList_intro (cfg : Config) (src : FPath) (fsA : FS) (f : FsFile)
    (hmem : f ∈ fsA.files) (hpre : isPrefixL src f.dir = true)
    (hsupp : decide (lowerStr (suffixOf f.name) ∈ cfg.SUPPORTED_EXTENSIONS) = true)
    (hext : ∃ ext ∈ scanExts cfg, ext.isSuffixOf f.name = true)
    (hout : ∀ d : FPath,
      (cfg.MOVIES_DIR = some d ∨ cfg.TV_SHOWS_DIR = some d ∨
       cfg.ANIME_MOVIES_DIR = some d ∨ cfg.ANIME_SERIES_DIR = some d ∨
       cfg.SPLIT_MOVIES_DIR = some d ∨ get_mismatched_path cfg = some d) →
      isPrefixL src d = false ∧ isPrefixL d src = false) :
    f ∈ procMediaList cfg src fsA := by
  have hscan : f ∈ scanAllFound cfg src fsA :=
    (mem_scanAllFound_spec cfg src fsA f).mpr ⟨hmem, hpre, hext⟩
  unfold procMediaList
  refine List.mem_filter.mpr ⟨?_, hsupp⟩
  cases hmp : get_mismatched_path cfg with
  | none => exact hscan
  | some mp =>
    by_cases hemp : existsPath fsA mp = true
    · have hkeep : (!isPrefixL mp f.dir) = true := by
        cases hq : isPrefixL mp f.dir with
        | false => rfl
        | true =>
          exfalso
          have hdo := hout mp (Or.inr (Or.inr (Or.inr (Or.inr (Or.inr hmp)))))
          rcases prefix_comparable hpre hq with hc | hc
          · rw [hdo.1] at hc
            exact Bool.noConfusion hc
          · rw [hdo.2] at hc
            exact Bool.noConfusion hc
      have hshow : (match some mp with
         | some mp =>
           if existsPath fsA mp
           then (scanAllFound cfg src fsA).filter (fun (f : FsFile) => !isPrefixL mp f.dir)
           else scanAllFound cfg src fsA
         | none => scanAllFound cfg src fsA) = (scanAllFound cfg src fsA).filter
          (fun (f : FsFile) => !isPrefixL mp f.dir) := by
        simp only []
        rw [if_pos hemp]
      rw [hshow]
      exact List.mem_filter.mpr ⟨hscan, hkeep⟩
    · have hshow : (match some mp with
         | some mp =>
           if existsPath fsA mp
           then (scanAllFound cfg src fsA).filter (fun (f : FsFile) => !isPrefixL mp f.dir)
           else scanAllFound cfg src fsA
         | none => scanAllFound cfg src fsA) = scanAllFound cfg src fsA := by
        simp only []
        rw [if_neg hemp]
      rw [hshow]
      exact hscan

lemma process_real_run_eq (cfg : Config) (classify : List Char → MediaInfo) (cy : Nat)
    (fs : FS) (src : FPath) (fsA : FS)
    (hsrc : cfg.SOURCE_DIR = some src)
    (hclean : cfg.CLEANUP_MODE_ENABLED = false)
    (hex : existsPath fs src = true)
    (hfsA : ensure_target_dirs false true cfg fs = (fsA, true)) :
    process_source_directory cfg classify cy false true fs =
      (cleanup_empty_dirs false cfg
         ((procMediaList cfg src fsA).foldl
            (fun (acc : FS × Stats) f =>
              sort_item cfg classify cy false true f none acc.1
                { acc.2 with processed := acc.2.processed + 1 }) (fsA, statsZero)).1 src,
       ((procMediaList cfg src fsA).foldl
            (fun (acc : FS × Stats) f =>
              sort_item cfg classify cy false true f none acc.1
                { acc.2 with processed := acc.2.processed + 1 }) (fsA, statsZero)).2) := by
  unfold process_source_directory
  rw [hsrc]
  simp only [hfsA, hex, hclean, Bool.not_true, Bool.not_false, Bool.false_eq_true, if_false,
    eq_self_iff_true, if_true]
  rfl

lemma process_noop (cfg : Config) (classify : List Char → MediaInfo) (cy : Nat)
    (fs1 : FS) (src : FPath)
    (hsrc : cfg.SOURCE_DIR = some src)
    (hclean : cfg.CLEANUP_MODE_ENABLED = false)
    (hset : ∀ f ∈ fs1.files, isPrefixL src f.dir = true →
      decide (lowerStr (suffixOf f.name) ∈ cfg.SUPPORTED_EXTENSIONS) = true →
      (∃ ext ∈ scanExts cfg, ext.isSuffixOf f.name = true) →
      settled cfg classify cy fs1 f = true)
    (htg : ∀ d ∈ targetDirsList cfg, existsPath fs1 d = true)
    (hsrcE : existsPath fs1 src = true)
    (hfix : cleanup_empty_dirs false cfg fs1 src = fs1) :
    (process_source_directory cfg classify cy false true fs1).1 = fs1 := by
  have hens : ensure_target_dirs false true cfg fs1 = (fs1, true) :=
    ensure_target_noop cfg fs1 htg
  rw [process_real_run_eq cfg classify cy fs1 src fs1 hsrc hclean hsrcE hens]
  show cleanup_empty_dirs false cfg
      ((procMediaList cfg src fs1).foldl
        (fun (acc : FS × Stats) f =>
          sort_item cfg classify cy false true f none acc.1
            { acc.2 with processed := acc.2.processed + 1 }) (fs1, statsZero)).1 src = fs1
  rw [sortFold_noop cfg classify cy true (procMediaList cfg src fs1) fs1 statsZero
    (fun f hf => by
      obtain ⟨h1, h2, h3, h4⟩ := procMediaList_mem cfg src fs1 f hf
      exact hset f h1 h2 h3 h4)]
  exact hfix

lemma process_run_post (cfg : Config) (classify : List Char → MediaInfo) (cy : Nat)
    (fs : FS) (src : FPath)
    (hsrc : cfg.SOURCE_DIR = some src)
    (hclean : cfg.CLEANUP_MODE_ENABLED = false)
    (hout : ∀ d : FPath,
      (cfg.MOVIES_DIR = some d ∨ cfg.TV_SHOWS_DIR = some d ∨
       cfg.ANIME_MOVIES_DIR = some d ∨ cfg.ANIME_SERIES_DIR = some d ∨
       cfg.SPLIT_MOVIES_DIR = some d ∨ get_mismatched_path cfg = some d) →
      isPrefixL src d = false ∧ isPrefixL d src = false)
    (hne : ∀ d ∈ targetDirsList cfg, d ≠ [])
    (hsrcne : src ≠ [])
    (hnd : fs.dirs.Nodup)
    (hex : existsPath fs src = true) :
    ∃ fsR st, process_source_directory cfg classify cy false true fs = (fsR, st) ∧
      (∀ f ∈ fsR.files, isPrefixL src f.dir = true →
        decide (lowerStr (suffixOf f.name) ∈ cfg.SUPPORTED_EXTENSIONS) = true →
        (∃ ext ∈ scanExts cfg, ext.isSuffixOf f.name = true) →
        settled cfg classify cy fsR f = true) ∧
      (∀ d ∈ targetDirsList cfg, existsPath fsR d = true) ∧
      existsPath fsR src = true ∧ fsR.dirs.Nodup ∧
      cleanup_empty_dirs false cfg fsR src = fsR := by
  have hE := ensure_target_dirs_cc cfg fs
  obtain ⟨fsA, hfsA⟩ : ∃ fsA, ensure_target_dirs false true cfg fs = (fsA, true) := by
    cases hh : ensure_target_dirs false true cfg fs with
    | mk a b =>
      cases b
      · rw [hh] at hE; exact absurd hE.1 (by simp)
      · exact ⟨a, rfl⟩
  rw [hfsA] at hE
  have hfilesA : fsA.files = fs.files := hE.2.1
  have hdirsA : ∀ d ∈ fs.dirs, d ∈ fsA.dirs := hE.2.2
  have hchar := process_real_run_eq cfg classify cy fs src fsA hsrc hclean hex hfsA
  have hLmem : ∀ f ∈ procMediaList cfg src fsA, isPrefixL src f.dir = true :=
    fun f hf => (procMediaList_mem cfg src fsA f hf).2.1
  have hfold := sortFold_settled cfg classify cy src hclean hout (procMediaList cfg src fsA)
    fsA statsZero hLmem
  have hndA : fsA.dirs.Nodup := by
    have := ensure_target_dirs_nodup false true cfg fs hnd
    rw [hfsA] at this
    exact this
  have hndB : (((procMediaList cfg src fsA).foldl
      (fun (acc : FS × Stats) f =>
        sort_item cfg classify cy false true f none acc.1
          { acc.2 with processed := acc.2.processed + 1 }) (fsA, statsZero)).1).dirs.Nodup :=
    sortFold_nodup cfg classify cy true (procMediaList cfg src fsA) fsA statsZero hndA
  obtain ⟨fsB, hfB⟩ : ∃ fsB, ((procMediaList cfg src fsA).foldl
      (fun (acc : FS × Stats) f =>
        sort_item cfg classify cy false true f none acc.1
          { acc.2 with processed := acc.2.processed + 1 }) (fsA, statsZero)).1 = fsB :=
    ⟨_, rfl⟩
  rw [hfB] at hchar hfold hndB
  have hview : viewOK src fsB (cleanup_empty_dirs false cfg fsB src) :=
    cleanup_viewOK cfg fsB src
  refine ⟨cleanup_empty_dirs false cfg fsB src, _, hchar, ?_, ?_, ?_, ?_, ?_⟩
  · intro f hfmem hfpre hfsupp hfext
    have hfB2 : f ∈ fsB.files := by
      rw [cleanup_eq_dirSweep, dirSweep_files] at hfmem
      exact hfmem
    have hfA : f ∈ fsA.files := hfold.1.1 f hfB2 hfpre
    have hfL : f ∈ procMediaList cfg src fsA :=
      procMediaList_intro cfg src fsA f hfA hfpre hfsupp hfext hout
    have hsetB : settled cfg classify cy fsB f = true := hfold.2 f hfL
    exact settled_mono cfg classify cy src hclean hout hfpre hview hsetB
  · intro d hd
    have hdo := hout d (targetDirs_sub cfg d hd)
    have hA : existsPath fsA d = true := by
      have := ensure_target_exists cfg fs hclean hne d hd
      rw [hfsA] at this
      exact this
    have hB : existsPath fsB d = true := stepOK_existsPath hfold.1 d hdo.1 hA
    exact hview.2 d hdo.1 hB
  · have hA : existsPath fsA src = true := existsPath_mono fsA fs hfilesA hdirsA src hex
    have hB := stepOK_existsPath_src hfold.1 hsrcne hA
    exact cleanup_existsPath_path cfg fsB src hB
  · exact cleanup_dirs_nodup cfg fsB src hndB
  · exact cleanup_idem cfg fsB src hndB


/-- C2 (amended): idempotence of a real pass holds when cleanup mode is off
    and every configured destination root — the movie, TV, anime-movie,
    anime-series and split-movie directories and the mismatched path — lies
    outside the source tree (and the source outside them). Under these
    conditions a second run of `process_source_directory` on the filesystem
    produced by the first run performs no further moves (the filesystem is a
    fixpoint: every media file found again is already at its computed
    destination and is skipped by the existing-target check), and the
    statistics are stable from the second run on: a third run reports exactly
    the second run's statistics. Without the disjointness proviso the claim
    fails (`C2_counterexample`): a TV directory inside the source makes the
    second run rescan and re-sort files the first run just placed. -/
theorem C2_second_run_fixpoint (cfg : Config) (classify : List Char → MediaInfo) (cy : Nat)
    (fs : FS) (src : FPath)
    (hsrc : cfg.SOURCE_DIR = some src)
    (hclean : cfg.CLEANUP_MODE_ENABLED = false)
    (hnd : fs.dirs.Nodup)
    (hout : ∀ d : FPath,
      (cfg.MOVIES_DIR = some d ∨ cfg.TV_SHOWS_DIR = some d ∨
       cfg.ANIME_MOVIES_DIR = some d ∨ cfg.ANIME_SERIES_DIR = some d ∨
       cfg.SPLIT_MOVIES_DIR = some d ∨ get_mismatched_path cfg = some d) →
      isPrefixL src d = false ∧ isPrefixL d src = false) :
    (process_source_directory cfg classify cy false true
        (process_source_directory cfg classify cy false true fs).1).1 =
      (process_source_directory cfg classify cy false true fs).1 ∧
    (process_source_directory cfg classify cy false true
        (process_source_directory cfg classify cy false true
          (process_source_directory cfg classify cy false true fs).1).1).2 =
      (process_source_directory cfg classify cy false true
        (process_source_directory cfg classify cy false true fs).1).2 := by
  obtain ⟨mp, hmp⟩ : ∃ mp, get_mismatched_path cfg = some mp := by
    unfold get_mismatched_path
    cases cfg.MISMATCHED_DIR with
    | some p => exact ⟨p, rfl⟩
    | none => rw [hsrc]; exact ⟨_, rfl⟩
  have hsrcne : src ≠ [] := by
    intro he
    have h1 := (hout mp (Or.inr (Or.inr (Or.inr (Or.inr (Or.inr hmp)))))).1
    rw [he, isPrefixL_nil_left] at h1
    exact Bool.noConfusion h1
  have hne : ∀ d ∈ targetDirsList cfg, d ≠ [] := by
    intro d hd
    exact outside_ne_nil (hout d (targetDirs_sub cfg d hd)).2
  by_cases hex : existsPath fs src = true
  · obtain ⟨fsR, st, heq, hset, htg, hsrcE, hndR, hfix⟩ :=
      process_run_post cfg classify cy fs src hsrc hclean hout hne hsrcne hnd hex
    have hnoop := process_noop cfg classify cy fsR src hsrc hclean hset htg hsrcE hfix
    simp only [heq]
    refine ⟨hnoop, ?_⟩
    rw [hnoop]
  · have hex2 : existsPath fs src = false := by
      cases hq : existsPath fs src with
      | false => rfl
      | true => exact absurd hq hex
    have h0 : process_source_directory cfg classify cy false true fs = (fs, statsZero) := by
      unfold process_source_directory
      rw [hsrc]
      simp only [hex2, Bool.not_false, if_true]
    refine ⟨?_, ?_⟩ <;> simp only [h0]

def cfgW2 : Config := { cfg0 with MISMATCHED_DIR := some ["mm".toList] }

def clW2 : List Char → MediaInfo := fun n =>
  ⟨n, none, MediaType.UNKNOWN, none, none, none⟩

def fsW2 : FS := ⟨[⟨["src".toList], "a.mkv".toList⟩], [["src".toList]]⟩

theorem C2_second_run_fixpoint_witness :
    fsW2.dirs.Nodup ∧
    (process_source_directory cfgW2 clW2 2025 false true
        (process_source_directory cfgW2 clW2 2025 false true fsW2).1).1 =
      (process_source_directory cfgW2 clW2 2025 false true fsW2).1 :=
  ⟨by decide,
   (C2_second_run_fixpoint cfgW2 clW2 2025 fsW2 ["src".toList] rfl rfl (by decide)
     (by
       intro d hd
       rcases hd with h | h | h | h | h | h
       · obtain rfl := Option.some.inj h.symm
         exact ⟨by decide, by decide⟩
       · obtain rfl := Option.some.inj h.symm
         exact ⟨by decide, by decide⟩
       · obtain rfl := Option.some.inj h.symm
         exact ⟨by decide, by decide⟩
       · obtain rfl := Option.some.inj h.symm
         exact ⟨by decide, by decide⟩
       · exact Option.noConfusion h
       · obtain rfl := Option.some.inj h.symm
         exact ⟨by decide, by decide⟩)).1⟩

def cfgC2 : Config := { cfg0 with TV_SHOWS_DIR := some ["src".toList, "TV".toList] }

def clC2 : List Char → MediaInfo := fun n =>
  if n = "a.S01E02".toList then ⟨"X".toList, none, MediaType.TV_SERIES, none, none, none⟩
  else if n = "Season 01".toList then ⟨"Y".toList, none, MediaType.MOVIE, none, none, none⟩
  else ⟨n, none, MediaType.UNKNOWN, none, none, none⟩

def fsC2 : FS := ⟨[⟨["src".toList], "a.S01E02.mkv".toList⟩], [["src".toList]]⟩

/-- C2 as stated is false: with the TV directory configured inside the source
    tree, the second run rescans the files the first run just placed under it,
    reclassifies their new parent folder and moves them again, so the second
    run is not move-free and the filesystem is not a fixpoint. -/
theorem C2_counterexample :
    ¬ ((process_source_directory cfgC2 clC2 2025 false true
          (process_source_directory cfgC2 clC2 2025 false true fsC2).1).1 =
        (process_source_directory cfgC2 clC2 2025 false true fsC2).1) := by decide

end SortMeDown
